import Mathlib

/-!
# Streamline tracking state machine (dwi/tractography/tracking/exec.h)

A shallow embedding of the per-streamline tracker `Exec<Method>`:
`iterate`, `gen_track`, `gen_track_unidir`, `apply_priors`, `track_rejected`,
`traversed_all_include_regions`, `satisfy_wm_requirement`, `truncate_exit_sgm`,
`next_rk4` and the functor `operator()`.

Conventions of the embedding.
* Positions and directions are values of an arbitrary type `P`; the floating
  point vector arithmetic of the source is taken as operations supplied by the
  environment.
* `Method P W` carries the fields of the tracking method that exec.h reads and
  writes directly (`pos`, `dir`, `act().sgm_depth`); `ext : W` is everything
  else the external collaborators keep (random state, caches, seed cursor).
* `Shared P W` is the read-only configuration `S` together with the external
  collaborators (step source, seed source, regions, tissue queries).
* C++ exceptions, failed assertions and reads outside a vector are values of
  `Err`; the two do-while loops take a fuel argument and `Err.out_of_fuel`
  stands for a loop that has not finished within the fuel given.
* `term_t` is tested for truth in the source (`if (termination)`,
  `while (!termination)`); `CONTINUE` is the enumerator tested as zero.
-/

namespace Tracking

/-- Termination reasons, as named in exec.h. -/
inductive term_t where
  | CONTINUE
  | ENTER_CGM
  | CALIBRATE_FAIL
  | EXIT_IMAGE
  | ENTER_CSF
  | BAD_SIGNAL
  | HIGH_CURVATURE
  | LENGTH_EXCEED
  | TERM_IN_SGM
  | EXIT_SGM
  | EXIT_MASK
  | ENTER_EXCLUDE
  | TRAVERSE_ALL_INCLUDE
  deriving DecidableEq, Repr

/-- Rejection reasons, as named in exec.h. -/
inductive reject_t where
  | TRACK_TOO_SHORT
  | TRACK_TOO_LONG
  | ENTER_EXCLUDE_REGION
  | MISSED_INCLUDE_REGION
  | ACT_POOR_TERMINATION
  | ACT_FAILED_WM_REQUIREMENT
  deriving DecidableEq, Repr

/-- Abnormal outcomes: the three exceptions thrown in exec.h, a failed
assertion, a read outside a vector, and exhausted loop fuel. -/
inductive Err where
  | undefined_termination
  | act_termination_in_non_act
  | excluded_but_termination_good
  | assertion_failed
  | out_of_bounds
  | out_of_fuel
  deriving DecidableEq, Repr

/-- Modelled from the spec: generated_track.h is not among the sources. A
generated track is the ordered sequence of points together with the index of
the seed point; clearing resets the index to zero and reversing makes the seed
the last point. -/
structure GeneratedTrack (P : Type) where
  pts : List P
  seed_index : Nat

namespace GeneratedTrack

variable {P : Type}

def clear (_tck : GeneratedTrack P) : GeneratedTrack P :=
  { pts := [], seed_index := 0 }

def size (tck : GeneratedTrack P) : Nat :=
  tck.pts.length

def get_seed_index (tck : GeneratedTrack P) : Nat :=
  tck.seed_index

def push_back (tck : GeneratedTrack P) (p : P) : GeneratedTrack P :=
  { tck with pts := tck.pts ++ [p] }

def reverse (tck : GeneratedTrack P) : GeneratedTrack P :=
  { pts := tck.pts.reverse, seed_index := tck.pts.length - 1 }

def back (tck : GeneratedTrack P) : Option P :=
  tck.pts.getLast?

end GeneratedTrack

/-- The fields of the tracking method that exec.h accesses directly. -/
structure Method (P W : Type) where
  pos : P
  dir : P
  sgm_depth : Nat
  ext : W

/-- The shared, read-only configuration `S` and the external collaborators. -/
structure Shared (P W : Type) where
  is_act : Bool
  act_backtrack : Bool
  act_crop_at_gmwmi : Bool
  unidirectional : Bool
  rk4 : Bool
  stop_on_all_include : Bool
  max_num_points : Nat
  min_num_points : Nat
  /-- The lookup table `term_add_to_tck` (declared outside exec.h). -/
  term_add_to_tck : term_t → Bool
  /-- The regions of `S.properties.mask`, `.exclude` and `.include`. -/
  properties_mask : List (P → Bool)
  properties_exclude : List (P → Bool)
  properties_include : List (P → Bool)
  /-- The seed source `S.properties.seeds`. -/
  seeds_is_finite : Bool
  get_seed : Method P W → Bool × Method P W
  /-- The step source and the other services of the tracking method. -/
  next : Method P W → term_t × Method P W
  check_seed : Method P W → Bool × Method P W
  init : Method P W → Bool × Method P W
  reverse_track : Method P W → Method P W
  truncate_track : GeneratedTrack P → Nat → Method P W → GeneratedTrack P × Method P W
  get_data : Method P W → Method P W
  /-- The metric is a float in the source; `none` stands for a value that is
  not below any other (+infinity or NaN). -/
  get_metric : Method P W → Option Int
  /-- The anatomical services `method.act()` and `S.act()`. -/
  check_structural : Method P W → term_t × Method P W
  in_pathology : Method P W → Bool
  seed_is_unidirectional : Method P W → Bool × Method P W
  crop_at_gmwmi : GeneratedTrack P → GeneratedTrack P
  /-- The white-matter integral test of `satisfy_wm_requirement` past its
  first guard (floating point, thresholds declared outside exec.h). -/
  act_wm_requirement : List P → Method P W → Bool × Method P W
  downsampler : GeneratedTrack P → GeneratedTrack P
  /-- Vector arithmetic on points. -/
  pos_valid : P → Bool
  invalid_point : P
  neg : P → P
  dir_from : P → P → P
  advance_half : P → P → P
  advance_full : P → P → P
  rk_mid_dir : P → P → P
  rk_final_dir : P → P → P → P → P
  rk_curvature_exceeded : P → P → Bool

/-- The mutable state of one `Exec` instance, with the shared rejection and
termination counters it increments. -/
structure Exec (P W : Type) where
  method : Method P W
  track_excluded : Bool
  track_included : List Bool
  rejections : reject_t → Nat
  terminations : term_t → Nat

variable {P W : Type}

/-- Modelled from the spec: the shared counters live in shared.h, which is not
among the sources; `add_rejection` increments the count of one reason. -/
def add_rejection (e : Exec P W) (r : reject_t) : Exec P W :=
  { e with rejections := fun x => if x = r then e.rejections x + 1 else e.rejections x }

/-- Modelled from the spec: `add_termination` increments the count of one
termination reason. -/
def add_termination (e : Exec P W) (t : term_t) : Exec P W :=
  { e with terminations := fun x => if x = t then e.terminations x + 1 else e.terminations x }

/-- Modelled from the spec: roi.h is not among the sources. A region set
contains a point when one of its regions does. -/
def ROISet_contains (rois : List (P → Bool)) (p : P) : Bool :=
  rois.any (fun r => r p)

/-- Modelled from the spec: the containment variant that records a touch of
region n in entry n of the caller's bitmap. -/
def ROISet_contains_record : List (P → Bool) → P → List Bool → List Bool
  | r :: rs, p, b :: bs => (b || r p) :: ROISet_contains_record rs p bs
  | _, _, bs => bs

/-- The constructor `Exec (shared)`. -/
def Exec.mk_from (S : Shared P W) (m : Method P W) (rej : reject_t → Nat)
    (term : term_t → Nat) : Exec P W :=
  { method := m
    track_excluded := false
    track_included := List.replicate S.properties_include.length false
    rejections := rej
    terminations := term }

def traversed_all_include_regions (e : Exec P W) : Bool :=
  e.track_included.all (fun b => b)

def next_rk4 (S : Shared P W) (m : Method P W) : term_t × Method P W :=
  let init_pos := m.pos
  let init_dir := m.dir
  let r1 := S.next m
  if r1.1 ≠ term_t.CONTINUE then r1 else
  let dir_rk1 := r1.2.dir
  let r2 := S.next { r1.2 with pos := S.advance_half init_pos dir_rk1, dir := init_dir }
  if r2.1 ≠ term_t.CONTINUE then r2 else
  let dir_rk2 := r2.2.dir
  let r3 := S.next { r2.2 with pos := S.advance_half init_pos dir_rk2, dir := init_dir }
  if r3.1 ≠ term_t.CONTINUE then r3 else
  let dir_rk3 := r3.2.dir
  let r4 := S.next { r3.2 with pos := S.advance_full init_pos dir_rk3,
                               dir := S.rk_mid_dir dir_rk2 dir_rk3 }
  if r4.1 ≠ term_t.CONTINUE then r4 else
  let dir_rk4 := r4.2.dir
  let final_dir := S.rk_final_dir dir_rk1 dir_rk2 dir_rk3 dir_rk4
  let final_pos := S.advance_full init_pos final_dir
  let r5 := S.next { r4.2 with pos := final_pos, dir := final_dir }
  if r5.1 ≠ term_t.CONTINUE then r5 else
  if S.rk_curvature_exceeded dir_rk1 r5.2.dir then (term_t.HIGH_CURVATURE, r5.2) else
  (term_t.CONTINUE, { r5.2 with pos := final_pos, dir := final_dir })

def iterate (S : Shared P W) (e : Exec P W) : term_t × Exec P W :=
  let r := if S.rk4 then next_rk4 S e.method else S.next e.method
  let method_term := r.1
  let e1 : Exec P W := { e with method := r.2 }
  if method_term ≠ term_t.CONTINUE then
    (if S.is_act && decide (e1.method.sgm_depth ≠ 0) then term_t.TERM_IN_SGM else method_term, e1)
  else
    let s := if S.is_act then S.check_structural e1.method else (term_t.CONTINUE, e1.method)
    let structural_term := s.1
    let e2 : Exec P W := { e1 with method := s.2 }
    if structural_term ≠ term_t.CONTINUE then (structural_term, e2)
    else if decide (S.properties_mask.length ≠ 0) && !ROISet_contains S.properties_mask e2.method.pos then
      (term_t.EXIT_MASK, e2)
    else if ROISet_contains S.properties_exclude e2.method.pos then
      (term_t.ENTER_EXCLUDE, e2)
    else
      let e3 : Exec P W :=
        if !(S.is_act && S.act_backtrack) then
          { e2 with track_included :=
              ROISet_contains_record S.properties_include e2.method.pos e2.track_included }
        else e2
      if S.stop_on_all_include && traversed_all_include_regions e3 then
        (term_t.TRAVERSE_ALL_INCLUDE, e3)
      else (term_t.CONTINUE, e3)

def apply_priors (S : Shared P W) (termination : term_t) (e : Exec P W) :
    Except Err (term_t × Exec P W) :=
  if S.is_act then
    match termination with
    | term_t.CONTINUE => Except.error Err.undefined_termination
    | term_t.ENTER_CGM | term_t.EXIT_IMAGE | term_t.EXIT_MASK | term_t.EXIT_SGM
    | term_t.TERM_IN_SGM | term_t.TRAVERSE_ALL_INCLUDE => Except.ok (termination, e)
    | term_t.ENTER_CSF | term_t.LENGTH_EXCEED | term_t.ENTER_EXCLUDE =>
      Except.ok (termination, { e with track_excluded := true })
    | term_t.CALIBRATE_FAIL | term_t.BAD_SIGNAL | term_t.HIGH_CURVATURE =>
      if e.method.sgm_depth ≠ 0 then Except.ok (term_t.TERM_IN_SGM, e)
      else if !S.in_pathology e.method then
        Except.ok (termination, { e with track_excluded := true })
      else Except.ok (termination, e)
  else
    match termination with
    | term_t.CONTINUE => Except.error Err.undefined_termination
    | term_t.ENTER_CGM | term_t.ENTER_CSF | term_t.EXIT_SGM | term_t.TERM_IN_SGM =>
      Except.error Err.act_termination_in_non_act
    | term_t.EXIT_IMAGE | term_t.EXIT_MASK | term_t.LENGTH_EXCEED | term_t.CALIBRATE_FAIL
    | term_t.BAD_SIGNAL | term_t.HIGH_CURVATURE | term_t.TRAVERSE_ALL_INCLUDE =>
      Except.ok (termination, e)
    | term_t.ENTER_EXCLUDE => Except.ok (termination, { e with track_excluded := true })

def satisfy_wm_requirement (S : Shared P W) (tck : List P) (e : Exec P W) : Bool × Exec P W :=
  if S.max_num_points = 2 then (true, e)
  else
    let r := S.act_wm_requirement tck e.method
    (r.1, { e with method := r.2 })

/-- The loop of `track_rejected` that records every point of the finished
track in the inclusion bitmap. -/
def include_all_points (S : Shared P W) : List P → List Bool → List Bool
  | [], bits => bits
  | p :: ps, bits => include_all_points S ps (ROISet_contains_record S.properties_include p bits)

def track_rejected (S : Shared P W) (tck : List P) (e : Exec P W) : Bool × Exec P W :=
  if e.track_excluded then (true, e)
  else if tck.length < S.min_num_points then (true, add_rejection e reject_t.TRACK_TOO_SHORT)
  else
    let w := if S.is_act then satisfy_wm_requirement S tck e else (true, e)
    if !w.1 then (true, add_rejection w.2 reject_t.ACT_FAILED_WM_REQUIREMENT)
    else
      let e1 : Exec P W :=
        if S.is_act && S.act_backtrack then
          { w.2 with track_included := include_all_points S tck w.2.track_included }
        else w.2
      if !traversed_all_include_regions e1 then
        (true, add_rejection e1 reject_t.MISSED_INCLUDE_REGION)
      else (false, e1)

/-- The comparison `this_value < min_value` of `truncate_exit_sgm`, with
`none` for +infinity (or, for `this_value`, NaN). -/
def metric_below : Option Int → Option Int → Bool
  | some a, some v => decide (a < v)
  | some _, none => true
  | none, _ => false

/-- The scan of `truncate_exit_sgm` over the indices i, i+1, ... (n of them);
`min_value = none` is the initial INFINITY. -/
def truncate_exit_sgm_scan (S : Shared P W) (pts : List P) :
    Nat → Nat → Option Int → Nat → Method P W → Except Err (Nat × Method P W)
  | 0, _, _, best_termination, m => Except.ok (best_termination, m)
  | n + 1, i, min_value, best_termination, m =>
    match pts.get? i, (if i = 0 then none else pts.get? (i - 1)) with
    | some p, some q =>
      let m1 := S.get_data { m with pos := p }
      let m2 : Method P W := { m1 with dir := S.dir_from p q }
      let this_value := S.get_metric m2
      if metric_below this_value min_value then
        truncate_exit_sgm_scan S pts n (i + 1) this_value i m2
      else truncate_exit_sgm_scan S pts n (i + 1) min_value best_termination m2
    | _, _ => Except.error Err.out_of_bounds

def truncate_exit_sgm (S : Shared P W) (tck : GeneratedTrack P) (e : Exec P W) :
    Except Err (GeneratedTrack P × Exec P W) :=
  if e.method.sgm_depth = 0 ∨ tck.size < e.method.sgm_depth then
    Except.error Err.assertion_failed
  else
    let sgm_start := tck.size - e.method.sgm_depth
    match truncate_exit_sgm_scan S tck.pts e.method.sgm_depth sgm_start none (tck.size - 1)
        e.method with
    | Except.error x => Except.error x
    | Except.ok r =>
      Except.ok ({ tck with pts := tck.pts.take (r.1 + 1) }, { e with method := r.2 })

/-- One pass through the body of the do-while loop of `gen_track_unidir`
without backtracking. -/
def gen_track_unidir_body (S : Shared P W) (tck : GeneratedTrack P) (e : Exec P W) :
    term_t × GeneratedTrack P × Exec P W :=
  let r := iterate S e
  let tck1 := if S.term_add_to_tck r.1 then tck.push_back r.2.method.pos else tck
  let termination :=
    if r.1 = term_t.CONTINUE ∧ tck1.size ≥ S.max_num_points then term_t.LENGTH_EXCEED else r.1
  (termination, tck1, r.2)

/-- The do-while loop of `gen_track_unidir` without backtracking. -/
def gen_track_unidir_loop (S : Shared P W) :
    Nat → GeneratedTrack P → Exec P W → Except Err (term_t × GeneratedTrack P × Exec P W)
  | 0, _, _ => Except.error Err.out_of_fuel
  | fuel + 1, tck, e =>
    let r := gen_track_unidir_body S tck e
    if r.1 = term_t.CONTINUE then gen_track_unidir_loop S fuel r.2.1 r.2.2
    else Except.ok r

/-- One pass through the body of the do-while loop of `gen_track_unidir` with
backtracking; the third component is the local counter `revert_step`. -/
def gen_track_unidir_backtrack_body (S : Shared P W) (tck : GeneratedTrack P)
    (revert_step : Nat) (e : Exec P W) :
    Except Err (term_t × GeneratedTrack P × Nat × Exec P W) :=
  let r := iterate S e
  let tck1 := if S.term_add_to_tck r.1 then tck.push_back r.2.method.pos else tck
  if r.1 ≠ term_t.CONTINUE then
    match apply_priors S r.1 r.2 with
    | Except.error x => Except.error x
    | Except.ok a =>
      if a.2.track_excluded && decide (a.1 ≠ term_t.ENTER_EXCLUDE) then
        let revert_step1 := revert_step + 1
        let tr := S.truncate_track tck1 revert_step1 a.2.method
        let e2 : Exec P W := { a.2 with method := tr.2 }
        if tr.1.size > tr.1.get_seed_index + 1 then
          match tr.1.pts.reverse with
          | last :: prev :: _ =>
            Except.ok (term_t.CONTINUE, tr.1, revert_step1,
              { e2 with track_excluded := false,
                        method := { e2.method with pos := last, dir := S.dir_from last prev } })
          | _ => Except.error Err.out_of_bounds
        else Except.ok (a.1, tr.1, revert_step1, e2)
      else Except.ok (a.1, tck1, revert_step, a.2)
  else if tck1.size ≥ S.max_num_points then
    Except.ok (term_t.LENGTH_EXCEED, tck1, revert_step, r.2)
  else Except.ok (term_t.CONTINUE, tck1, revert_step, r.2)

/-- The do-while loop of `gen_track_unidir` with backtracking. -/
def gen_track_unidir_backtrack (S : Shared P W) :
    Nat → GeneratedTrack P → Nat → Exec P W →
      Except Err (term_t × GeneratedTrack P × Nat × Exec P W)
  | 0, _, _, _ => Except.error Err.out_of_fuel
  | fuel + 1, tck, revert_step, e =>
    match gen_track_unidir_backtrack_body S tck revert_step e with
    | Except.error x => Except.error x
    | Except.ok r =>
      if r.1 = term_t.CONTINUE then gen_track_unidir_backtrack S fuel r.2.1 r.2.2.1 r.2.2.2
      else Except.ok r

/-- The switch of `gen_track_unidir` on the termination of an excluded track:
the rejection reason it counts, or none where the source throws. -/
def rejection_of_termination : term_t → Option reject_t
  | term_t.CALIBRATE_FAIL | term_t.ENTER_CSF | term_t.BAD_SIGNAL
  | term_t.HIGH_CURVATURE => some reject_t.ACT_POOR_TERMINATION
  | term_t.LENGTH_EXCEED => some reject_t.TRACK_TOO_LONG
  | term_t.ENTER_EXCLUDE => some reject_t.ENTER_EXCLUDE_REGION
  | _ => none

/-- The part of `gen_track_unidir` after its loop: priors, cropping at the
sub-cortical grey matter exit, the rejection counter and the termination
counter. -/
def gen_track_unidir_finish (S : Shared P W) (termination : term_t) (tck : GeneratedTrack P)
    (e : Exec P W) : Except Err (GeneratedTrack P × Exec P W) :=
  match apply_priors S termination e with
  | Except.error x => Except.error x
  | Except.ok a =>
    let termination1 := a.1
    let cropped : Except Err (GeneratedTrack P × Exec P W) :=
      if termination1 = term_t.EXIT_SGM then
        match truncate_exit_sgm S tck a.2 with
        | Except.error x => Except.error x
        | Except.ok t =>
          match t.1.back with
          | none => Except.error Err.out_of_bounds
          | some p => Except.ok (t.1, { t.2 with method := { t.2.method with pos := p } })
      else Except.ok (tck, a.2)
    match cropped with
    | Except.error x => Except.error x
    | Except.ok c =>
      let counted : Except Err (Exec P W) :=
        if c.2.track_excluded then
          match rejection_of_termination termination1 with
          | some reason => Except.ok (add_rejection c.2 reason)
          | none => Except.error Err.excluded_but_termination_good
        else Except.ok c.2
      match counted with
      | Except.error x => Except.error x
      | Except.ok e3 =>
        let tck3 :=
          if S.is_act && decide (termination1 = term_t.ENTER_CGM) && S.act_crop_at_gmwmi then
            S.crop_at_gmwmi c.1
          else c.1
        Except.ok (tck3, add_termination e3 termination1)

def gen_track_unidir (S : Shared P W) (fuel : Nat) (tck : GeneratedTrack P) (e : Exec P W) :
    Except Err (GeneratedTrack P × Exec P W) :=
  let e0 : Exec P W :=
    if S.is_act then { e with method := { e.method with sgm_depth := 0 } } else e
  if S.is_act && S.act_backtrack then
    match gen_track_unidir_backtrack S fuel tck 0 e0 with
    | Except.error x => Except.error x
    | Except.ok r => gen_track_unidir_finish S r.1 r.2.1 r.2.2.2
  else
    match gen_track_unidir_loop S fuel tck e0 with
    | Except.error x => Except.error x
    | Except.ok r => gen_track_unidir_finish S r.1 r.2.1 r.2.2

/-- The constant MAX_NUM_SEED_ATTEMPTS of exec.h. -/
def MAX_NUM_SEED_ATTEMPTS : Nat := 100000

/-- One seed attempt of the non-finite branch of `gen_track`:
`get_seed && check_seed && init`, evaluated left to right with short cut. -/
def seed_attempt (S : Shared P W) (m : Method P W) : Bool × Method P W :=
  let g := S.get_seed m
  if !g.1 then (false, g.2) else
  let c := S.check_seed g.2
  if !c.1 then (false, c.2) else
  S.init c.2

/-- The for loop of `gen_track` over seed attempts; it stops at the first
successful attempt. -/
def seed_attempts (S : Shared P W) : Nat → Method P W → Method P W
  | 0, m => m
  | n + 1, m =>
    let a := seed_attempt S m
    if a.1 then a.2 else seed_attempts S n a.2

/-- The start of forward growth in `gen_track`, once a seed is held: whether
the track is unidirectional, and the tracker state with the seed recorded in
the inclusion bitmap. -/
def forward_start (S : Shared P W) (e0 : Exec P W) : Bool × Exec P W :=
  let u := if S.is_act && !S.unidirectional then S.seed_is_unidirectional e0.method
           else (S.unidirectional, e0.method)
  (u.1, { e0 with method := u.2
                  track_included :=
                    ROISet_contains_record S.properties_include u.2.pos e0.track_included })

/-- The part of `gen_track` that follows seed acquisition: forward growth
and, unless the track is rejected or unidirectional, backward growth from the
seed. -/
def gen_track_from_seed (S : Shared P W) (fuel : Nat) (tck0 : GeneratedTrack P)
    (e0 : Exec P W) : Except Err (Bool × GeneratedTrack P × Exec P W) :=
  let unidirectional := (forward_start S e0).1
  let e1 := (forward_start S e0).2
  let seed_dir := e1.method.dir
  let tck1 := tck0.push_back e1.method.pos
  match gen_track_unidir S fuel tck1 e1 with
  | Except.error x => Except.error x
  | Except.ok f =>
    if !f.2.track_excluded && !unidirectional then
      let tck2 := f.1.reverse
      match tck2.back with
      | none => Except.error Err.out_of_bounds
      | some p =>
        let m2 := S.reverse_track { f.2.method with pos := p, dir := S.neg seed_dir }
        match gen_track_unidir S fuel tck2 { f.2 with method := m2 } with
        | Except.error x => Except.error x
        | Except.ok b => Except.ok (true, b.1, b.2)
    else Except.ok (true, f.1, f.2)

def gen_track (S : Shared P W) (fuel : Nat) (tck : GeneratedTrack P) (e : Exec P W) :
    Except Err (Bool × GeneratedTrack P × Exec P W) :=
  let tck0 := tck.clear
  let e0 : Exec P W :=
    { e with track_excluded := false
             track_included := List.replicate e.track_included.length false
             method := { e.method with dir := S.invalid_point } }
  if S.seeds_is_finite then
    let g := S.get_seed e0.method
    if !g.1 then Except.ok (false, tck0, { e0 with method := g.2 })
    else
      let c := S.check_seed g.2
      if !c.1 then Except.ok (true, tck0, { e0 with method := c.2, track_excluded := true })
      else
        let i := S.init c.2
        if !i.1 then Except.ok (true, tck0, { e0 with method := i.2, track_excluded := true })
        else gen_track_from_seed S fuel tck0 { e0 with method := i.2 }
  else
    let m1 := seed_attempts S MAX_NUM_SEED_ATTEMPTS e0.method
    if !S.pos_valid m1.pos then Except.ok (false, tck0, { e0 with method := m1 })
    else gen_track_from_seed S fuel tck0 { e0 with method := m1 }

/-- The functor `operator()`: the Boolean tells the queue whether an item was
produced. -/
def operator_call (S : Shared P W) (fuel : Nat) (item : GeneratedTrack P) (e : Exec P W) :
    Except Err (Bool × GeneratedTrack P × Exec P W) :=
  match gen_track S fuel item e with
  | Except.error x => Except.error x
  | Except.ok g =>
    if !g.1 then Except.ok (false, g.2.1, g.2.2)
    else
      let r := track_rejected S g.2.1.pts g.2.2
      let item1 := if r.1 then g.2.1.clear else g.2.1
      Except.ok (true, S.downsampler item1, r.2)

/-- The inclusion bitmap on which `track_rejected` runs its last check: with
backtracking it is first updated with every point of the finished track. -/
def acceptance_bits (S : Shared P W) (tck : List P) (e : Exec P W) : List Bool :=
  if S.is_act && S.act_backtrack then include_all_points S tck e.track_included
  else e.track_included

/-- The number of points a track holds beyond its seed point. -/
def points_beyond_seed (tck : GeneratedTrack P) : Nat :=
  tck.size - (tck.get_seed_index + 1)

/-- The track as it stands in a pass of the growth loop once `iterate` has
returned and the position has been appended where the table says so. -/
def track_after_iterate (S : Shared P W) (tck : GeneratedTrack P) (e : Exec P W) :
    GeneratedTrack P :=
  if S.term_add_to_tck (iterate S e).1 then tck.push_back (iterate S e).2.method.pos else tck

/-- The backtracking loop of `gen_track_unidir` with one observation added:
the largest number of points the track held beyond the seed at a rejection
that was followed by a truncation (`most`). Erasing the observation gives
`gen_track_unidir_backtrack`. -/
def gen_track_unidir_backtrack_traced (S : Shared P W) :
    Nat → GeneratedTrack P → Nat → Nat → Exec P W →
      Except Err ((term_t × GeneratedTrack P × Nat × Exec P W) × Nat)
  | 0, _, _, _, _ => Except.error Err.out_of_fuel
  | fuel + 1, tck, revert_step, most, e =>
    match gen_track_unidir_backtrack_body S tck revert_step e with
    | Except.error x => Except.error x
    | Except.ok r =>
      let most1 :=
        if r.2.2.1 = revert_step + 1 then
          max most (points_beyond_seed (track_after_iterate S tck e))
        else most
      if r.1 = term_t.CONTINUE then
        gen_track_unidir_backtrack_traced S fuel r.2.1 r.2.2.1 most1 r.2.2.2
      else Except.ok (r, most1)

/-- Whether the seed that `gen_track` draws from a finite seed source in state
e is acquired but fails the valid-start check (`check_seed` or `init`). -/
def seed_failed_valid_start (S : Shared P W) (e : Exec P W) : Bool :=
  let g := S.get_seed { e.method with dir := S.invalid_point }
  S.seeds_is_finite && g.1 &&
    (!(S.check_seed g.2).1 || !(S.init (S.check_seed g.2).2).1)

/-- The errors that stand for the three exceptions thrown in exec.h (as
opposed to a failed assertion, a read outside a vector or exhausted fuel). -/
def Err.thrown : Err → Bool
  | Err.undefined_termination => true
  | Err.act_termination_in_non_act => true
  | Err.excluded_but_termination_good => true
  | _ => false

/-- The terminations that `apply_priors` accepts only in
anatomically-constrained mode. -/
def act_only_termination : term_t → Bool
  | term_t.ENTER_CGM => true
  | term_t.ENTER_CSF => true
  | term_t.EXIT_SGM => true
  | term_t.TERM_IN_SGM => true
  | _ => false

/-- The condition under which the part of `gen_track_unidir` after its loop
raises no exception: the loop left with a termination other than CONTINUE,
outside anatomically-constrained mode not one reserved to that mode, and a
rejection flag set only in that mode by a rejecting termination (a local
failure only while the grey matter depth counter is zero). -/
def growth_exit_ok (S : Shared P W) (t : term_t) (l : Exec P W) : Prop :=
  t ≠ term_t.CONTINUE ∧
  (S.is_act = false → act_only_termination t = false) ∧
  (l.track_excluded = true →
    S.is_act = true ∧
    (t = term_t.ENTER_CSF ∨ t = term_t.LENGTH_EXCEED ∨ t = term_t.ENTER_EXCLUDE ∨
      ((t = term_t.CALIBRATE_FAIL ∨ t = term_t.BAD_SIGNAL ∨ t = term_t.HIGH_CURVATURE) ∧
        l.method.sgm_depth = 0)))

/-- What the assembly of a track asks of the collaborators declared outside
exec.h, in anatomically-constrained mode: the table appends on CONTINUE; `next`
leaves the grey matter depth counter alone; `check_structural` raises it by at
most one when it returns CONTINUE and not at all otherwise; `truncate_track`
removes exactly `revert_step` trailing points and lowers the counter by as
much; `crop_at_gmwmi` keeps the seed index and the points up to the seed. -/
def act_collaborators_local (S : Shared P W) : Prop :=
  S.term_add_to_tck term_t.CONTINUE = true ∧
  (∀ m, (S.next m).2.sgm_depth = m.sgm_depth) ∧
  (∀ m, ((S.check_structural m).1 = term_t.CONTINUE →
          (S.check_structural m).2.sgm_depth ≤ m.sgm_depth + 1) ∧
        ((S.check_structural m).1 ≠ term_t.CONTINUE →
          (S.check_structural m).2.sgm_depth ≤ m.sgm_depth)) ∧
  (∀ (t : GeneratedTrack P) (n : Nat) (m : Method P W),
    (S.truncate_track t n m).1 = { t with pts := t.pts.take (t.pts.length - n) } ∧
    (S.truncate_track t n m).2.sgm_depth ≤ m.sgm_depth - n) ∧
  (∀ (t : GeneratedTrack P),
    (S.crop_at_gmwmi t).seed_index = t.seed_index ∧
    ∃ extra, (S.crop_at_gmwmi t).pts = t.pts.take (t.seed_index + 1) ++ extra)

/-- The tracker state with which `gen_track` starts the second growth: the
position is the last point p of the reversed track, the direction the negated
seed direction, and `reverse_track` has been called on the method. -/
def backward_start (S : Shared P W) (seed_dir : P) (ef : Exec P W) (p : P) : Exec P W :=
  { ef with method := S.reverse_track { ef.method with pos := p, dir := S.neg seed_dir } }

/-- The values of `revert_step` with which a pass of the backtracking loop,
entered with the counter `revert_step`, calls `truncate_track`: the call
`method.truncate_track (tck, ++revert_step)` is made when `iterate` terminates
and `apply_priors` leaves the track rejected for a reason other than
ENTER_EXCLUDE. -/
def truncate_calls (S : Shared P W) (revert_step : Nat) (e : Exec P W) : List Nat :=
  let r := iterate S e
  if r.1 ≠ term_t.CONTINUE then
    match apply_priors S r.1 r.2 with
    | Except.error _ => []
    | Except.ok a =>
      if a.2.track_excluded && decide (a.1 ≠ term_t.ENTER_EXCLUDE) then [revert_step + 1]
      else []
  else []

/-- The backtracking loop of `gen_track_unidir` with one observation added:
the values of `revert_step` passed to `truncate_track`, in the order of the
calls. Erasing the observation gives `gen_track_unidir_backtrack`. -/
def gen_track_unidir_backtrack_calls (S : Shared P W) :
    Nat → GeneratedTrack P → Nat → List Nat → Exec P W →
      Except Err ((term_t × GeneratedTrack P × Nat × Exec P W) × List Nat)
  | 0, _, _, _, _ => Except.error Err.out_of_fuel
  | fuel + 1, tck, revert_step, calls, e =>
    match gen_track_unidir_backtrack_body S tck revert_step e with
    | Except.error x => Except.error x
    | Except.ok r =>
      let calls1 := calls ++ truncate_calls S revert_step e
      if r.1 = term_t.CONTINUE then
        gen_track_unidir_backtrack_calls S fuel r.2.1 r.2.2.1 calls1 r.2.2.2
      else Except.ok (r, calls1)

/-- The inclusion bitmap b results from the bitmap a by recording some
positions in turn, and none when backtracking is enabled. -/
def records_points (S : Shared P W) (a b : List Bool) : Prop :=
  ∃ ps, b = include_all_points S ps a ∧ ((S.is_act && S.act_backtrack) = true → ps = [])

/-- The value `method_term` of `iterate`, with the method as the step source
leaves it: `S.rk4 ? next_rk4() : method.next()`. -/
def method_term (S : Shared P W) (m : Method P W) : term_t × Method P W :=
  if S.rk4 then next_rk4 S m else S.next m

/-- The value `structural_term` of `iterate`, with the method as the check
leaves it; outside anatomically-constrained mode the check is not made. -/
def structural_term (S : Shared P W) (m : Method P W) : term_t × Method P W :=
  if S.is_act then S.check_structural m else (term_t.CONTINUE, m)

/-- The values `this_value` that the scan of `truncate_exit_sgm` computes at
the indices i, i+1, ... (n of them), in order; the method state is threaded as
in the scan. -/
def sgm_metrics (S : Shared P W) (pts : List P) : Nat → Nat → Method P W → List (Option Int)
  | 0, _, _ => []
  | n + 1, i, m =>
    match pts.get? i, (if i = 0 then none else pts.get? (i - 1)) with
    | some p, some q =>
      let m1 := S.get_data { m with pos := p }
      let m2 : Method P W := { m1 with dir := S.dir_from p q }
      S.get_metric m2 :: sgm_metrics S pts n (i + 1) m2
    | _, _ => []

/-! ## Per-voxel seed sources (seeding/basic.cpp)

The classes are declared in a header that is not part of the sources at hand;
their members are taken from the uses in `get_seed`. Voxel indices and counters
are unbounded integers, the random number generator is a state of type R, and
points have type Pt. The unlocked read of `expired` at the top of `get_seed` is
modelled sequentially. -/

/-- The mask image of a seed source: its three dimensions, its voxel values
and the map from voxel to scanner coordinates. -/
structure Mask (Pt : Type) where
  dim0 : Int
  dim1 : Int
  dim2 : Int
  value : Int × Int × Int → Bool
  voxel2scanner : Pt → Pt

/-- One pass of the body of the do-while loop that moves the voxel `v` to the
next position in the mask image. -/
def next_voxel (Pt : Type) (mask : Mask Pt) (v : Int × Int × Int) : Int × Int × Int :=
  if v.2.2 + 1 = mask.dim2 then
    if v.2.1 + 1 = mask.dim1 then (v.1 + 1, 0, 0)
    else (v.1, v.2.1 + 1, 0)
  else (v.1, v.2.1, v.2.2 + 1)

/-- The do-while loop `do ... while (v[0] != v.dim(0) && !v.value())`; `none`
when the fuel runs out. -/
def scan_mask (Pt : Type) (mask : Mask Pt) : Nat → Int × Int × Int → Option (Int × Int × Int)
  | 0, _ => none
  | fuel + 1, v =>
    let v1 := next_voxel Pt mask v
    if v1.1 ≠ mask.dim0 ∧ mask.value v1 = false then scan_mask Pt mask fuel v1
    else some v1

/-- The members of `Random_per_voxel` used by `get_seed`; `jitter` stands for
`p.set (vox[0]+rng.uniform()-0.5, ...)`, returning the point and the advanced
generator. -/
structure Random_per_voxel (R Pt : Type) where
  mask : Mask Pt
  vox : Int × Int × Int
  inc : Nat
  num : Nat
  expired : Bool
  rng : R
  jitter : R → Int × Int × Int → Pt × R

/-- The tail of `Random_per_voxel::get_seed`: set the point and return true. -/
def Random_per_voxel.emit (R Pt : Type) (s : Random_per_voxel R Pt) :
    Bool × Random_per_voxel R Pt × Pt :=
  let j := s.jitter s.rng s.vox
  (true, { s with rng := j.2 }, s.mask.voxel2scanner j.1)

/-- The function `Random_per_voxel::get_seed (Point<float>& p)`: the Boolean
result, the object afterwards and the output point afterwards. -/
def Random_per_voxel.get_seed (R Pt : Type) (fuel : Nat) (s : Random_per_voxel R Pt) (p : Pt) :
    Option (Bool × Random_per_voxel R Pt × Pt) :=
  if s.expired then some (false, s, p)
  else if s.vox.2.2 < 0 then
    match scan_mask Pt s.mask fuel s.vox with
    | none => none
    | some v =>
      if v.1 = s.mask.dim0 then some (false, { s with inc := 0, expired := true }, p)
      else some (Random_per_voxel.emit R Pt { s with inc := 0, vox := v })
  else if s.inc + 1 = s.num then
    match scan_mask Pt s.mask fuel s.vox with
    | none => none
    | some v =>
      if v.1 = s.mask.dim0 then some (false, { s with inc := 0, expired := true }, p)
      else some (Random_per_voxel.emit R Pt { s with inc := 0, vox := v })
  else some (Random_per_voxel.emit R Pt { s with inc := s.inc + 1 })

/-- The members of `Grid_per_voxel` used by `get_seed`; `grid_point` stands
for `p.set (vox[0]+offset+(pos[0]*step), ...)`. -/
structure Grid_per_voxel (Pt : Type) where
  mask : Mask Pt
  vox : Int × Int × Int
  pos : Int × Int × Int
  os : Int
  expired : Bool
  grid_point : Int × Int × Int → Int × Int × Int → Pt

/-- The tail of `Grid_per_voxel::get_seed`: set the point and return true. -/
def Grid_per_voxel.emit (Pt : Type) (s : Grid_per_voxel Pt) : Bool × Grid_per_voxel Pt × Pt :=
  (true, s, s.mask.voxel2scanner (s.grid_point s.vox s.pos))

/-- The function `Grid_per_voxel::get_seed (Point<float>& p)`: the Boolean
result, the object afterwards and the output point afterwards. -/
def Grid_per_voxel.get_seed (Pt : Type) (fuel : Nat) (s : Grid_per_voxel Pt) (p : Pt) :
    Option (Bool × Grid_per_voxel Pt × Pt) :=
  if s.expired then some (false, s, p)
  else if s.pos.2.2 + 1 ≥ s.os then
    if s.pos.2.1 + 1 ≥ s.os then
      if s.pos.1 + 1 ≥ s.os then
        match scan_mask Pt s.mask fuel s.vox with
        | none => none
        | some v =>
          if v.1 = s.mask.dim0 then some (false, { s with pos := (0, 0, 0), expired := true }, p)
          else some (Grid_per_voxel.emit Pt { s with pos := (0, 0, 0), vox := v })
      else some (Grid_per_voxel.emit Pt { s with pos := (s.pos.1 + 1, 0, 0) })
    else some (Grid_per_voxel.emit Pt { s with pos := (s.pos.1, s.pos.2.1 + 1, 0) })
  else some (Grid_per_voxel.emit Pt { s with pos := (s.pos.1, s.pos.2.1, s.pos.2.2 + 1) })

/-! ## Count validation (properties.h)

A property set is the list of its key-value entries; `find` is the lookup of
a key. The conversion `to<size_t>` is declared outside the sources at hand and
is a parameter, with `none` where it throws. -/

/-- The ways `check_counts` can fail to return: its two exceptions, a failed
conversion, and the dereference of the end iterator that `find` returns for a
missing entry (undefined behaviour). -/
inductive count_error where
  | missing_count
  | count_mismatch
  | conversion_failed
  | end_iterator_dereferenced
  deriving DecidableEq

/-- The function `check_counts (a, b, type, abort_on_fail)`; the result lists
the warnings issued. -/
def check_counts (to_size_t : String → Option Nat) (a b : List (String × String))
    (type : String) (abort_on_fail : Bool) : Except count_error (List String) :=
  let count_a := a.lookup "count"
  let count_b := b.lookup "count"
  let mesg1 := "unable to validate " ++ type ++ " pair: missing count field"
  let mesg2 := type ++ " files do not contain same number of elements"
  let missing : Bool := count_a.isNone || count_b.isNone
  if missing && abort_on_fail then Except.error count_error.missing_count
  else
    let warnings : List String := if missing then [mesg1] else []
    match count_a, count_b with
    | some x, some y =>
      match to_size_t x, to_size_t y with
      | some m, some n =>
        if m ≠ n then
          if abort_on_fail then Except.error count_error.count_mismatch
          else Except.ok (warnings ++ [mesg2])
        else Except.ok warnings
      | _, _ => Except.error count_error.conversion_failed
    | _, _ => Except.error count_error.end_iterator_dereferenced

/-! ## The bounding box of the rejection sampler (seeding/basic.cpp)

The image is the list of its voxels in loop order, each with its position and
its value; values range over the integers (a float in the source, of which
only the sign and the order matter here). The offsets `bottom` and the sizes
`top` are `size_t`, modelled as natural numbers with the arithmetic taken
modulo 2^64. -/

/-- The constant `std::numeric_limits<size_t>::max()`. -/
def SIZE_MAX : Nat := 2 ^ 64 - 1

/-- Subtraction of `size_t` values. -/
def sub_size_t (a b : Nat) : Nat :=
  (a % 2 ^ 64 + 2 ^ 64 - b % 2 ^ 64) % 2 ^ 64

/-- Addition of `size_t` values. -/
def add_size_t (a b : Nat) : Nat :=
  (a + b) % 2 ^ 64

/-- The exceptions of the constructor of `Rejection`. -/
inductive rejection_error where
  | negative_value
  | empty_image
  deriving DecidableEq

/-- The two updates of one axis for a voxel with non-zero value:
`if (size_t(vox[a]) < bottom[a]) bottom[a] = vox[a]` and
`if (size_t(vox[a]) > top[a]) top[a] = vox[a]`, on the pair (bottom, top). -/
def axis_update (bt : Nat × Nat) (x : Nat) : Nat × Nat :=
  (if x < bt.1 then x else bt.1, if x > bt.2 then x else bt.2)

/-- The loop of the constructor over the voxels: the running maximum and the
pairs (bottom, top) of the three axes. -/
def Rejection_scan :
    List ((Nat × Nat × Nat) × Int) → Int × (Nat × Nat) × (Nat × Nat) × (Nat × Nat) →
      Except rejection_error (Int × (Nat × Nat) × (Nat × Nat) × (Nat × Nat))
  | [], st => Except.ok st
  | (p, value) :: rest, st =>
    if value ≠ 0 then
      if value < 0 then Except.error rejection_error.negative_value
      else Rejection_scan rest
        (max st.1 value, axis_update st.2.1 p.1, axis_update st.2.2.1 p.2.1,
          axis_update st.2.2.2 p.2.2)
    else Rejection_scan rest st

/-- The adjustment of one axis after the loop: `if (bottom) --bottom` and
`top = std::min (size_t (dim - bottom), top + 2 - bottom)`. -/
def margin (dim : Nat) (bt : Nat × Nat) : Nat × Nat :=
  let bottom := if bt.1 ≠ 0 then sub_size_t bt.1 1 else bt.1
  (bottom, min (sub_size_t dim bottom) (sub_size_t (add_size_t bt.2 2) bottom))

/-- The part of the constructor `Rejection::Rejection` that computes the
bounding box: the pairs (bottom, top) of the three axes. -/
def Rejection_bounds (dim : Nat × Nat × Nat) (voxels : List ((Nat × Nat × Nat) × Int)) :
    Except rejection_error ((Nat × Nat) × (Nat × Nat) × (Nat × Nat)) :=
  match Rejection_scan voxels (0, (SIZE_MAX, 0), (SIZE_MAX, 0), (SIZE_MAX, 0)) with
  | Except.error x => Except.error x
  | Except.ok st =>
    if st.1 = 0 then Except.error rejection_error.empty_image
    else Except.ok (margin dim.1 st.2.1, margin dim.2.1 st.2.2.1, margin dim.2.2 st.2.2.2)

/-- The pair (bottom, top) `new` results from the pair `old` by the updates of
one axis for the coordinates xs: the bottom is the least and the top the
greatest of the old value and the coordinates. -/
def axis_bounds (old new : Nat × Nat) (xs : List Nat) : Prop :=
  new.1 ≤ old.1 ∧ old.2 ≤ new.2 ∧ (∀ x ∈ xs, new.1 ≤ x ∧ x ≤ new.2) ∧
  (new.1 = old.1 ∨ new.1 ∈ xs) ∧ (new.2 = old.2 ∨ new.2 ∈ xs)

/-! ## Test scenarios

Tracking along a line: positions and directions are integers, the method keeps
a step counter and the seed source a count of the seeds it has handed out. -/

/-- The append table of the scenarios: the position is appended on CONTINUE
and on the terminations that enter a tissue or a region, not on leaving the
image or mask, on a local failure or on reaching the maximum length. -/
def scenario_table : term_t → Bool
  | term_t.CONTINUE => true
  | term_t.ENTER_CGM => true
  | term_t.ENTER_CSF => true
  | term_t.TERM_IN_SGM => true
  | term_t.EXIT_SGM => true
  | term_t.ENTER_EXCLUDE => true
  | term_t.TRAVERSE_ALL_INCLUDE => true
  | _ => false

/-- A configuration without regions, single-step integration, a finite seed
source that yields the single seed 0 with direction 1, and `truncate_track`
removing exactly `revert_step` trailing points and lowering the grey matter
depth counter by as much. -/
def line_scenario (act bt uni : Bool) (minp maxp : Nat)
    (step : Method Int (Nat × Nat) → term_t × Method Int (Nat × Nat)) :
    Shared Int (Nat × Nat) :=
  { is_act := act
    act_backtrack := bt
    act_crop_at_gmwmi := false
    unidirectional := uni
    rk4 := false
    stop_on_all_include := false
    max_num_points := maxp
    min_num_points := minp
    term_add_to_tck := scenario_table
    properties_mask := []
    properties_exclude := []
    properties_include := []
    seeds_is_finite := true
    get_seed := fun m =>
      if m.ext.2 = 0 then (true, { pos := 0, dir := 1, sgm_depth := m.sgm_depth, ext := (0, 1) })
      else (false, m)
    next := step
    check_seed := fun m => (true, m)
    init := fun m => (true, m)
    reverse_track := fun m => { m with ext := (0, m.ext.2) }
    truncate_track := fun tck n m =>
      ({ tck with pts := tck.pts.take (tck.pts.length - n) },
       { m with sgm_depth := m.sgm_depth - n })
    get_data := fun m => m
    get_metric := fun _ => some 0
    check_structural := fun m => (term_t.CONTINUE, m)
    in_pathology := fun _ => false
    seed_is_unidirectional := fun m => (false, m)
    crop_at_gmwmi := fun t => t
    act_wm_requirement := fun _ m => (true, m)
    downsampler := fun t => t
    pos_valid := fun _ => true
    invalid_point := 0
    neg := fun p => -p
    dir_from := fun a b => a - b
    advance_half := fun p _ => p
    advance_full := fun p d => p + d
    rk_mid_dir := fun a _ => a
    rk_final_dir := fun a _ _ _ => a
    rk_curvature_exceeded := fun _ _ => false }

/-- A step source that returns CONTINUE (advancing by the direction) for the
first k calls and the termination t afterwards. -/
def count_then (k : Nat) (t : term_t) (m : Method Int (Nat × Nat)) :
    term_t × Method Int (Nat × Nat) :=
  if m.ext.1 < k then
    (term_t.CONTINUE, { m with pos := m.pos + m.dir, ext := (m.ext.1 + 1, m.ext.2) })
  else (t, m)

/-- A step source that advances by the direction and returns the termination
t whenever the new position lies d or more steps from the seed 0. -/
def reject_at (d : Nat) (t : term_t) (m : Method Int (Nat × Nat)) :
    term_t × Method Int (Nat × Nat) :=
  if (m.pos + m.dir).natAbs < d then (term_t.CONTINUE, { m with pos := m.pos + m.dir })
  else (t, { m with pos := m.pos + m.dir })

/-- A freshly constructed tracker for the scenarios, all counters zero. -/
def scenario_start : Exec Int (Nat × Nat) :=
  { method := { pos := 0, dir := 0, sgm_depth := 0, ext := (0, 0) }
    track_excluded := false
    track_included := []
    rejections := fun _ => 0
    terminations := fun _ => 0 }

/-- The tracker state at the start of forward growth from the seed 0. -/
def scenario_seeded : Exec Int (Nat × Nat) :=
  { scenario_start with method := { pos := 0, dir := 1, sgm_depth := 0, ext := (0, 1) } }

/-- The tracker state after a scenario run: final position, direction and
step count, the rejection flag, the one rejection reason counted (if any) and
the one termination counted. -/
def scenario_outcome (p d : Int) (n : Nat) (excluded : Bool) (rejection : Option reject_t)
    (termination : term_t) : Exec Int (Nat × Nat) :=
  let base : Exec Int (Nat × Nat) :=
    { method := { pos := p, dir := d, sgm_depth := 0, ext := (n, 1) }
      track_excluded := excluded
      track_included := []
      rejections := fun _ => 0
      terminations := fun _ => 0 }
  add_termination
    (match rejection with
     | none => base
     | some reason => add_rejection base reason)
    termination

/-- The line scenario with an exclusion region covering the positions from 3
onwards. -/
def exclusion_scenario (act bt : Bool) : Shared Int (Nat × Nat) :=
  { line_scenario act bt false 2 100 (count_then 9 term_t.EXIT_IMAGE) with
    properties_exclude := [fun p => decide (3 ≤ p)] }

/-- The line scenario with a valid-start check that fails for every seed. -/
def failing_check_scenario : Shared Int (Nat × Nat) :=
  { line_scenario false false true 2 100 (count_then 9 term_t.EXIT_IMAGE) with
    check_seed := fun m => (false, m) }

/-- The line scenario with a seed source that is not finite and always yields
the seed 0 with direction 1 (counting the seeds handed out), and a method
whose initialisation fails for every seed and leaves the position as it is. -/
def failing_init_scenario : Shared Int (Nat × Nat) :=
  { line_scenario false false true 2 100 (count_then 9 term_t.EXIT_IMAGE) with
    seeds_is_finite := false
    get_seed := fun m =>
      (true, { pos := 0, dir := 1, sgm_depth := m.sgm_depth, ext := (0, m.ext.2 + 1) })
    init := fun m => (false, m) }

/-- The line scenario in anatomically-constrained mode with backtracking and a
step source that fails with BAD_SIGNAL on the first step. -/
def failing_step_scenario : Shared Int (Nat × Nat) :=
  line_scenario true true true 2 100 (reject_at 1 term_t.BAD_SIGNAL)

/-- A mask of 1 x 1 x 2 voxels, both set, with the identity as transform. -/
def two_voxel_mask : Mask (Int × Int × Int) :=
  { dim0 := 1, dim1 := 1, dim2 := 2, value := fun _ => true, voxel2scanner := fun p => p }

/-- A random per-voxel source on the last voxel of `two_voxel_mask`, one seed
per voxel, not yet expired. -/
def last_voxel_random : Random_per_voxel Nat (Int × Int × Int) :=
  { mask := two_voxel_mask, vox := (0, 0, 1), inc := 0, num := 1, expired := false, rng := 0
    jitter := fun r v => (v, r + 1) }

/-- A grid per-voxel source on the last grid position of the last voxel of
`two_voxel_mask`, not yet expired. -/
def last_voxel_grid : Grid_per_voxel (Int × Int × Int) :=
  { mask := two_voxel_mask, vox := (0, 0, 1), pos := (1, 1, 1), os := 2, expired := false
    grid_point := fun v q => (2 * v.1 + q.1, 2 * v.2.1 + q.2.1, 2 * v.2.2 + q.2.2) }

/-- Successive calls of `Grid_per_voxel::get_seed`, n of them, each given the
output point the previous one left: the outputs (the point set by a call that
returned true, `none` for a call that returned false), the object and the
output point afterwards. -/
def Grid_per_voxel.run (Pt : Type) (fuel : Nat) :
    Nat → Grid_per_voxel Pt → Pt → Option (List (Option Pt) × Grid_per_voxel Pt × Pt)
  | 0, s, p => some ([], s, p)
  | n + 1, s, p =>
    match Grid_per_voxel.get_seed Pt fuel s p with
    | none => none
    | some r =>
      match Grid_per_voxel.run Pt fuel n r.2.1 r.2.2 with
      | none => none
      | some t => some ((if r.1 then some r.2.2 else none) :: t.1, t.2)

/-- Modelled from the spec: the constructor of `Grid_per_voxel` is in a header
that is not among the sources. The initial state has the sub-voxel counter
about to wrap and the voxel cursor just before the first voxel. -/
def Grid_per_voxel.initial (Pt : Type) (mask : Mask Pt) (os : Int)
    (grid_point : Int × Int × Int → Int × Int × Int → Pt) : Grid_per_voxel Pt :=
  { mask := mask, vox := (0, 0, -1), pos := (os, os, os), os := os, expired := false
    grid_point := grid_point }

/-- The position of a voxel in raster order, the last axis running fastest. -/
def raster_index (Pt : Type) (mask : Mask Pt) (v : Int × Int × Int) : Int :=
  (v.1 * mask.dim1 + v.2.1) * mask.dim2 + v.2.2

/-- Whether a voxel lies within the mask image. -/
def in_image (Pt : Type) (mask : Mask Pt) (v : Int × Int × Int) : Prop :=
  0 ≤ v.1 ∧ v.1 < mask.dim0 ∧ 0 ≤ v.2.1 ∧ v.2.1 < mask.dim1 ∧ 0 ≤ v.2.2 ∧ v.2.2 < mask.dim2

/-- The voxels that n passes of the voxel loop body visit after the voxel v. -/
def voxels_after (Pt : Type) (mask : Mask Pt) : Nat → Int × Int × Int → List (Int × Int × Int)
  | 0, _ => []
  | n + 1, v => next_voxel Pt mask v :: voxels_after Pt mask n (next_voxel Pt mask v)

/-- The voxels of the mask image in the order in which the voxel loop visits
them from the initial cursor. -/
def voxel_sequence (Pt : Type) (mask : Mask Pt) : List (Int × Int × Int) :=
  voxels_after Pt mask (mask.dim0 * mask.dim1 * mask.dim2).toNat (0, 0, -1)

/-- The grid offsets (i, j, k) with i, j, k below os, the last running
fastest. -/
def grid_offsets (os : Nat) : List (Int × Int × Int) :=
  (List.range os).flatMap fun (a : Nat) => (List.range os).flatMap fun (b : Nat) =>
    (List.range os).map fun (c : Nat) => ((a : Int), (b : Int), (c : Int))

/-- The object s with the voxel cursor at v and the sub-voxel counter at q. -/
def Grid_per_voxel.place (Pt : Type) (s : Grid_per_voxel Pt) (v q : Int × Int × Int) :
    Grid_per_voxel Pt :=
  { s with vox := v, pos := q }

/-- The point that `Grid_per_voxel::get_seed` sets for the voxel v and the
sub-voxel counter q. -/
def Grid_per_voxel.seed_point (Pt : Type) (s : Grid_per_voxel Pt) (v q : Int × Int × Int) : Pt :=
  s.mask.voxel2scanner (s.grid_point v q)

/-- The outputs of the calls that visit row b of plane a of the grid of the
voxel v. -/
def Grid_per_voxel.row_seeds (Pt : Type) (s : Grid_per_voxel Pt) (v : Int × Int × Int)
    (k : Nat) (a b : Int) : List (Option Pt) :=
  (List.range k).map fun (c : Nat) => some (Grid_per_voxel.seed_point Pt s v (a, b, (c : Int)))

/-- The outputs of the calls that visit plane a of the grid of the voxel v. -/
def Grid_per_voxel.plane_seeds (Pt : Type) (s : Grid_per_voxel Pt) (v : Int × Int × Int)
    (k : Nat) (a : Int) : List (Option Pt) :=
  (List.range k).flatMap fun (b : Nat) => Grid_per_voxel.row_seeds Pt s v k a (b : Int)

/-- The outputs of the calls that visit the grid of the voxel v. -/
def Grid_per_voxel.voxel_seeds (Pt : Type) (s : Grid_per_voxel Pt) (k : Nat)
    (v : Int × Int × Int) : List (Option Pt) :=
  (List.range k).flatMap fun (a : Nat) => Grid_per_voxel.plane_seeds Pt s v k (a : Int)

/-! ## Top-N / bottom-N thresholding (cmd/threshold.cpp)

An image is the list of its voxel intensities in the order of the voxel loop;
the position of a voxel is its index in that order. Intensities range over a
linear order, which is what `<` and `>` are on floats other than NaN. -/

/-- The values written to the output image: NaN, 0.0 and 1.0. -/
inductive mask_value where
  | nan
  | zero
  | one
  deriving DecidableEq

/-- The failures of the thresholding code: the exception on a count larger
than the image, and the dereference of an iterator into an empty list. -/
inductive threshold_error where
  | count_exceeds_voxels
  | empty_list
  deriving DecidableEq

/-- Insertion into the `std::multimap` (kept as a list in key order): the new
entry goes after the entries whose key is not greater. -/
def multimap_insert {α : Type} [LinearOrder α] (x : α × Nat) : List (α × Nat) → List (α × Nat)
  | [] => [x]
  | y :: ys => if x.1 < y.1 then x :: y :: ys else y :: multimap_insert x ys

/-- The voxel loop of the `if (topN)` branch over the remaining voxels. -/
def top_loop {α : Type} [LinearOrder α] (topN : Nat) :
    List (α × Nat) → List (α × Nat) → Option (List (α × Nat))
  | [], list => some list
  | v :: vs, list =>
    if list.length = topN then
      match list with
      | [] => none
      | b :: rest =>
        if v.1 < b.1 then top_loop topN vs list
        else top_loop topN vs (multimap_insert v rest)
    else top_loop topN vs (multimap_insert v list)

/-- The voxel loop of the `else` branch (bottom N) over the remaining voxels. -/
def bottom_loop {α : Type} [LinearOrder α] (bottomN : Nat) :
    List (α × Nat) → List (α × Nat) → Option (List (α × Nat))
  | [], list => some list
  | v :: vs, list =>
    if list.length = bottomN then
      match list.getLast? with
      | none => none
      | some b =>
        if v.1 > b.1 then bottom_loop bottomN vs list
        else bottom_loop bottomN vs (multimap_insert v list.dropLast)
    else bottom_loop bottomN vs (multimap_insert v list)

/-- The two output loops: every voxel is set to `zero`, then the voxel of
every list entry is set to `one`. -/
def write_mask {α : Type} (zero_value one_value : mask_value) (count : Nat)
    (list : List (α × Nat)) : List mask_value :=
  list.foldl (fun out entry => out.set entry.2 one_value) (List.replicate count zero_value)

/-- The part of EXECUTE that runs for `-top` and `-bottom`: the check of the
count against the number of voxels and the block guarded by
`if (topN || bottomN)`. With `-top N` the arguments are `topN = N` and
`bottomN = 0`, with `-bottom N` they are `topN = 0` and `bottomN = N`. The
guard itself is in `threshold_execute`: this block is entered only when one of
the two counts is non-zero. -/
def threshold_top_bottom {α : Type} [LinearOrder α] (topN bottomN : Nat) (invert use_NaN : Bool)
    (image : List α) : Except threshold_error (List mask_value) :=
  if image.length < topN ∨ image.length < bottomN then
    Except.error threshold_error.count_exceeds_voxels
  else
    let zero0 := if use_NaN then mask_value.nan else mask_value.zero
    let zero_value := if invert then mask_value.one else zero0
    let one_value := if invert then zero0 else mask_value.one
    let voxels := image.zip (List.range image.length)
    let selected := if topN ≠ 0 then top_loop topN voxels [] else bottom_loop bottomN voxels []
    match selected with
    | none => Except.error threshold_error.empty_list
    | some list => Except.ok (write_mask zero_value one_value image.length list)

/-- EXECUTE after the options are read, for a run without `-percentile`:
the check of the counts against the number of voxels, then the block of
`if (topN || bottomN)` when one of the counts is non-zero, and otherwise the
threshold at the intensity `val`, every voxel below it set to `zero` and every
other voxel to `one`. A `val` of `none` is the NaN that `val` starts with, and
is replaced by `first_min`, the value of `hist.first_min()`. -/
def threshold_execute {α : Type} [LinearOrder α] (val : Option α) (first_min : α)
    (topN bottomN : Nat) (invert use_NaN : Bool) (image : List α) :
    Except threshold_error (List mask_value) :=
  if image.length < topN ∨ image.length < bottomN then
    Except.error threshold_error.count_exceeds_voxels
  else
    let zero0 := if use_NaN then mask_value.nan else mask_value.zero
    let zero_value := if invert then mask_value.one else zero0
    let one_value := if invert then zero0 else mask_value.one
    if topN ≠ 0 ∨ bottomN ≠ 0 then threshold_top_bottom topN bottomN invert use_NaN image
    else
      let val1 := match val with
        | none => first_min
        | some v => v
      Except.ok (image.map fun v => if v < val1 then zero_value else one_value)

/-- The line scenario, bidirectional and without anatomical constraints, with
one inclusion region covering the positions from 2 onwards. -/
def inclusion_scenario : Shared Int (Nat × Nat) :=
  { line_scenario false false false 2 100 (count_then 3 term_t.EXIT_IMAGE) with
    properties_include := [fun p => decide (2 ≤ p)] }

/-- The line scenario without anatomical constraints, with a mask covering
the positions up to 2, an exclusion region covering the positions from 3
onwards and an inclusion region covering the positions from 1 onwards. -/
def masked_exclusion_scenario : Shared Int (Nat × Nat) :=
  { line_scenario false false true 2 100 (count_then 9 term_t.EXIT_IMAGE) with
    properties_mask := [fun p => decide (p ≤ 2)]
    properties_exclude := [fun p => decide (3 ≤ p)]
    properties_include := [fun p => decide (1 ≤ p)] }

/-- The line scenario in anatomically-constrained mode with a metric that is
the squared distance of the position from 3, and not below infinity at the
position 5. -/
def metric_scenario : Shared Int (Nat × Nat) :=
  { line_scenario true false true 2 100 (count_then 9 term_t.EXIT_IMAGE) with
    get_metric := fun m => if m.pos = 5 then none else some ((m.pos - 3) * (m.pos - 3)) }

/-- The line scenario in anatomically-constrained mode, unidirectional, with
a minimum of one point, a white matter requirement that every track fails and
a step source that leaves the image at once. -/
def failing_wm_scenario (maxp : Nat) : Shared Int (Nat × Nat) :=
  { line_scenario true false true 1 maxp (count_then 0 term_t.EXIT_IMAGE) with
    act_wm_requirement := fun _ m => (false, m) }

/-- The line scenario in anatomically-constrained mode with backtracking,
unidirectional, with one inclusion region covering the positions from 2
onwards. -/
def deferred_inclusion_scenario : Shared Int (Nat × Nat) :=
  { line_scenario true true true 2 100 (count_then 3 term_t.EXIT_IMAGE) with
    properties_include := [fun p => decide (2 ≤ p)] }

/-- A decimal conversion for the count scenarios: the value of a non-empty
string of digits. -/
def read_count (s : String) : Option Nat :=
  if s.data = [] then none
  else s.data.foldl
    (fun acc c =>
      match acc with
      | none => none
      | some n => if c.isDigit then some (10 * n + (c.toNat - 48)) else none)
    (some 0)

/-- A mask of 1 x 1 x 3 voxels of which the first and the last are set, with
the identity as transform. -/
def gap_mask : Mask (Int × Int × Int) :=
  { dim0 := 1, dim1 := 1, dim2 := 3, value := fun v => decide (v.2.2 ≠ 1)
    voxel2scanner := fun p => p }

/-- The single-seed line scenario (unconstrained, unidirectional, a step
source continuing 9 times then EXIT_IMAGE, min_points = 2, max_points = 100)
with fourth-order Runge-Kutta integration switched on. -/
def rk4_scenario : Shared Int (Nat × Nat) :=
  { line_scenario false false true 2 100 (count_then 9 term_t.EXIT_IMAGE) with rk4 := true }

/-- The single-seed line scenario with the early stop on all inclusion
regions switched on (and, as in the scenario, no inclusion region). -/
def early_stop_scenario : Shared Int (Nat × Nat) :=
  { line_scenario false false true 2 100 (count_then 9 term_t.EXIT_IMAGE) with
    stop_on_all_include := true }

/-! ## Theorems -/

/-- C8. In anatomically-constrained mode, for every tracker state and every
termination other than CONTINUE, CALIBRATE_FAIL, BAD_SIGNAL and HIGH_CURVATURE,
`apply_priors` returns the termination unchanged; it sets the rejection flag
when the termination is ENTER_CSF, LENGTH_EXCEED or ENTER_EXCLUDE and leaves the
flag (and the rest of the state) as it was for the six others. -/
theorem apply_priors_act_terminal (S : Shared P W) (e : Exec P W) (t : term_t)
    (hact : S.is_act = true) (h0 : t ≠ term_t.CONTINUE) (h1 : t ≠ term_t.CALIBRATE_FAIL)
    (h2 : t ≠ term_t.BAD_SIGNAL) (h3 : t ≠ term_t.HIGH_CURVATURE) :
    apply_priors S t e = Except.ok (t,
      { e with track_excluded :=
          if t = term_t.ENTER_CSF ∨ t = term_t.LENGTH_EXCEED ∨ t = term_t.ENTER_EXCLUDE
          then true else e.track_excluded }) := by
  cases t <;> simp_all [apply_priors]

theorem apply_priors_act_terminal_witness :
    apply_priors (line_scenario true false true 2 100 (count_then 9 term_t.EXIT_IMAGE))
      term_t.ENTER_CSF scenario_start
      = Except.ok (term_t.ENTER_CSF,
          { scenario_start with track_excluded :=
              if term_t.ENTER_CSF = term_t.ENTER_CSF ∨ term_t.ENTER_CSF = term_t.LENGTH_EXCEED
                ∨ term_t.ENTER_CSF = term_t.ENTER_EXCLUDE
              then true else scenario_start.track_excluded }) :=
  apply_priors_act_terminal _ _ _ rfl (by decide) (by decide) (by decide) (by decide)

/-- C9. In anatomically-constrained mode, for a termination among
CALIBRATE_FAIL, BAD_SIGNAL and HIGH_CURVATURE: when the sub-cortical grey matter
depth counter is non-zero `apply_priors` replaces the termination by
TERM_IN_SGM and changes nothing else; when the counter is zero the termination
is unchanged, the rejection flag is set if the position is not inside
pathological tissue and is left as it was if it is. -/
theorem apply_priors_act_failure (S : Shared P W) (e : Exec P W) (t : term_t)
    (hact : S.is_act = true)
    (ht : t = term_t.CALIBRATE_FAIL ∨ t = term_t.BAD_SIGNAL ∨ t = term_t.HIGH_CURVATURE) :
    (e.method.sgm_depth ≠ 0 → apply_priors S t e = Except.ok (term_t.TERM_IN_SGM, e)) ∧
    (e.method.sgm_depth = 0 →
      apply_priors S t e = Except.ok (t,
        { e with track_excluded :=
            if S.in_pathology e.method = true then e.track_excluded else true })) := by
  rcases ht with h | h | h <;> subst h <;> constructor <;> intro hd <;>
    cases hp : S.in_pathology e.method <;> simp [apply_priors, hact, hd, hp]

theorem apply_priors_act_failure_witness :
    (scenario_start.method.sgm_depth ≠ 0 →
      apply_priors (line_scenario true false true 2 100 (count_then 9 term_t.EXIT_IMAGE))
        term_t.BAD_SIGNAL scenario_start = Except.ok (term_t.TERM_IN_SGM, scenario_start)) ∧
    (scenario_start.method.sgm_depth = 0 →
      apply_priors (line_scenario true false true 2 100 (count_then 9 term_t.EXIT_IMAGE))
        term_t.BAD_SIGNAL scenario_start = Except.ok (term_t.BAD_SIGNAL,
        { scenario_start with
            track_excluded :=
              if Shared.in_pathology
                  (line_scenario true false true 2 100 (count_then 9 term_t.EXIT_IMAGE))
                  scenario_start.method = true
              then scenario_start.track_excluded else true })) :=
  apply_priors_act_failure _ _ _ rfl (Or.inr (Or.inl rfl))

/-! ### The acceptance test -/

theorem satisfy_wm_requirement_frame (S : Shared P W) (tck : List P) (e : Exec P W) :
    (satisfy_wm_requirement S tck e).2 =
      { e with method := (satisfy_wm_requirement S tck e).2.method } := by
  unfold satisfy_wm_requirement
  split <;> rfl

theorem track_rejected_excluded (S : Shared P W) (tck : List P) (e : Exec P W)
    (hexcl : e.track_excluded = true) : track_rejected S tck e = (true, e) := by
  simp [track_rejected, hexcl]

theorem track_rejected_short (S : Shared P W) (tck : List P) (e : Exec P W)
    (hexcl : e.track_excluded = false) (hlen : tck.length < S.min_num_points) :
    track_rejected S tck e = (true, add_rejection e reject_t.TRACK_TOO_SHORT) := by
  simp [track_rejected, hexcl, hlen]

theorem track_rejected_wm_failed (S : Shared P W) (tck : List P) (e : Exec P W)
    (hexcl : e.track_excluded = false) (hlen : S.min_num_points ≤ tck.length)
    (hact : S.is_act = true) (hwm : (satisfy_wm_requirement S tck e).1 = false) :
    track_rejected S tck e =
      (true, add_rejection (satisfy_wm_requirement S tck e).2
        reject_t.ACT_FAILED_WM_REQUIREMENT) := by
  have hlt : ¬ tck.length < S.min_num_points := Nat.not_lt.mpr hlen
  simp [track_rejected, hexcl, hlt, hact, hwm]

theorem wm_failed_of_not (S : Shared P W) (tck : List P) (e : Exec P W)
    (hwm : ¬ (S.is_act = true → (satisfy_wm_requirement S tck e).1 = true)) :
    S.is_act = true ∧ (satisfy_wm_requirement S tck e).1 = false := by
  constructor
  · by_contra hc
    exact hwm (fun h => absurd h hc)
  · cases hv : (satisfy_wm_requirement S tck e).1
    · rfl
    · exact absurd (fun _ => hv) hwm

theorem track_rejected_checked (S : Shared P W) (tck : List P) (e : Exec P W)
    (hexcl : e.track_excluded = false) (hlen : S.min_num_points ≤ tck.length)
    (hwm : S.is_act = true → (satisfy_wm_requirement S tck e).1 = true) :
    track_rejected S tck e =
      if (acceptance_bits S tck e).all (fun b => b) = true then
        (false, { (if S.is_act then (satisfy_wm_requirement S tck e).2 else e) with
                    track_included := acceptance_bits S tck e })
      else
        (true, add_rejection
          { (if S.is_act then (satisfy_wm_requirement S tck e).2 else e) with
              track_included := acceptance_bits S tck e }
          reject_t.MISSED_INCLUDE_REGION) := by
  have hlt : ¬ tck.length < S.min_num_points := Nat.not_lt.mpr hlen
  have hf := satisfy_wm_requirement_frame S tck e
  unfold track_rejected acceptance_bits
  simp only [hexcl, hlt, if_false, Bool.false_eq_true]
  cases hact : S.is_act
  · simp only [Bool.false_and, Bool.false_eq_true, if_false, Bool.not_true,
      traversed_all_include_regions]
    by_cases ht : e.track_included.all (fun b => b) = true
    · simp [ht]
    · simp [ht]
  · have hw := hwm hact
    simp only [Bool.true_and, if_true, hw, Bool.not_true, Bool.false_eq_true, if_false,
      traversed_all_include_regions]
    cases hbt : S.act_backtrack
    · simp only [Bool.false_eq_true, if_false]
      by_cases ht : e.track_included.all (fun b => b) = true
      · rw [hf]; simp [ht]
      · rw [hf]; simp [ht]
    · simp only [if_true]
      by_cases ht : (include_all_points S tck e.track_included).all (fun b => b) = true
      · rw [hf]; simp [ht]
      · rw [hf]; simp [ht]

/-- C4. For a path not marked rejected during growth: with fewer than
min_points points `track_rejected` rejects it and increments TRACK_TOO_SHORT
once, touching nothing else; with min_points points or more (in particular
with exactly min_points) the TRACK_TOO_SHORT counter is not touched and the
path is accepted exactly when the remaining checks pass, that is the
white-matter requirement in anatomically-constrained mode and all inclusion
bits set. -/
theorem track_rejected_too_short_iff (S : Shared P W) (tck : List P) (e : Exec P W)
    (hexcl : e.track_excluded = false) :
    (tck.length < S.min_num_points →
      track_rejected S tck e = (true, add_rejection e reject_t.TRACK_TOO_SHORT)) ∧
    (S.min_num_points ≤ tck.length →
      (track_rejected S tck e).2.rejections reject_t.TRACK_TOO_SHORT
          = e.rejections reject_t.TRACK_TOO_SHORT ∧
      ((track_rejected S tck e).1 = false ↔
        ((S.is_act = true → (satisfy_wm_requirement S tck e).1 = true) ∧
          (acceptance_bits S tck e).all (fun b => b) = true))) := by
  refine ⟨track_rejected_short S tck e hexcl, fun hlen => ?_⟩
  have hf := satisfy_wm_requirement_frame S tck e
  by_cases hwm : S.is_act = true → (satisfy_wm_requirement S tck e).1 = true
  · rw [track_rejected_checked S tck e hexcl hlen hwm]
    by_cases hb : (acceptance_bits S tck e).all (fun b => b) = true
    · cases hact : S.is_act
      · simp [hb]
      · rw [if_pos hb, if_pos rfl, hf]
        simp [hb, hwm hact]
    · cases hact : S.is_act
      · simp [hb, add_rejection]
      · rw [if_neg hb, if_pos rfl, hf]
        simp [hb, add_rejection]
  · obtain ⟨hact, hw⟩ := wm_failed_of_not S tck e hwm
    rw [track_rejected_wm_failed S tck e hexcl hlen hact hw, hf]
    simp [add_rejection, hact, hw]

theorem track_rejected_too_short_iff_witness :
    track_rejected (line_scenario false false true 2 100 (count_then 9 term_t.EXIT_IMAGE))
        [0] scenario_start
      = (true, add_rejection scenario_start reject_t.TRACK_TOO_SHORT) ∧
    (track_rejected (line_scenario false false true 2 100 (count_then 9 term_t.EXIT_IMAGE))
        [0, 1] scenario_start).1 = false :=
  ⟨(track_rejected_too_short_iff
      (line_scenario false false true 2 100 (count_then 9 term_t.EXIT_IMAGE))
      [0] scenario_start rfl).1 (by decide),
   ((track_rejected_too_short_iff
      (line_scenario false false true 2 100 (count_then 9 term_t.EXIT_IMAGE))
      [0, 1] scenario_start rfl).2 (by decide)).2.mpr ⟨by decide, by decide⟩⟩

/-- C5. In every mode, when `track_rejected` returns false every entry of the
inclusion bitmap `track_included` is true at that moment; and a path that no
earlier check rejects (not marked rejected, long enough, white-matter
requirement met) but whose tested bitmap has an unset entry is rejected, with
MISSED_INCLUDE_REGION incremented once and no other rejection counter
touched. -/
theorem track_rejected_accepts_only_included (S : Shared P W) (tck : List P) (e : Exec P W) :
    ((track_rejected S tck e).1 = false →
      ∀ b ∈ (track_rejected S tck e).2.track_included, b = true) ∧
    (e.track_excluded = false → S.min_num_points ≤ tck.length →
      (S.is_act = true → (satisfy_wm_requirement S tck e).1 = true) →
      (∃ b ∈ acceptance_bits S tck e, b = false) →
      (track_rejected S tck e).1 = true ∧
      (track_rejected S tck e).2.rejections =
        fun x => if x = reject_t.MISSED_INCLUDE_REGION then e.rejections x + 1
                 else e.rejections x) := by
  have hf := satisfy_wm_requirement_frame S tck e
  constructor
  · intro hacc
    cases hexcl : e.track_excluded
    · by_cases hlen : S.min_num_points ≤ tck.length
      · by_cases hwm : S.is_act = true → (satisfy_wm_requirement S tck e).1 = true
        · rw [track_rejected_checked S tck e hexcl hlen hwm] at hacc ⊢
          by_cases hb : (acceptance_bits S tck e).all (fun b => b) = true
          · rw [if_pos hb]
            intro b hbmem
            simpa using (List.all_eq_true.mp hb) b hbmem
          · rw [if_neg hb] at hacc
            simp at hacc
        · obtain ⟨hact, hw⟩ := wm_failed_of_not S tck e hwm
          rw [track_rejected_wm_failed S tck e hexcl hlen hact hw] at hacc
          simp at hacc
      · rw [track_rejected_short S tck e hexcl (Nat.lt_of_not_le hlen)] at hacc
        simp at hacc
    · rw [track_rejected_excluded S tck e hexcl] at hacc
      simp at hacc
  · intro hexcl hlen hwm hb
    have hnb : ¬ (acceptance_bits S tck e).all (fun b => b) = true := by
      intro hall
      obtain ⟨b, hbmem, hbf⟩ := hb
      have := (List.all_eq_true.mp hall) b hbmem
      simp [hbf] at this
    rw [track_rejected_checked S tck e hexcl hlen hwm, if_neg hnb]
    cases hact : S.is_act
    · simp [add_rejection]
    · rw [if_pos rfl, hf]
      simp [add_rejection]

theorem track_rejected_accepts_only_included_witness :
    (∀ b ∈ (track_rejected
        (line_scenario false false true 2 100 (count_then 9 term_t.EXIT_IMAGE))
        [0, 1] { scenario_start with track_included := [true] }).2.track_included, b = true) ∧
    (track_rejected (line_scenario false false true 2 100 (count_then 9 term_t.EXIT_IMAGE))
        [0, 1] { scenario_start with track_included := [true, false] }).1 = true :=
  ⟨(track_rejected_accepts_only_included
      (line_scenario false false true 2 100 (count_then 9 term_t.EXIT_IMAGE))
      [0, 1] { scenario_start with track_included := [true] }).1 (by decide),
   ((track_rejected_accepts_only_included
      (line_scenario false false true 2 100 (count_then 9 term_t.EXIT_IMAGE))
      [0, 1] { scenario_start with track_included := [true, false] }).2
        rfl (by decide) (by decide) ⟨false, by decide, rfl⟩).1⟩

/-! ### Growth without anatomical constraints and without regions -/

theorem iterate_plain (S : Shared P W) (e : Exec P W)
    (hact : S.is_act = false) (hrk4 : S.rk4 = false) (hstop : S.stop_on_all_include = false)
    (hmask : S.properties_mask = []) (hexcl : S.properties_exclude = [])
    (hincl : S.properties_include = []) :
    iterate S e = ((S.next e.method).1, { e with method := (S.next e.method).2 }) := by
  unfold iterate
  by_cases h : (S.next e.method).1 = term_t.CONTINUE
  · simp [hact, hrk4, hstop, hmask, hexcl, hincl, h, ROISet_contains, ROISet_contains_record]
  · simp [hact, hrk4, h]

theorem gen_track_unidir_finish_plain (S : Shared P W) (t : term_t) (tck : GeneratedTrack P)
    (e : Exec P W) (hact : S.is_act = false) (hexcl : e.track_excluded = false)
    (ht : t = term_t.EXIT_IMAGE ∨ t = term_t.EXIT_MASK ∨ t = term_t.LENGTH_EXCEED ∨
      t = term_t.CALIBRATE_FAIL ∨ t = term_t.BAD_SIGNAL ∨ t = term_t.HIGH_CURVATURE ∨
      t = term_t.TRAVERSE_ALL_INCLUDE) :
    gen_track_unidir_finish S t tck e = Except.ok (tck, add_termination e t) := by
  rcases ht with h | h | h | h | h | h | h <;> subst h <;>
    simp [gen_track_unidir_finish, apply_priors, hact, hexcl]

theorem gen_track_unidir_loop_steps (S : Shared P W) (k : Nat) (ms : Nat → Method P W)
    (mf : Method P W) (t : term_t)
    (hact : S.is_act = false) (hrk4 : S.rk4 = false) (hstop : S.stop_on_all_include = false)
    (hmask : S.properties_mask = []) (hexcl : S.properties_exclude = [])
    (hincl : S.properties_include = [])
    (hadd : S.term_add_to_tck term_t.CONTINUE = true) (hnoadd : S.term_add_to_tck t = false)
    (ht : t ≠ term_t.CONTINUE)
    (hstep : ∀ i, i < k → S.next (ms i) = (term_t.CONTINUE, ms (i + 1)))
    (hexit : S.next (ms k) = (t, mf))
    (hmax : k + 1 < S.max_num_points) :
    ∀ (j i : Nat) (tck : GeneratedTrack P) (e : Exec P W) (fuel : Nat),
      i + j = k → j + 1 ≤ fuel → e.method = ms i → tck.pts.length = i + 1 →
      gen_track_unidir_loop S fuel tck e =
        Except.ok (t,
          { pts := tck.pts ++ (List.range' (i + 1) j).map (fun n => (ms n).pos),
            seed_index := tck.seed_index },
          { e with method := mf }) := by
  intro j
  induction j with
  | zero =>
    intro i tck e fuel hij hfuel hm hlen
    obtain ⟨f, rfl⟩ : ∃ f, fuel = f + 1 := ⟨fuel - 1, by omega⟩
    have hik : i = k := by omega
    subst hik
    have hit := iterate_plain S e hact hrk4 hstop hmask hexcl hincl
    rw [hm, hexit] at hit
    simp [gen_track_unidir_loop, gen_track_unidir_body, hit, hnoadd, ht]
  | succ j ih =>
    intro i tck e fuel hij hfuel hm hlen
    obtain ⟨f, rfl⟩ : ∃ f, fuel = f + 1 := ⟨fuel - 1, by omega⟩
    have hik : i < k := by omega
    have hit := iterate_plain S e hact hrk4 hstop hmask hexcl hincl
    rw [hm, hstep i hik] at hit
    have hsz : ¬ (S.max_num_points ≤ tck.pts.length + 1) := by omega
    have hrec := ih (i + 1) (tck.push_back (ms (i + 1)).pos) { e with method := ms (i + 1) } f
      (by omega) (by omega) rfl (by simp [GeneratedTrack.push_back, hlen])
    simp only [gen_track_unidir_loop, gen_track_unidir_body, hit, hadd, if_true,
      GeneratedTrack.size, GeneratedTrack.push_back, List.length_append, List.length_singleton,
      ge_iff_le, hsz, and_false, if_false]
    simp only [GeneratedTrack.push_back] at hrec
    rw [hrec]
    simp [List.range'_succ]

/-- Counterexample to C1 as stated: the single-seed scenario with k = 9,
min_points = 2 and max_points = 100. With fourth-order Runge-Kutta integration
each pass of `iterate` consumes up to five answers of the step source, so the
second pass meets EXIT_IMAGE and the accepted path has 2 points, not 10. With
the early stop on all inclusion regions and no inclusion region, the first
pass ends with TRAVERSE_ALL_INCLUDE: the accepted path has 2 points and the
EXIT_IMAGE counter stays at zero. -/
theorem single_seed_path_cut_short :
    (operator_call rk4_scenario 10 { pts := [], seed_index := 0 } scenario_start).toOption.map
      (fun r => (r.1, r.2.1.pts, r.2.2.track_excluded, r.2.2.terminations term_t.EXIT_IMAGE))
      = some (true, [0, 1], false, 1) ∧
    (operator_call early_stop_scenario 10 { pts := [], seed_index := 0 }
        scenario_start).toOption.map
      (fun r => (r.1, r.2.1.pts, r.2.2.track_excluded, r.2.2.terminations term_t.EXIT_IMAGE,
        r.2.2.terminations term_t.TRAVERSE_ALL_INCLUDE))
      = some (true, [0, 1], false, 0, 1) := by
  constructor <;> rfl

/-- C1 (amended). Unconstrained, unidirectional tracking with single-step
integration (Runge-Kutta integration off),
a finite seed source that yields one valid seed, no mask, inclusion or
exclusion region and no early stop, a table that appends on CONTINUE and not
on EXIT_IMAGE, and a step source that returns CONTINUE k times (through the
method states ms 0, ..., ms k) and then EXIT_IMAGE, with
min_points <= k+1 < max_points. The first call of the functor returns true with
the path of the k+1 positions of ms 0, ..., ms k in order (handed through the
downsampler), the EXIT_IMAGE termination counter is incremented once and no
rejection counter changes; the next call finds no seed and returns false. -/
theorem operator_call_single_seed_path (S : Shared P W) (e : Exec P W)
    (item : GeneratedTrack P) (k : Nat) (ms : Nat → Method P W) (m1 m2 mf mz : Method P W)
    (hact : S.is_act = false) (huni : S.unidirectional = true) (hrk4 : S.rk4 = false)
    (hstop : S.stop_on_all_include = false) (hfin : S.seeds_is_finite = true)
    (hmask : S.properties_mask = []) (hexcl : S.properties_exclude = [])
    (hincl : S.properties_include = []) (hbits : e.track_included = [])
    (hadd : S.term_add_to_tck term_t.CONTINUE = true)
    (hnoadd : S.term_add_to_tck term_t.EXIT_IMAGE = false)
    (hseed : S.get_seed { e.method with dir := S.invalid_point } = (true, m1))
    (hcheck : S.check_seed m1 = (true, m2)) (hinit : S.init m2 = (true, ms 0))
    (hstep : ∀ i, i < k → S.next (ms i) = (term_t.CONTINUE, ms (i + 1)))
    (hexit : S.next (ms k) = (term_t.EXIT_IMAGE, mf))
    (hnomore : S.get_seed { mf with dir := S.invalid_point } = (false, mz))
    (hmin : S.min_num_points ≤ k + 1) (hmax : k + 1 < S.max_num_points)
    (fuel : Nat) (hfuel : k + 1 ≤ fuel) :
    operator_call S fuel item e =
      Except.ok (true,
        S.downsampler { pts := (List.range (k + 1)).map (fun n => (ms n).pos), seed_index := 0 },
        { method := mf
          track_excluded := false
          track_included := []
          rejections := e.rejections
          terminations := fun x =>
            if x = term_t.EXIT_IMAGE then e.terminations x + 1 else e.terminations x }) ∧
    ∀ item1 : GeneratedTrack P,
      operator_call S fuel item1
          { method := mf
            track_excluded := false
            track_included := []
            rejections := e.rejections
            terminations := fun x =>
              if x = term_t.EXIT_IMAGE then e.terminations x + 1 else e.terminations x } =
        Except.ok (false, { pts := [], seed_index := 0 },
          { method := mz
            track_excluded := false
            track_included := []
            rejections := e.rejections
            terminations := fun x =>
              if x = term_t.EXIT_IMAGE then e.terminations x + 1 else e.terminations x }) := by
  constructor
  · have hloop := gen_track_unidir_loop_steps S k ms mf term_t.EXIT_IMAGE hact hrk4 hstop hmask
      hexcl hincl hadd hnoadd (by decide) hstep hexit hmax k 0
      { pts := [(ms 0).pos], seed_index := 0 }
      { method := ms 0, track_excluded := false, track_included := [],
        rejections := e.rejections, terminations := e.terminations }
      fuel (by omega) hfuel rfl rfl
    have hpts : (ms 0).pos :: List.map (fun n => (ms n).pos) (List.range' 1 k)
        = List.map (fun n => (ms n).pos) (List.range (k + 1)) := by
      rw [List.range_eq_range', List.range'_succ]
      simp
    have hlen : ¬ (k + 1 < S.min_num_points) := by omega
    simp only [Nat.zero_add, List.singleton_append] at hloop
    simp [operator_call, gen_track, gen_track_from_seed, forward_start, gen_track_unidir, hact,
      huni, hfin,
      hincl, hbits, hseed, hcheck, hinit, GeneratedTrack.clear, GeneratedTrack.push_back,
      ROISet_contains_record, hloop, gen_track_unidir_finish_plain, add_termination,
      track_rejected, traversed_all_include_regions, hpts, hlen]
  · intro item1
    simp [operator_call, gen_track, hfin, hnomore, GeneratedTrack.clear]

theorem operator_call_single_seed_path_witness :
    operator_call (line_scenario false false true 2 100 (count_then 9 term_t.EXIT_IMAGE)) 10
        { pts := [], seed_index := 0 } scenario_start =
      Except.ok (true, { pts := [0, 1, 2, 3, 4, 5, 6, 7, 8, 9], seed_index := 0 },
        { method := { pos := 9, dir := 1, sgm_depth := 0, ext := (9, 1) }
          track_excluded := false
          track_included := []
          rejections := fun _ => 0
          terminations := fun x => if x = term_t.EXIT_IMAGE then 0 + 1 else 0 }) :=
  (operator_call_single_seed_path
    (line_scenario false false true 2 100 (count_then 9 term_t.EXIT_IMAGE)) scenario_start
    { pts := [], seed_index := 0 } 9
    (fun n => { pos := (n : Int), dir := 1, sgm_depth := 0, ext := (n, 1) })
    { pos := 0, dir := 1, sgm_depth := 0, ext := (0, 1) }
    { pos := 0, dir := 1, sgm_depth := 0, ext := (0, 1) }
    { pos := 9, dir := 1, sgm_depth := 0, ext := (9, 1) }
    { pos := 9, dir := 0, sgm_depth := 0, ext := (9, 1) }
    rfl rfl rfl rfl rfl rfl rfl rfl rfl rfl rfl rfl rfl rfl
    (by intro i hi; interval_cases i <;> rfl)
    rfl rfl (by decide) (by decide) 10 (by decide)).1

/-! ### What the growth loops leave untouched -/

theorem iterate_frame (S : Shared P W) (e : Exec P W) :
    (iterate S e).2.track_excluded = e.track_excluded ∧
    (iterate S e).2.rejections = e.rejections ∧
    (iterate S e).2.terminations = e.terminations := by
  unfold iterate
  generalize (if S.rk4 = true then next_rk4 S e.method else S.next e.method) = r
  generalize hs : (if S.is_act = true then S.check_structural
    { e with method := r.2 }.method else (term_t.CONTINUE, { e with method := r.2 }.method)) = s
  simp only
  split_ifs <;> exact ⟨rfl, rfl, rfl⟩

theorem apply_priors_frame (S : Shared P W) (t t1 : term_t) (e e1 : Exec P W)
    (h : apply_priors S t e = Except.ok (t1, e1)) :
    e1.method = e.method ∧ e1.track_included = e.track_included ∧
    e1.rejections = e.rejections ∧ e1.terminations = e.terminations := by
  unfold apply_priors at h
  cases t <;> split_ifs at h <;> simp at h <;> obtain ⟨-, rfl⟩ := h <;> simp

theorem gen_track_unidir_loop_frame (S : Shared P W) :
    ∀ (fuel : Nat) (tck : GeneratedTrack P) (e : Exec P W) (t : term_t)
      (tck1 : GeneratedTrack P) (e1 : Exec P W),
      gen_track_unidir_loop S fuel tck e = Except.ok (t, tck1, e1) →
      t ≠ term_t.CONTINUE ∧ e1.track_excluded = e.track_excluded ∧
      e1.rejections = e.rejections ∧ e1.terminations = e.terminations := by
  intro fuel
  induction fuel with
  | zero =>
    intro tck e t tck1 e1 h
    simp [gen_track_unidir_loop] at h
  | succ f ih =>
    intro tck e t tck1 e1 h
    have hi := iterate_frame S e
    unfold gen_track_unidir_loop at h
    simp only at h
    split_ifs at h with hc
    · have hr := ih _ _ _ _ _ h
      simp only [gen_track_unidir_body] at hr
      exact ⟨hr.1, hr.2.1.trans hi.1, hr.2.2.1.trans hi.2.1, hr.2.2.2.trans hi.2.2⟩
    · simp only [Except.ok.injEq] at h
      have h1 : (gen_track_unidir_body S tck e).1 = t := by rw [h]
      have h2 : (gen_track_unidir_body S tck e).2.2 = e1 := by rw [h]
      subst h1 h2
      exact ⟨hc, hi.1, hi.2.1, hi.2.2⟩

theorem gen_track_unidir_backtrack_body_frame (S : Shared P W) (tck : GeneratedTrack P)
    (r : Nat) (e : Exec P W) (t : term_t) (tck1 : GeneratedTrack P) (r1 : Nat) (e1 : Exec P W)
    (h : gen_track_unidir_backtrack_body S tck r e = Except.ok (t, tck1, r1, e1)) :
    e1.rejections = e.rejections ∧ e1.terminations = e.terminations := by
  have hi := iterate_frame S e
  unfold gen_track_unidir_backtrack_body at h
  simp only at h
  generalize (if S.term_add_to_tck (iterate S e).1 = true
    then tck.push_back (iterate S e).2.method.pos else tck) = tk at h
  by_cases hc : (iterate S e).1 = term_t.CONTINUE
  · simp only [hc, ne_eq, not_true_eq_false, if_false] at h
    split_ifs at h <;>
      (simp only [Except.ok.injEq, Prod.mk.injEq] at h
       obtain ⟨-, -, -, rfl⟩ := h
       exact ⟨hi.2.1, hi.2.2⟩)
  · simp only [ne_eq, hc, not_false_eq_true, if_true] at h
    cases ha : apply_priors S (iterate S e).1 (iterate S e).2 with
    | error x => simp [ha] at h
    | ok a =>
      obtain ⟨a1, a2⟩ := a
      have hf := apply_priors_frame S _ _ _ _ ha
      simp only [ha] at h
      generalize S.truncate_track tk (r + 1) a2.method = tr at h
      split_ifs at h
      · split at h
        · simp only [Except.ok.injEq, Prod.mk.injEq] at h
          obtain ⟨-, -, -, rfl⟩ := h
          exact ⟨hf.2.2.1.trans hi.2.1, hf.2.2.2.trans hi.2.2⟩
        · simp at h
      · simp only [Except.ok.injEq, Prod.mk.injEq] at h
        obtain ⟨-, -, -, rfl⟩ := h
        exact ⟨hf.2.2.1.trans hi.2.1, hf.2.2.2.trans hi.2.2⟩
      · simp only [Except.ok.injEq, Prod.mk.injEq] at h
        obtain ⟨-, -, -, rfl⟩ := h
        exact ⟨hf.2.2.1.trans hi.2.1, hf.2.2.2.trans hi.2.2⟩

theorem gen_track_unidir_backtrack_frame (S : Shared P W) :
    ∀ (fuel : Nat) (tck : GeneratedTrack P) (r : Nat) (e : Exec P W) (t : term_t)
      (tck1 : GeneratedTrack P) (r1 : Nat) (e1 : Exec P W),
      gen_track_unidir_backtrack S fuel tck r e = Except.ok (t, tck1, r1, e1) →
      t ≠ term_t.CONTINUE ∧ e1.rejections = e.rejections ∧
      e1.terminations = e.terminations := by
  intro fuel
  induction fuel with
  | zero =>
    intro tck r e t tck1 r1 e1 h
    simp [gen_track_unidir_backtrack] at h
  | succ f ih =>
    intro tck r e t tck1 r1 e1 h
    unfold gen_track_unidir_backtrack at h
    cases hb : gen_track_unidir_backtrack_body S tck r e with
    | error x => simp [hb] at h
    | ok b =>
      obtain ⟨b1, b2, b3, b4⟩ := b
      have hf := gen_track_unidir_backtrack_body_frame S _ _ _ _ _ _ _ hb
      simp only [hb] at h
      split_ifs at h with hc
      · have hr := ih _ _ _ _ _ _ _ h
        exact ⟨hr.1, hr.2.1.trans hf.1, hr.2.2.trans hf.2⟩
      · simp only [Except.ok.injEq, Prod.mk.injEq] at h
        obtain ⟨rfl, -, -, rfl⟩ := h
        exact ⟨hc, hf.1, hf.2⟩

/-! ### The end of a growth direction -/

theorem truncate_exit_sgm_frame (S : Shared P W) (tck tck1 : GeneratedTrack P)
    (e e1 : Exec P W) (h : truncate_exit_sgm S tck e = Except.ok (tck1, e1)) :
    e1.track_excluded = e.track_excluded ∧ e1.track_included = e.track_included ∧
    e1.rejections = e.rejections ∧ e1.terminations = e.terminations := by
  unfold truncate_exit_sgm at h
  split_ifs at h
  simp only at h
  split at h
  · simp at h
  · simp only [Except.ok.injEq, Prod.mk.injEq] at h
    obtain ⟨-, rfl⟩ := h
    exact ⟨rfl, rfl, rfl, rfl⟩

/-- What `gen_track_unidir` does after its loop, in terms of the outcome of
`apply_priors`: the termination that is counted, the rejection flag and the
rejection counter. -/
theorem gen_track_unidir_finish_spec (S : Shared P W) (t : term_t)
    (tck tck1 : GeneratedTrack P) (e e1 : Exec P W)
    (h : gen_track_unidir_finish S t tck e = Except.ok (tck1, e1)) :
    ∃ (t1 : term_t) (e2 : Exec P W), apply_priors S t e = Except.ok (t1, e2) ∧
      e1.terminations = (add_termination e t1).terminations ∧
      e1.track_excluded = e2.track_excluded ∧
      e1.track_included = e.track_included ∧
      ((e2.track_excluded = false ∧ e1.rejections = e.rejections) ∨
       (e2.track_excluded = true ∧ ∃ reason, rejection_of_termination t1 = some reason ∧
          e1.rejections = (add_rejection e reason).rejections)) := by
  unfold gen_track_unidir_finish at h
  cases ha : apply_priors S t e with
  | error x => simp [ha] at h
  | ok a =>
    obtain ⟨t1, e2⟩ := a
    have hf := apply_priors_frame S _ _ _ _ ha
    refine ⟨t1, e2, rfl, ?_⟩
    simp only [ha] at h
    have key : ∀ (c : GeneratedTrack P × Exec P W),
        c.2.track_excluded = e2.track_excluded → c.2.track_included = e2.track_included →
        c.2.rejections = e2.rejections → c.2.terminations = e2.terminations →
        (match (if c.2.track_excluded = true then
            match rejection_of_termination t1 with
            | some reason => Except.ok (add_rejection c.2 reason)
            | none => Except.error Err.excluded_but_termination_good
          else Except.ok c.2 : Except Err (Exec P W)) with
        | Except.error x => Except.error x
        | Except.ok e3 =>
          Except.ok
            (if (S.is_act && decide (t1 = term_t.ENTER_CGM) && S.act_crop_at_gmwmi) = true
              then S.crop_at_gmwmi c.1 else c.1,
             add_termination e3 t1)) = Except.ok (tck1, e1) →
        e1.terminations = (add_termination e t1).terminations ∧
        e1.track_excluded = e2.track_excluded ∧
        e1.track_included = e.track_included ∧
        ((e2.track_excluded = false ∧ e1.rejections = e.rejections) ∨
         (e2.track_excluded = true ∧ ∃ reason, rejection_of_termination t1 = some reason ∧
            e1.rejections = (add_rejection e reason).rejections)) := by
      intro c hx hi hr ht hc
      cases hex : c.2.track_excluded
      · simp only [hex, Bool.false_eq_true, if_false, Except.ok.injEq, Prod.mk.injEq] at hc
        obtain ⟨-, rfl⟩ := hc
        refine ⟨?_, ?_, ?_, Or.inl ⟨?_, ?_⟩⟩
        · simp [add_termination, ht, hf.2.2.2]
        · simpa [add_termination] using hx
        · simp [add_termination, hi, hf.2.1]
        · rw [← hx, hex]
        · simp [add_termination, hr, hf.2.2.1]
      · simp only [hex, if_true] at hc
        cases hrr : rejection_of_termination t1 with
        | none => simp [hrr] at hc
        | some reason =>
          simp only [hrr, Except.ok.injEq, Prod.mk.injEq] at hc
          obtain ⟨-, rfl⟩ := hc
          refine ⟨?_, ?_, ?_, Or.inr ⟨?_, reason, rfl, ?_⟩⟩
          · simp [add_termination, add_rejection, ht, hf.2.2.2]
          · simpa [add_termination, add_rejection] using hx
          · simp [add_termination, add_rejection, hi, hf.2.1]
          · rw [← hx, hex]
          · simp [add_termination, add_rejection, hr, hf.2.2.1]
    by_cases hsgm : t1 = term_t.EXIT_SGM
    · simp only [hsgm, if_true] at h
      cases htr : truncate_exit_sgm S tck e2 with
      | error x => simp [htr] at h
      | ok tr =>
        obtain ⟨tr1, tr2⟩ := tr
        have hfr := truncate_exit_sgm_frame S _ _ _ _ htr
        simp only [htr] at h
        cases hb : tr1.back with
        | none => simp [hb] at h
        | some p =>
          simp only [hb] at h
          have := key (tr1, { tr2 with method := { tr2.method with pos := p } })
            hfr.1 hfr.2.1 hfr.2.2.1 hfr.2.2.2
          rw [hsgm] at this
          exact hsgm ▸ this h
    · simp only [hsgm, if_false] at h
      exact key (tck, e2) rfl rfl rfl rfl h

/-- A run of `gen_track_unidir` that returns: its loop left with a termination
t0 other than CONTINUE and with the counters untouched, `apply_priors` turned
t0 into the termination t1 that is counted, and the rejection flag and counter
follow from the outcome of `apply_priors`. -/
theorem gen_track_unidir_spec (S : Shared P W) (fuel : Nat) (tck tck1 : GeneratedTrack P)
    (e e1 : Exec P W) (h : gen_track_unidir S fuel tck e = Except.ok (tck1, e1)) :
    ∃ (t0 t1 : term_t) (l e2 : Exec P W), t0 ≠ term_t.CONTINUE ∧
      ((S.is_act && S.act_backtrack) = false → l.track_excluded = e.track_excluded) ∧
      apply_priors S t0 l = Except.ok (t1, e2) ∧
      e1.terminations = (add_termination e t1).terminations ∧
      e1.track_excluded = e2.track_excluded ∧
      ((e2.track_excluded = false ∧ e1.rejections = e.rejections) ∨
       (e2.track_excluded = true ∧ ∃ reason, rejection_of_termination t1 = some reason ∧
          e1.rejections = (add_rejection e reason).rejections)) := by
  unfold gen_track_unidir at h
  simp only at h
  generalize he0 : (if S.is_act = true then
    ({ e with method := { e.method with sgm_depth := 0 } } : Exec P W) else e) = e0 at h
  have h0 : e0.track_excluded = e.track_excluded ∧ e0.rejections = e.rejections ∧
      e0.terminations = e.terminations := by
    rw [← he0]
    split_ifs <;> exact ⟨rfl, rfl, rfl⟩
  split_ifs at h with hbt
  · cases hl : gen_track_unidir_backtrack S fuel tck 0 e0 with
    | error x => simp [hl] at h
    | ok r =>
      obtain ⟨t0, tk, rs, l⟩ := r
      simp only [hl] at h
      have hfr := gen_track_unidir_backtrack_frame S _ _ _ _ _ _ _ _ hl
      obtain ⟨t1, e2, ha, ht, hx, -, hr⟩ := gen_track_unidir_finish_spec S _ _ _ _ _ h
      refine ⟨t0, t1, l, e2, hfr.1, ?_, ha, ?_, hx, ?_⟩
      · intro hn
        rw [hbt] at hn
        exact absurd hn (by decide)
      · rw [ht]
        simp [add_termination, hfr.2.2, h0.2.2]
      · rcases hr with ⟨h1, h2⟩ | ⟨h1, reason, h2, h3⟩
        · exact Or.inl ⟨h1, by rw [h2, hfr.2.1, h0.2.1]⟩
        · refine Or.inr ⟨h1, reason, h2, ?_⟩
          rw [h3]
          simp [add_rejection, hfr.2.1, h0.2.1]
  · cases hl : gen_track_unidir_loop S fuel tck e0 with
    | error x => simp [hl] at h
    | ok r =>
      obtain ⟨t0, tk, l⟩ := r
      simp only [hl] at h
      have hfr := gen_track_unidir_loop_frame S _ _ _ _ _ _ hl
      obtain ⟨t1, e2, ha, ht, hx, -, hr⟩ := gen_track_unidir_finish_spec S _ _ _ _ _ h
      refine ⟨t0, t1, l, e2, hfr.1, ?_, ha, ?_, hx, ?_⟩
      · intro _
        rw [hfr.2.1, h0.1]
      · rw [ht]
        simp [add_termination, hfr.2.2.2, h0.2.2]
      · rcases hr with ⟨h1, h2⟩ | ⟨h1, reason, h2, h3⟩
        · exact Or.inl ⟨h1, by rw [h2, hfr.2.2.1, h0.2.1]⟩
        · refine Or.inr ⟨h1, reason, h2, ?_⟩
          rw [h3]
          simp [add_rejection, hfr.2.2.1, h0.2.1]

/-- The termination counted by `add_termination` is the only one whose counter
rises. -/
theorem counted_termination (e : Exec P W) (t1 x : term_t) (c : term_t → Nat)
    (hc : c = (add_termination e t1).terminations) (hx : c x = e.terminations x + 1) :
    t1 = x := by
  subst hc
  by_contra hne
  have hne2 : ¬ x = t1 := fun h => hne h.symm
  simp [add_termination, hne2] at hx

theorem apply_priors_non_act (S : Shared P W) (t t1 : term_t) (e e2 : Exec P W)
    (hact : S.is_act = false) (h : apply_priors S t e = Except.ok (t1, e2)) :
    t1 = t ∧ (t = term_t.ENTER_EXCLUDE → e2.track_excluded = true) ∧
    (t ≠ term_t.ENTER_EXCLUDE → e2 = e) := by
  unfold apply_priors at h
  cases t <;> simp [hact] at h <;> obtain ⟨rfl, rfl⟩ := h <;> simp

theorem apply_priors_act_inv (S : Shared P W) (t t1 : term_t) (e e2 : Exec P W)
    (hact : S.is_act = true) (h : apply_priors S t e = Except.ok (t1, e2))
    (ht1 : t1 = term_t.LENGTH_EXCEED ∨ t1 = term_t.ENTER_EXCLUDE) :
    t = t1 ∧ e2.track_excluded = true := by
  unfold apply_priors at h
  cases t <;> simp only [hact, if_true] at h <;> (try split_ifs at h) <;>
    simp only [Except.ok.injEq, Prod.mk.injEq, reduceCtorEq] at h <;>
    obtain ⟨rfl, rfl⟩ := h <;> simp at ht1 ⊢

/-- Counterexample to C2 as stated: in the single-seed scenario without
anatomical constraints and with max_points = 5 the functor hands on the
5-point path, the track is not rejected and no rejection counter is
incremented, although growth stopped with LENGTH_EXCEED. -/
theorem length_exceed_accepted_outside_act :
    operator_call (line_scenario false false true 2 5 (count_then 9 term_t.EXIT_IMAGE)) 10
        { pts := [], seed_index := 0 } scenario_start =
      Except.ok (true, { pts := [0, 1, 2, 3, 4], seed_index := 0 },
        scenario_outcome 4 1 4 false none term_t.LENGTH_EXCEED) := by
  rfl

/-- C2 (amended). Whenever a growth direction stops with LENGTH_EXCEED (the
LENGTH_EXCEED termination counter rises): in anatomically-constrained mode the
path is marked rejected, TRACK_TOO_LONG is incremented once and no other
rejection counter changes, and the acceptance test rejects the path; outside
anatomically-constrained mode the rejection flag stays unset and no rejection
counter changes. -/
theorem length_exceed_rejects_in_act_only (S : Shared P W) (fuel : Nat)
    (tck tck1 : GeneratedTrack P) (e e1 : Exec P W)
    (hrun : gen_track_unidir S fuel tck e = Except.ok (tck1, e1))
    (hterm : e1.terminations term_t.LENGTH_EXCEED = e.terminations term_t.LENGTH_EXCEED + 1) :
    (S.is_act = true →
      e1.track_excluded = true ∧
      e1.rejections = (add_rejection e reject_t.TRACK_TOO_LONG).rejections ∧
      track_rejected S tck1.pts e1 = (true, e1)) ∧
    (S.is_act = false → e.track_excluded = false →
      e1.track_excluded = false ∧ e1.rejections = e.rejections) := by
  obtain ⟨t0, t1, l, e2, -, hl, ha, ht, hx, hr⟩ := gen_track_unidir_spec S fuel tck tck1 e e1 hrun
  have ht1 : t1 = term_t.LENGTH_EXCEED := counted_termination e t1 _ _ ht hterm
  subst ht1
  constructor
  · intro hact
    have hinv := apply_priors_act_inv S _ _ _ _ hact ha (Or.inl rfl)
    have hex : e1.track_excluded = true := hx.trans hinv.2
    refine ⟨hex, ?_, track_rejected_excluded S _ _ hex⟩
    rcases hr with ⟨h1, -⟩ | ⟨-, reason, h2, h3⟩
    · rw [hinv.2] at h1
      exact absurd h1 (by decide)
    · simp only [rejection_of_termination, Option.some.injEq] at h2
      rw [h3, ← h2]
  · intro hact hexcl
    have hinv := apply_priors_non_act S _ _ _ _ hact ha
    have hne : t0 ≠ term_t.ENTER_EXCLUDE := by
      rw [← hinv.1]
      decide
    have he2 : e2.track_excluded = false := by
      rw [hinv.2.2 hne, hl (by simp [hact]), hexcl]
    refine ⟨hx.trans he2, ?_⟩
    rcases hr with ⟨-, h2⟩ | ⟨h1, -⟩
    · exact h2
    · rw [he2] at h1
      exact absurd h1 (by decide)

theorem length_exceed_rejects_in_act_only_witness :
    ((scenario_outcome 4 1 4 true (some reject_t.TRACK_TOO_LONG)
        term_t.LENGTH_EXCEED).track_excluded = true ∧
      (scenario_outcome 4 1 4 true (some reject_t.TRACK_TOO_LONG)
        term_t.LENGTH_EXCEED).rejections
        = (add_rejection scenario_seeded reject_t.TRACK_TOO_LONG).rejections ∧
      track_rejected (line_scenario true false true 2 5 (count_then 9 term_t.EXIT_IMAGE))
        [0, 1, 2, 3, 4]
        (scenario_outcome 4 1 4 true (some reject_t.TRACK_TOO_LONG) term_t.LENGTH_EXCEED)
        = (true, scenario_outcome 4 1 4 true (some reject_t.TRACK_TOO_LONG)
            term_t.LENGTH_EXCEED)) ∧
    operator_call (line_scenario true false true 2 5 (count_then 9 term_t.EXIT_IMAGE)) 10
        { pts := [], seed_index := 0 } scenario_start =
      Except.ok (true, { pts := [], seed_index := 0 },
        scenario_outcome 4 1 4 true (some reject_t.TRACK_TOO_LONG) term_t.LENGTH_EXCEED) :=
  ⟨(length_exceed_rejects_in_act_only
      (line_scenario true false true 2 5 (count_then 9 term_t.EXIT_IMAGE)) 10
      { pts := [0], seed_index := 0 } { pts := [0, 1, 2, 3, 4], seed_index := 0 }
      scenario_seeded
      (scenario_outcome 4 1 4 true (some reject_t.TRACK_TOO_LONG) term_t.LENGTH_EXCEED)
      rfl rfl).1 rfl, rfl⟩

/-- Counterexample to C7 as stated: without anatomical constraints, a path
whose growth ends with HIGH_CURVATURE after nine steps is handed on with its
ten points, not marked rejected, and no rejection counter is incremented. -/
theorem high_curvature_accepted_outside_act :
    operator_call (line_scenario false false true 2 100 (count_then 9 term_t.HIGH_CURVATURE)) 10
        { pts := [], seed_index := 0 } scenario_start =
      Except.ok (true, { pts := [0, 1, 2, 3, 4, 5, 6, 7, 8, 9], seed_index := 0 },
        scenario_outcome 9 1 9 false none term_t.HIGH_CURVATURE) := by
  rfl

/-- C7 (amended). Outside anatomically-constrained mode, a growth direction
that terminates with HIGH_CURVATURE, BAD_SIGNAL or CALIBRATE_FAIL does not
reject the path: the rejection flag stays unset, no rejection counter is
incremented, and the acceptance test accepts the path exactly when it has at
least min_points points and every inclusion bit is set. -/
theorem local_failure_does_not_reject_outside_act (S : Shared P W) (fuel : Nat)
    (tck tck1 : GeneratedTrack P) (e e1 : Exec P W) (t : term_t)
    (hact : S.is_act = false) (hexcl : e.track_excluded = false)
    (ht : t = term_t.HIGH_CURVATURE ∨ t = term_t.BAD_SIGNAL ∨ t = term_t.CALIBRATE_FAIL)
    (hrun : gen_track_unidir S fuel tck e = Except.ok (tck1, e1))
    (hterm : e1.terminations t = e.terminations t + 1) :
    e1.track_excluded = false ∧ e1.rejections = e.rejections ∧
    ((track_rejected S tck1.pts e1).1 = false ↔
      (S.min_num_points ≤ tck1.pts.length ∧ e1.track_included.all (fun b => b) = true)) := by
  obtain ⟨t0, t1, l, e2, -, hl, ha, htc, hx, hr⟩ :=
    gen_track_unidir_spec S fuel tck tck1 e e1 hrun
  have ht1 : t1 = t := counted_termination e t1 _ _ htc hterm
  subst ht1
  have hinv := apply_priors_non_act S _ _ _ _ hact ha
  have hne : t0 ≠ term_t.ENTER_EXCLUDE := by
    rw [← hinv.1]
    rcases ht with h | h | h <;> rw [h] <;> decide
  have he2 : e2.track_excluded = false := by
    rw [hinv.2.2 hne, hl (by simp [hact]), hexcl]
  have hex : e1.track_excluded = false := hx.trans he2
  refine ⟨hex, ?_, ?_⟩
  · rcases hr with ⟨-, h2⟩ | ⟨h1, -⟩
    · exact h2
    · rw [he2] at h1
      exact absurd h1 (by decide)
  · by_cases hlen : S.min_num_points ≤ tck1.pts.length
    · rw [track_rejected_checked S _ _ hex hlen (fun h => by rw [hact] at h; exact absurd h (by decide))]
      have hb : acceptance_bits S tck1.pts e1 = e1.track_included := by
        simp [acceptance_bits, hact]
      rw [hb]
      by_cases hall : e1.track_included.all (fun b => b) = true
      · simp [hall, hlen]
      · simp [hall]
    · rw [track_rejected_short S _ _ hex (Nat.lt_of_not_le hlen)]
      simp [hlen]

theorem local_failure_does_not_reject_outside_act_witness :
    (scenario_outcome 9 1 9 false none term_t.HIGH_CURVATURE).track_excluded = false ∧
    (scenario_outcome 9 1 9 false none term_t.HIGH_CURVATURE).rejections
      = scenario_seeded.rejections ∧
    ((track_rejected (line_scenario false false true 2 100 (count_then 9 term_t.HIGH_CURVATURE))
        [0, 1, 2, 3, 4, 5, 6, 7, 8, 9]
        (scenario_outcome 9 1 9 false none term_t.HIGH_CURVATURE)).1 = false ↔
      ((line_scenario false false true 2 100 (count_then 9 term_t.HIGH_CURVATURE)).min_num_points
          ≤ [(0 : Int), 1, 2, 3, 4, 5, 6, 7, 8, 9].length ∧
        (scenario_outcome 9 1 9 false none term_t.HIGH_CURVATURE).track_included.all
          (fun b => b) = true)) :=
  local_failure_does_not_reject_outside_act
    (line_scenario false false true 2 100 (count_then 9 term_t.HIGH_CURVATURE)) 10
    { pts := [0], seed_index := 0 } { pts := [0, 1, 2, 3, 4, 5, 6, 7, 8, 9], seed_index := 0 }
    scenario_seeded (scenario_outcome 9 1 9 false none term_t.HIGH_CURVATURE)
    term_t.HIGH_CURVATURE rfl rfl (Or.inl rfl) rfl rfl

/-- C3, evaluated at a failing input. Unconstrained bidirectional tracking
with min_points = 2 and max_points = 5 and a step source that always continues:
forward growth stops at 5 points with LENGTH_EXCEED, the track is reversed,
and backward growth appends one more point before the length is tested. The
functor hands on a path of 6 points, not rejected, with every rejection
counter at zero and LENGTH_EXCEED counted twice. -/
theorem accepted_path_longer_than_max_points :
    (operator_call (line_scenario false false false 2 5 (count_then 1000 term_t.EXIT_IMAGE)) 10
        { pts := [], seed_index := 0 } scenario_start).toOption.map
      (fun r => (r.1, r.2.1.pts, r.2.2.track_excluded,
        [reject_t.TRACK_TOO_SHORT, reject_t.TRACK_TOO_LONG, reject_t.ENTER_EXCLUDE_REGION,
          reject_t.MISSED_INCLUDE_REGION, reject_t.ACT_POOR_TERMINATION,
          reject_t.ACT_FAILED_WM_REQUIREMENT].map r.2.2.rejections,
        r.2.2.terminations term_t.LENGTH_EXCEED))
      = some (true, [4, 3, 2, 1, 0, -1], false, [0, 0, 0, 0, 0, 0], 2) ∧
    (line_scenario false false false 2 5 (count_then 1000 term_t.EXIT_IMAGE)).max_num_points
      < [(4 : Int), 3, 2, 1, 0, -1].length := by
  decide

/-- C6. Entering an exclusion region rejects the whole path, in every mode
and with or without backtracking. (1) A growth direction that ends with
ENTER_EXCLUDE (its termination counter rises) leaves the path marked rejected,
with ENTER_EXCLUDE_REGION incremented once and no other rejection counter
changed, and the acceptance test then rejects it without touching a counter.
(2) A pass of the backtracking loop that ends with ENTER_EXCLUDE has not
truncated: `revert_step` is unchanged and the track is the one before the pass,
with at most the current position appended. (3) When forward growth leaves the
path rejected, `gen_track` returns it as it is and starts no second
direction. -/
theorem enter_exclude_rejects_whole_path (S : Shared P W) :
    (∀ (fuel : Nat) (tck tck1 : GeneratedTrack P) (e e1 : Exec P W),
      gen_track_unidir S fuel tck e = Except.ok (tck1, e1) →
      e1.terminations term_t.ENTER_EXCLUDE = e.terminations term_t.ENTER_EXCLUDE + 1 →
      e1.track_excluded = true ∧
      e1.rejections = (add_rejection e reject_t.ENTER_EXCLUDE_REGION).rejections ∧
      track_rejected S tck1.pts e1 = (true, e1)) ∧
    (∀ (tck tk : GeneratedTrack P) (r r1 : Nat) (e l : Exec P W),
      gen_track_unidir_backtrack_body S tck r e = Except.ok (term_t.ENTER_EXCLUDE, tk, r1, l) →
      r1 = r ∧
      tk = (if S.term_add_to_tck (iterate S e).1 = true
            then tck.push_back (iterate S e).2.method.pos else tck)) ∧
    (∀ (fuel : Nat) (tck0 : GeneratedTrack P) (e0 : Exec P W)
      (f : GeneratedTrack P × Exec P W),
      gen_track_unidir S fuel (tck0.push_back (forward_start S e0).2.method.pos)
        (forward_start S e0).2 = Except.ok f →
      f.2.track_excluded = true →
      gen_track_from_seed S fuel tck0 e0 = Except.ok (true, f.1, f.2)) := by
  refine ⟨?_, ?_, ?_⟩
  · intro fuel tck tck1 e e1 hrun hterm
    obtain ⟨t0, t1, l, e2, -, -, ha, ht, hx, hr⟩ :=
      gen_track_unidir_spec S fuel tck tck1 e e1 hrun
    have ht1 : t1 = term_t.ENTER_EXCLUDE := counted_termination e t1 _ _ ht hterm
    subst ht1
    have he2 : e2.track_excluded = true := by
      cases hact : S.is_act
      · have hinv := apply_priors_non_act S _ _ _ _ hact ha
        exact hinv.2.1 hinv.1.symm
      · exact (apply_priors_act_inv S _ _ _ _ hact ha (Or.inr rfl)).2
    have hex : e1.track_excluded = true := hx.trans he2
    refine ⟨hex, ?_, track_rejected_excluded S _ _ hex⟩
    rcases hr with ⟨h1, -⟩ | ⟨-, reason, h2, h3⟩
    · rw [he2] at h1
      exact absurd h1 (by decide)
    · simp only [rejection_of_termination, Option.some.injEq] at h2
      rw [h3, ← h2]
  · intro tck tk r r1 e l h
    unfold gen_track_unidir_backtrack_body at h
    simp only at h
    generalize (if S.term_add_to_tck (iterate S e).1 = true
      then tck.push_back (iterate S e).2.method.pos else tck) = tk0 at h ⊢
    by_cases hc : (iterate S e).1 = term_t.CONTINUE
    · simp only [hc, ne_eq, not_true_eq_false, if_false] at h
      split_ifs at h <;> simp at h
    · simp only [ne_eq, hc, not_false_eq_true, if_true] at h
      cases ha : apply_priors S (iterate S e).1 (iterate S e).2 with
      | error x => simp [ha] at h
      | ok a =>
        obtain ⟨a1, a2⟩ := a
        simp only [ha] at h
        generalize S.truncate_track tk0 (r + 1) a2.method = tr at h
        split_ifs at h with hcond hsize
        · split at h
          · simp at h
          · simp at h
        · simp only [Except.ok.injEq, Prod.mk.injEq] at h
          simp only [Bool.and_eq_true, decide_eq_true_eq] at hcond
          exact absurd h.1 hcond.2
        · simp only [Except.ok.injEq, Prod.mk.injEq] at h
          exact ⟨h.2.2.1.symm, h.2.1.symm⟩
  · intro fuel tck0 e0 f hrun hex
    unfold gen_track_from_seed
    simp only [hrun, hex, Bool.not_true, Bool.false_and, Bool.false_eq_true, if_false]

theorem enter_exclude_rejects_whole_path_witness :
    (scenario_outcome 3 1 3 true (some reject_t.ENTER_EXCLUDE_REGION)
        term_t.ENTER_EXCLUDE).track_excluded = true ∧
    (scenario_outcome 3 1 3 true (some reject_t.ENTER_EXCLUDE_REGION)
        term_t.ENTER_EXCLUDE).rejections
      = (add_rejection scenario_seeded reject_t.ENTER_EXCLUDE_REGION).rejections ∧
    track_rejected (exclusion_scenario true true) [0, 1, 2, 3]
        (scenario_outcome 3 1 3 true (some reject_t.ENTER_EXCLUDE_REGION) term_t.ENTER_EXCLUDE)
      = (true, scenario_outcome 3 1 3 true (some reject_t.ENTER_EXCLUDE_REGION)
          term_t.ENTER_EXCLUDE) :=
  (enter_exclude_rejects_whole_path (exclusion_scenario true true)).1 10
    { pts := [0], seed_index := 0 } { pts := [0, 1, 2, 3], seed_index := 0 }
    scenario_seeded
    (scenario_outcome 3 1 3 true (some reject_t.ENTER_EXCLUDE_REGION) term_t.ENTER_EXCLUDE)
    rfl rfl

/-! ### Convergence of backtracking -/

theorem gen_track_unidir_backtrack_traced_erase (S : Shared P W) :
    ∀ (fuel : Nat) (tck : GeneratedTrack P) (r most : Nat) (e : Exec P W),
      (gen_track_unidir_backtrack_traced S fuel tck r most e).map Prod.fst
        = gen_track_unidir_backtrack S fuel tck r e := by
  intro fuel
  induction fuel with
  | zero =>
    intro tck r most e
    rfl
  | succ f ih =>
    intro tck r most e
    unfold gen_track_unidir_backtrack_traced gen_track_unidir_backtrack
    cases hb : gen_track_unidir_backtrack_body S tck r e with
    | error x => rfl
    | ok b =>
      simp only
      by_cases hc : b.1 = term_t.CONTINUE
      · rw [if_pos hc, if_pos hc]
        exact ih _ _ _ _
      · rw [if_neg hc, if_neg hc]
        rfl

theorem apply_priors_act_total (S : Shared P W) (t : term_t) (e : Exec P W)
    (hact : S.is_act = true) (ht : t ≠ term_t.CONTINUE) :
    ∃ (t1 : term_t) (e2 : Exec P W), apply_priors S t e = Except.ok (t1, e2) ∧
      t1 ≠ term_t.CONTINUE := by
  unfold apply_priors
  cases t <;> simp only [hact, if_true] <;> (try split_ifs) <;>
    first
    | exact absurd rfl ht
    | exact ⟨_, _, rfl, by decide⟩

/-- One pass of the backtracking loop, when `truncate_track` removes exactly
`revert_step` trailing points: it returns, keeps the seed index, and either
leaves `revert_step` alone with at most one point appended, or increments
`revert_step` and leaves the track at rejection shortened by that many
points. -/
theorem gen_track_unidir_backtrack_body_step (S : Shared P W) (tck : GeneratedTrack P)
    (r : Nat) (e : Exec P W) (hact : S.is_act = true)
    (hadd : S.term_add_to_tck term_t.CONTINUE = true)
    (htrunc : ∀ (t : GeneratedTrack P) (n : Nat) (m : Method P W),
      (S.truncate_track t n m).1 = { t with pts := t.pts.take (t.pts.length - n) }) :
    ∃ (t : term_t) (tk : GeneratedTrack P) (r1 : Nat) (l : Exec P W),
      gen_track_unidir_backtrack_body S tck r e = Except.ok (t, tk, r1, l) ∧
      tk.seed_index = tck.seed_index ∧
      (track_after_iterate S tck e).seed_index = tck.seed_index ∧
      (track_after_iterate S tck e).size ≤ tck.size + 1 ∧
      ((r1 = r ∧ tk.size ≤ tck.size + 1 ∧
          (t = term_t.CONTINUE → tk.size = tck.size + 1 ∧ tk.size < S.max_num_points)) ∨
       (r1 = r + 1 ∧ tk.size = (track_after_iterate S tck e).size - (r + 1) ∧
          (t = term_t.CONTINUE → tk.seed_index + 1 < tk.size))) := by
  have hsz : (track_after_iterate S tck e).size ≤ tck.size + 1 := by
    unfold track_after_iterate
    split_ifs <;> simp [GeneratedTrack.push_back, GeneratedTrack.size]
  have hsi : (track_after_iterate S tck e).seed_index = tck.seed_index := by
    unfold track_after_iterate
    split_ifs <;> simp [GeneratedTrack.push_back]
  unfold gen_track_unidir_backtrack_body
  simp only
  have hta : (if S.term_add_to_tck (iterate S e).1 = true
      then tck.push_back (iterate S e).2.method.pos else tck) = track_after_iterate S tck e := rfl
  rw [hta]
  by_cases hc : (iterate S e).1 = term_t.CONTINUE
  · have hpush : track_after_iterate S tck e = tck.push_back (iterate S e).2.method.pos := by
      unfold track_after_iterate
      rw [hc, hadd]
      rfl
    have hsz1 : (track_after_iterate S tck e).size = tck.size + 1 := by
      rw [hpush]
      simp [GeneratedTrack.push_back, GeneratedTrack.size]
    simp only [hc, ne_eq, not_true_eq_false, if_false]
    split_ifs with hm
    · exact ⟨_, _, _, _, rfl, hsi, hsi, hsz, Or.inl ⟨rfl, hsz, fun h => absurd h (by decide)⟩⟩
    · exact ⟨_, _, _, _, rfl, hsi, hsi, hsz, Or.inl ⟨rfl, hsz, fun _ => ⟨hsz1, by omega⟩⟩⟩
  · obtain ⟨t1, e2, ha, ht1⟩ := apply_priors_act_total S _ (iterate S e).2 hact hc
    simp only [ne_eq, hc, not_false_eq_true, if_true, ha]
    have htk : (S.truncate_track (track_after_iterate S tck e) (r + 1) e2.method).1
        = { track_after_iterate S tck e with
            pts := (track_after_iterate S tck e).pts.take
              ((track_after_iterate S tck e).pts.length - (r + 1)) } := htrunc _ _ _
    have htksz : (S.truncate_track (track_after_iterate S tck e) (r + 1) e2.method).1.size
        = (track_after_iterate S tck e).size - (r + 1) := by
      rw [htk]
      simp [GeneratedTrack.size]
    have htksi : (S.truncate_track (track_after_iterate S tck e) (r + 1) e2.method).1.seed_index
        = tck.seed_index := by
      rw [htk]
      exact hsi
    split_ifs with hcond hsize
    · have hlen : 2 ≤ (S.truncate_track (track_after_iterate S tck e) (r + 1)
          e2.method).1.pts.reverse.length := by
        simp only [List.length_reverse]
        simp only [GeneratedTrack.size, GeneratedTrack.get_seed_index] at hsize
        omega
      split
      · rename_i last prev rest hrev
        refine ⟨_, _, _, _, rfl, htksi, hsi, hsz, Or.inr ⟨rfl, htksz, fun _ => ?_⟩⟩
        simp only [GeneratedTrack.size, GeneratedTrack.get_seed_index] at hsize
        simpa [GeneratedTrack.size] using hsize
      · rename_i hno
        exfalso
        generalize (S.truncate_track (track_after_iterate S tck e) (r + 1)
          e2.method).1.pts.reverse = xs at hlen hno
        match xs, hlen, hno with
        | [], hl, _ => simp at hl
        | [_], hl, _ => simp at hl
        | a :: b :: c, _, hn => exact hn a b c rfl
    · exact ⟨_, _, _, _, rfl, htksi, hsi, hsz, Or.inr ⟨rfl, htksz, fun h => absurd h ht1⟩⟩
    · exact ⟨_, _, _, _, rfl, hsi, hsi, hsz, Or.inl ⟨rfl, hsz, fun h => absurd h ht1⟩⟩

/-- The backtracking loop run from any state that satisfies the loop
invariant (track no longer than N, `revert_step` zero or below the observed
maximum, observed maximum at most N - s) returns within
(N - revert_step) * (N + 1) + (N - size) + 1 passes. -/
theorem gen_track_unidir_backtrack_traced_converges (S : Shared P W)
    (hact : S.is_act = true) (hadd : S.term_add_to_tck term_t.CONTINUE = true)
    (htrunc : ∀ (t : GeneratedTrack P) (n : Nat) (m : Method P W),
      (S.truncate_track t n m).1 = { t with pts := t.pts.take (t.pts.length - n) })
    (N s : Nat) (hN : S.max_num_points ≤ N) :
    ∀ (fuel : Nat) (tck : GeneratedTrack P) (r most : Nat) (e : Exec P W),
      tck.seed_index = s → tck.size ≤ N → most ≤ N - s → (r = 0 ∨ r + 1 ≤ most) →
      (N - r) * (N + 1) + (N - tck.size) < fuel →
      ∃ (t : term_t) (tk : GeneratedTrack P) (r1 : Nat) (l : Exec P W) (most1 : Nat),
        gen_track_unidir_backtrack_traced S fuel tck r most e
          = Except.ok ((t, tk, r1, l), most1) ∧
        t ≠ term_t.CONTINUE ∧ r1 ≤ max 1 most1 ∧ most1 ≤ N - s := by
  intro fuel
  induction fuel with
  | zero =>
    intro tck r most e _ _ _ _ hfuel
    exact absurd hfuel (Nat.not_lt_zero _)
  | succ f ih =>
    intro tck r most e hs hsize hmost hr hfuel
    obtain ⟨t, tk, r1, l, hbody, hsi, hasi, hasz, hcases⟩ :=
      gen_track_unidir_backtrack_body_step S tck r e hact hadd htrunc
    have hbeyond : points_beyond_seed (track_after_iterate S tck e)
        = (track_after_iterate S tck e).size - (s + 1) := by
      simp [points_beyond_seed, GeneratedTrack.get_seed_index, hasi, hs]
    unfold gen_track_unidir_backtrack_traced
    simp only [hbody]
    rcases hcases with ⟨hr1, hle, hcont⟩ | ⟨hr1, htksz, hcont⟩
    · subst hr1
      have hne : ¬ r1 = r1 + 1 := by omega
      simp only [hne, if_false]
      by_cases hc : t = term_t.CONTINUE
      · obtain ⟨h1, h2⟩ := hcont hc
        simp only [hc, if_true]
        have hfuel2 : (N - r1) * (N + 1) + (N - tk.size) < f := by
          generalize (N - r1) * (N + 1) = A at hfuel ⊢
          omega
        exact ih tk r1 most l (hsi.trans hs) (by omega) hmost hr hfuel2
      · simp only [hc, if_false]
        refine ⟨t, tk, r1, l, most, rfl, hc, ?_, hmost⟩
        rcases hr with h | h
        · simp [h]
        · exact le_trans (by omega) (le_max_right 1 most)
    · subst hr1
      simp only [if_true, hbeyond]
      have hm1 : max most ((track_after_iterate S tck e).size - (s + 1)) ≤ N - s := by
        apply max_le hmost
        omega
      by_cases hc : t = term_t.CONTINUE
      · have h1 := hcont hc
        simp only [hc, if_true]
        have hbig : r + 1 + 1 ≤ max most ((track_after_iterate S tck e).size - (s + 1)) := by
          apply le_trans _ (le_max_right _ _)
          rw [hsi, hs, htksz] at h1
          omega
        have hrN : r + 1 + 1 ≤ N := by omega
        have hmul : (N - r) * (N + 1) = (N - (r + 1)) * (N + 1) + (N + 1) := by
          have : N - r = (N - (r + 1)) + 1 := by omega
          rw [this, Nat.add_mul, Nat.one_mul]
        have hfuel2 : (N - (r + 1)) * (N + 1) + (N - tk.size) < f := by
          rw [hmul] at hfuel
          generalize (N - (r + 1)) * (N + 1) = A at hfuel ⊢
          omega
        exact ih tk (r + 1) _ l (hsi.trans hs) (by omega) hm1 (Or.inr hbig) hfuel2
      · simp only [hc, if_false]
        refine ⟨t, tk, r + 1, l, _, rfl, hc, ?_, hm1⟩
        rcases hr with h | h
        · subst h
          exact le_trans (le_max_left 1 _) (le_refl _)
        · exact le_trans (le_trans h (le_max_left _ _)) (le_max_right 1 _)

theorem truncate_exit_sgm_scan_returns (S : Shared P W) (pts : List P) :
    ∀ (n i : Nat) (mv : Option Int) (best : Nat) (m : Method P W),
      truncate_exit_sgm_scan S pts n i mv best m ≠ Except.error Err.out_of_fuel := by
  intro n
  induction n with
  | zero =>
    intro i mv best m h
    simp [truncate_exit_sgm_scan] at h
  | succ k ih =>
    intro i mv best m
    unfold truncate_exit_sgm_scan
    split
    · simp only
      split_ifs
      · exact ih _ _ _ _
      · exact ih _ _ _ _
    · intro h
      simp at h

/-- The part of `gen_track_unidir` after its loop has no loop of its own that
could run out of fuel. -/
theorem gen_track_unidir_finish_returns (S : Shared P W) (t : term_t) (tck : GeneratedTrack P)
    (e : Exec P W) : gen_track_unidir_finish S t tck e ≠ Except.error Err.out_of_fuel := by
  unfold gen_track_unidir_finish
  cases ha : apply_priors S t e with
  | error x =>
    unfold apply_priors at ha
    cases t <;> split_ifs at ha <;> simp at ha <;> subst ha <;> simp
  | ok a =>
    simp only
    have hcrop : ∀ (c : Except Err (GeneratedTrack P × Exec P W)),
        c ≠ Except.error Err.out_of_fuel →
        (match c with
          | Except.error x => Except.error x
          | Except.ok c =>
            match (if c.2.track_excluded = true then
                match rejection_of_termination a.1 with
                | some reason => Except.ok (add_rejection c.2 reason)
                | none => Except.error Err.excluded_but_termination_good
              else Except.ok c.2 : Except Err (Exec P W)) with
            | Except.error x => Except.error x
            | Except.ok e3 =>
              Except.ok
                (if (S.is_act && decide (a.1 = term_t.ENTER_CGM) && S.act_crop_at_gmwmi) = true
                  then S.crop_at_gmwmi c.1 else c.1,
                 add_termination e3 a.1)) ≠
          (Except.error Err.out_of_fuel : Except Err (GeneratedTrack P × Exec P W)) := by
      intro c hc
      cases c with
      | error x =>
        intro h
        simp only [Except.error.injEq] at h
        exact hc (by rw [h])
      | ok c =>
        simp only
        split_ifs <;> (try cases rejection_of_termination a.1) <;> simp
    apply hcrop
    split_ifs
    · cases htr : truncate_exit_sgm S tck a.2 with
      | error x =>
        simp only
        unfold truncate_exit_sgm at htr
        split_ifs at htr
        · simp only [Except.error.injEq] at htr
          subst htr
          simp
        · simp only at htr
          split at htr
          · rename_i y hy
            simp only [Except.error.injEq] at htr
            subst htr
            intro h
            simp only [Except.error.injEq] at h
            exact truncate_exit_sgm_scan_returns S _ _ _ _ _ _ (by rw [hy, h])
          · simp at htr
      | ok tr =>
        simp only
        cases tr.1.back <;> simp
    · simp

/-- Counterexample to C10 as stated: with backtracking, a step source that
fails with BAD_SIGNAL on the first step (not appended by the table of the
scenario) is rejected while the track holds no point beyond the seed, and
`truncate_track` is still called once: one truncation, against a largest
number of points beyond the seed of zero. -/
theorem truncation_at_the_seed :
    (gen_track_unidir_backtrack_traced
        (line_scenario true true true 2 100 (reject_at 1 term_t.BAD_SIGNAL)) 10
        { pts := [0], seed_index := 0 } 0 0 scenario_seeded).toOption.map
      (fun x => (x.1.1, x.1.2.1.pts, x.1.2.2.1, x.2, decide (x.1.2.2.1 ≤ x.2)))
      = some (term_t.BAD_SIGNAL, [], 1, 0, false) := by
  decide

/-- C10 (amended). Backtracking converges. In anatomically-constrained mode,
with a table that appends on CONTINUE, a `truncate_track` that removes exactly
`revert_step` trailing points, and a direction of growth started with the seed
as last point: for every step source, once the fuel reaches
(max (size, max_points) + 1) squared, `gen_track_unidir` with backtracking does
not run out of fuel, and its backtracking loop returns with a termination
other than CONTINUE (benign, or a rejection that stands). The number of
truncations (the final `revert_step`) is at most the larger of 1 and the
largest number of points the track held beyond the seed at a rejection, which
is at most the larger of 1 and max_points. -/
theorem backtracking_converges (S : Shared P W) (tck : GeneratedTrack P) (e : Exec P W)
    (hact : S.is_act = true) (hadd : S.term_add_to_tck term_t.CONTINUE = true)
    (htrunc : ∀ (t : GeneratedTrack P) (n : Nat) (m : Method P W),
      (S.truncate_track t n m).1 = { t with pts := t.pts.take (t.pts.length - n) })
    (hseed : tck.size = tck.get_seed_index + 1)
    (fuel : Nat)
    (hfuel : (max tck.size S.max_num_points + 1) * (max tck.size S.max_num_points + 1) ≤ fuel) :
    (S.act_backtrack = true → gen_track_unidir S fuel tck e ≠ Except.error Err.out_of_fuel) ∧
    ∃ (t : term_t) (tk : GeneratedTrack P) (r : Nat) (l : Exec P W) (most : Nat),
      gen_track_unidir_backtrack S fuel tck 0 e = Except.ok (t, tk, r, l) ∧
      gen_track_unidir_backtrack_traced S fuel tck 0 0 e = Except.ok ((t, tk, r, l), most) ∧
      t ≠ term_t.CONTINUE ∧ r ≤ max 1 most ∧ most ≤ max 1 S.max_num_points := by
  have hfuel2 : (max tck.size S.max_num_points - 0) * (max tck.size S.max_num_points + 1)
      + (max tck.size S.max_num_points - tck.size) < fuel := by
    have hmul : (max tck.size S.max_num_points + 1) * (max tck.size S.max_num_points + 1)
        = max tck.size S.max_num_points * (max tck.size S.max_num_points + 1)
          + (max tck.size S.max_num_points + 1) := by
      rw [Nat.add_mul, Nat.one_mul]
    rw [hmul] at hfuel
    rw [Nat.sub_zero]
    generalize max tck.size S.max_num_points * (max tck.size S.max_num_points + 1) = A
      at hfuel ⊢
    omega
  have key : ∀ (x : Exec P W),
      ∃ (t : term_t) (tk : GeneratedTrack P) (r : Nat) (l : Exec P W) (most : Nat),
        gen_track_unidir_backtrack S fuel tck 0 x = Except.ok (t, tk, r, l) ∧
        gen_track_unidir_backtrack_traced S fuel tck 0 0 x = Except.ok ((t, tk, r, l), most) ∧
        t ≠ term_t.CONTINUE ∧ r ≤ max 1 most ∧ most ≤ max 1 S.max_num_points := by
    intro x
    obtain ⟨t, tk, r, l, most, hrun, ht, hr, hmost⟩ :=
      gen_track_unidir_backtrack_traced_converges S hact hadd htrunc
        (max tck.size S.max_num_points) tck.seed_index (le_max_right _ _)
        fuel tck 0 0 x rfl (le_max_left _ _) (Nat.zero_le _) (Or.inl rfl) hfuel2
    refine ⟨t, tk, r, l, most, ?_, hrun, ht, hr, ?_⟩
    · rw [← gen_track_unidir_backtrack_traced_erase S fuel tck 0 0 x, hrun]
      rfl
    · simp only [GeneratedTrack.get_seed_index] at hseed
      apply le_trans hmost
      rcases le_total tck.size S.max_num_points with h | h
      · rw [max_eq_right h]
        exact le_trans (by omega) (le_max_right 1 _)
      · rw [max_eq_left h]
        exact le_trans (by omega) (le_max_left 1 _)
  refine ⟨?_, key e⟩
  intro hbt
  obtain ⟨t, tk, r, l, -, hrun, -, -, -⟩ :=
    key { e with method := { e.method with sgm_depth := 0 } }
  unfold gen_track_unidir
  simp only [hact, hbt, Bool.and_self, if_true, hrun]
  exact gen_track_unidir_finish_returns S _ _ _

theorem backtracking_converges_witness :
    (∃ (t : term_t) (tk : GeneratedTrack Int) (r : Nat) (l : Exec Int (Nat × Nat)) (most : Nat),
      gen_track_unidir_backtrack
          (line_scenario true true true 2 100 (reject_at 6 term_t.BAD_SIGNAL)) 10201
          { pts := [0], seed_index := 0 } 0 scenario_seeded = Except.ok (t, tk, r, l) ∧
      gen_track_unidir_backtrack_traced
          (line_scenario true true true 2 100 (reject_at 6 term_t.BAD_SIGNAL)) 10201
          { pts := [0], seed_index := 0 } 0 0 scenario_seeded
        = Except.ok ((t, tk, r, l), most) ∧
      t ≠ term_t.CONTINUE ∧ r ≤ max 1 most ∧
      most ≤ max 1
        (line_scenario true true true 2 100 (reject_at 6 term_t.BAD_SIGNAL)).max_num_points) ∧
    (gen_track_unidir_backtrack_traced
        (line_scenario true true true 2 100 (reject_at 6 term_t.BAD_SIGNAL)) 30
        { pts := [0], seed_index := 0 } 0 0 scenario_seeded).toOption.map
      (fun x => (x.1.1, x.1.2.1.pts, x.1.2.2.1, x.1.2.2.2.track_excluded, x.2))
      = some (term_t.BAD_SIGNAL, [0], 5, true, 5) :=
  ⟨(backtracking_converges
      (line_scenario true true true 2 100 (reject_at 6 term_t.BAD_SIGNAL))
      { pts := [0], seed_index := 0 } scenario_seeded rfl rfl (fun _ _ _ => rfl) rfl
      10201 (by decide)).2,
   by decide⟩

/-! ### Seed acquisition and the functor -/

/-- C12. With a finite seed source: when `get_seed` fails, `gen_track` and the
functor return false with an empty item, the method is left as `get_seed` left
it (no growth step has run) and no termination or rejection counter changes.
When the seed is acquired but fails the valid-start check (`check_seed` or
`init`), the functor returns true for that seed, again with the counters
unchanged. -/
theorem finite_seed_failure_is_normal_stop (S : Shared P W) (fuel : Nat)
    (item : GeneratedTrack P) (e : Exec P W) (hfin : S.seeds_is_finite = true) :
    ((S.get_seed { e.method with dir := S.invalid_point }).1 = false →
      gen_track S fuel item e = Except.ok (false, { pts := [], seed_index := 0 },
        { method := (S.get_seed { e.method with dir := S.invalid_point }).2
          track_excluded := false
          track_included := List.replicate e.track_included.length false
          rejections := e.rejections
          terminations := e.terminations }) ∧
      operator_call S fuel item e = Except.ok (false, { pts := [], seed_index := 0 },
        { method := (S.get_seed { e.method with dir := S.invalid_point }).2
          track_excluded := false
          track_included := List.replicate e.track_included.length false
          rejections := e.rejections
          terminations := e.terminations })) ∧
    ((S.get_seed { e.method with dir := S.invalid_point }).1 = true →
      ((S.check_seed (S.get_seed { e.method with dir := S.invalid_point }).2).1 = false ∨
       (S.init (S.check_seed
          (S.get_seed { e.method with dir := S.invalid_point }).2).2).1 = false) →
      ∃ (m : Method P W),
        operator_call S fuel item e =
          Except.ok (true, S.downsampler { pts := [], seed_index := 0 },
            { method := m
              track_excluded := true
              track_included := List.replicate e.track_included.length false
              rejections := e.rejections
              terminations := e.terminations })) := by
  constructor
  · intro hg
    simp [operator_call, gen_track, hfin, hg, GeneratedTrack.clear]
  · intro hg hfail
    cases hc : (S.check_seed (S.get_seed { e.method with dir := S.invalid_point }).2).1
    · refine ⟨(S.check_seed (S.get_seed { e.method with dir := S.invalid_point }).2).2, ?_⟩
      simp [operator_call, gen_track, hfin, hg, hc, GeneratedTrack.clear, track_rejected]
    · rcases hfail with h | h
      · rw [hc] at h
        exact absurd h (by decide)
      · refine ⟨(S.init (S.check_seed
          (S.get_seed { e.method with dir := S.invalid_point }).2).2).2, ?_⟩
        simp [operator_call, gen_track, hfin, hg, hc, h, GeneratedTrack.clear, track_rejected]

theorem finite_seed_failure_is_normal_stop_witness :
    operator_call (line_scenario false false true 2 100 (count_then 9 term_t.EXIT_IMAGE)) 10
        { pts := [7], seed_index := 0 } (scenario_outcome 9 1 9 false none term_t.EXIT_IMAGE)
      = Except.ok (false, { pts := [], seed_index := 0 },
        { method := { pos := 9, dir := 0, sgm_depth := 0, ext := (9, 1) }
          track_excluded := false
          track_included := List.replicate 0 false
          rejections := (scenario_outcome 9 1 9 false none term_t.EXIT_IMAGE).rejections
          terminations := (scenario_outcome 9 1 9 false none term_t.EXIT_IMAGE).terminations }) :=
  ((finite_seed_failure_is_normal_stop
    (line_scenario false false true 2 100 (count_then 9 term_t.EXIT_IMAGE)) 10
    { pts := [7], seed_index := 0 } (scenario_outcome 9 1 9 false none term_t.EXIT_IMAGE)
    rfl).1 rfl).2

/-- C15. In every invocation of the functor that generates a track: when
`track_rejected` returns true the item passed to the downsampler is the empty
track, and when it returns false the item is the whole generated track; it is
never a part of it. -/
theorem rejected_item_is_cleared (S : Shared P W) (fuel : Nat) (item tck : GeneratedTrack P)
    (e g : Exec P W) (hgen : gen_track S fuel item e = Except.ok (true, tck, g)) :
    ((track_rejected S tck.pts g).1 = true →
      operator_call S fuel item e =
        Except.ok (true, S.downsampler { pts := [], seed_index := 0 },
          (track_rejected S tck.pts g).2)) ∧
    ((track_rejected S tck.pts g).1 = false →
      operator_call S fuel item e =
        Except.ok (true, S.downsampler tck, (track_rejected S tck.pts g).2)) := by
  constructor <;> intro h <;> simp [operator_call, hgen, h, GeneratedTrack.clear]

theorem rejected_item_is_cleared_witness :
    operator_call (line_scenario true false true 2 5 (count_then 9 term_t.EXIT_IMAGE)) 10
        { pts := [], seed_index := 0 } scenario_start =
      Except.ok (true,
        (line_scenario true false true 2 5 (count_then 9 term_t.EXIT_IMAGE)).downsampler
          { pts := [], seed_index := 0 },
        (track_rejected (line_scenario true false true 2 5 (count_then 9 term_t.EXIT_IMAGE))
          [0, 1, 2, 3, 4]
          (scenario_outcome 4 1 4 true (some reject_t.TRACK_TOO_LONG)
            term_t.LENGTH_EXCEED)).2) :=
  (rejected_item_is_cleared
    (line_scenario true false true 2 5 (count_then 9 term_t.EXIT_IMAGE)) 10
    { pts := [], seed_index := 0 } { pts := [0, 1, 2, 3, 4], seed_index := 0 }
    scenario_start
    (scenario_outcome 4 1 4 true (some reject_t.TRACK_TOO_LONG) term_t.LENGTH_EXCEED)
    rfl).1 rfl

/-- Counterexample to C16 as stated: a path that enters the exclusion region
is rejected, yet the functor returns true and hands on an item (the empty
track). -/
theorem functor_signals_rejected_path :
    (operator_call (exclusion_scenario false false) 10
        { pts := [], seed_index := 0 } scenario_start).toOption.map
      (fun r => (r.1, r.2.1.pts, r.2.2.track_excluded,
        r.2.2.rejections reject_t.ENTER_EXCLUDE_REGION))
      = some (true, [], true, 1) := by
  decide

/-- C16 (amended). The functor signals an output exactly when `gen_track`
obtained a seed, whether the path is accepted or rejected; for a rejected path
the item handed on is the downsampler applied to the empty track, so no point
of a rejected path is forwarded, and the functor returns false only when
`gen_track` does. -/
theorem functor_output_flag (S : Shared P W) (fuel : Nat) (item : GeneratedTrack P)
    (e : Exec P W) :
    (operator_call S fuel item e).map Prod.fst = (gen_track S fuel item e).map Prod.fst ∧
    ∀ (tck : GeneratedTrack P) (g : Exec P W),
      gen_track S fuel item e = Except.ok (true, tck, g) →
      (track_rejected S tck.pts g).1 = true →
      (operator_call S fuel item e).map (fun r => (r.1, r.2.1))
        = Except.ok (true, S.downsampler { pts := [], seed_index := 0 }) := by
  constructor
  · unfold operator_call
    cases hg : gen_track S fuel item e with
    | error x => rfl
    | ok g =>
      obtain ⟨b, tck, g2⟩ := g
      cases b <;> rfl
  · intro tck g hgen hrej
    simp [operator_call, hgen, hrej, GeneratedTrack.clear, Except.map]

theorem functor_output_flag_witness :
    (operator_call (exclusion_scenario false false) 10
        { pts := [], seed_index := 0 } scenario_start).map (fun r => (r.1, r.2.1))
      = Except.ok (true,
          (exclusion_scenario false false).downsampler { pts := [], seed_index := 0 }) :=
  (functor_output_flag (exclusion_scenario false false) 10
    { pts := [], seed_index := 0 } scenario_start).2
    { pts := [0, 1, 2, 3], seed_index := 0 }
    (scenario_outcome 3 1 3 true (some reject_t.ENTER_EXCLUDE_REGION) term_t.ENTER_EXCLUDE)
    rfl rfl

/-! ### Accounting of rejections -/

theorem add_rejection_congr (e g : Exec P W) (r : reject_t) (h : g.rejections = e.rejections) :
    (add_rejection g r).rejections = (add_rejection e r).rejections := by
  simp [add_rejection, h]

/-- A growth direction either leaves the track unrejected with the rejection
counters as they were, or leaves it rejected with exactly one counter
incremented by one. -/
theorem gen_track_unidir_rejections (S : Shared P W) (fuel : Nat)
    (tck tck1 : GeneratedTrack P) (e e1 : Exec P W)
    (h : gen_track_unidir S fuel tck e = Except.ok (tck1, e1)) :
    (e1.track_excluded = false ∧ e1.rejections = e.rejections) ∨
    (e1.track_excluded = true ∧
      ∃ reason, e1.rejections = (add_rejection e reason).rejections) := by
  obtain ⟨t0, t1, l, e2, -, -, -, -, hx, hr⟩ := gen_track_unidir_spec S fuel tck tck1 e e1 h
  rcases hr with ⟨h1, h2⟩ | ⟨h1, reason, -, h3⟩
  · exact Or.inl ⟨hx.trans h1, h2⟩
  · exact Or.inr ⟨hx.trans h1, reason, h3⟩

/-- The acceptance test on a track that growth has not rejected either
accepts it and changes no counter, or rejects it and increments exactly one
rejection counter by one. -/
theorem track_rejected_counts (S : Shared P W) (tck : List P) (g : Exec P W)
    (hex : g.track_excluded = false) :
    ((track_rejected S tck g).1 = false ∧ (track_rejected S tck g).2.rejections = g.rejections) ∨
    ((track_rejected S tck g).1 = true ∧
      ∃ reason, (track_rejected S tck g).2.rejections = (add_rejection g reason).rejections) := by
  have hf := satisfy_wm_requirement_frame S tck g
  by_cases hlen : S.min_num_points ≤ tck.length
  · by_cases hwm : S.is_act = true → (satisfy_wm_requirement S tck g).1 = true
    · rw [track_rejected_checked S tck g hex hlen hwm]
      by_cases hb : (acceptance_bits S tck g).all (fun b => b) = true
      · rw [if_pos hb]
        refine Or.inl ⟨rfl, ?_⟩
        cases hact : S.is_act
        · rfl
        · rw [if_pos rfl, hf]
      · rw [if_neg hb]
        refine Or.inr ⟨rfl, reject_t.MISSED_INCLUDE_REGION, ?_⟩
        cases hact : S.is_act
        · rfl
        · rw [if_pos rfl, hf]
          rfl
    · obtain ⟨hact, hw⟩ := wm_failed_of_not S tck g hwm
      rw [track_rejected_wm_failed S tck g hex hlen hact hw]
      refine Or.inr ⟨rfl, reject_t.ACT_FAILED_WM_REQUIREMENT, ?_⟩
      rw [hf]
      rfl
  · rw [track_rejected_short S tck g hex (Nat.lt_of_not_le hlen)]
    exact Or.inr ⟨rfl, reject_t.TRACK_TOO_SHORT, rfl⟩

/-- After seed acquisition, `gen_track` returns true and the rejection
counters are unchanged when the track is not rejected, and exactly one is
incremented by one when it is. -/
theorem gen_track_from_seed_rejections (S : Shared P W) (fuel : Nat)
    (tck0 tck : GeneratedTrack P) (e0 g : Exec P W) (b : Bool)
    (h : gen_track_from_seed S fuel tck0 e0 = Except.ok (b, tck, g)) :
    b = true ∧
    ((g.track_excluded = false ∧ g.rejections = e0.rejections) ∨
     (g.track_excluded = true ∧
       ∃ reason, g.rejections = (add_rejection e0 reason).rejections)) := by
  unfold gen_track_from_seed at h
  simp only at h
  have hfs : (forward_start S e0).2.rejections = e0.rejections := rfl
  cases hf : gen_track_unidir S fuel (tck0.push_back (forward_start S e0).2.method.pos)
      (forward_start S e0).2 with
  | error x => simp [hf] at h
  | ok f =>
    obtain ⟨f1, f2⟩ := f
    have hfr := gen_track_unidir_rejections S _ _ _ _ _ hf
    simp only [hf] at h
    split_ifs at h with hcond
    · simp only [Bool.and_eq_true, Bool.not_eq_true', Bool.not_eq_eq_eq_not, Bool.not_true] at hcond
      have hfe : f2.rejections = e0.rejections := by
        rcases hfr with ⟨-, h2⟩ | ⟨h1, -⟩
        · exact h2
        · rw [hcond.1] at h1
          exact absurd h1 (by decide)
      cases hbk : f1.reverse.back with
      | none => simp [hbk] at h
      | some p =>
        simp only [hbk] at h
        split at h
        · simp at h
        · rename_i bk hb
          obtain ⟨b1, b2⟩ := bk
          have hbr := gen_track_unidir_rejections S _ _ _ _ _ hb
          simp only [Except.ok.injEq, Prod.mk.injEq] at h
          obtain ⟨rfl, rfl, rfl⟩ := h
          refine ⟨rfl, ?_⟩
          rcases hbr with ⟨h1, h2⟩ | ⟨h1, reason, h3⟩
          · exact Or.inl ⟨h1, h2.trans hfe⟩
          · exact Or.inr ⟨h1, reason, h3.trans (add_rejection_congr e0 _ reason hfe)⟩
    · simp only [Except.ok.injEq, Prod.mk.injEq] at h
      obtain ⟨rfl, rfl, rfl⟩ := h
      refine ⟨rfl, ?_⟩
      rcases hfr with ⟨h1, h2⟩ | ⟨h1, reason, h3⟩
      · exact Or.inl ⟨h1, h2⟩
      · exact Or.inr ⟨h1, reason, h3⟩

/-- Counterexample to C11 as stated: a seed from a finite source that fails
the valid-start check is discarded (the track is marked rejected and the item
cleared) while every rejection counter stays at zero. -/
theorem failed_start_is_not_counted :
    (operator_call failing_check_scenario 10
        { pts := [], seed_index := 0 } scenario_start).toOption.map
      (fun r => (r.1, r.2.1.pts, r.2.2.track_excluded,
        [reject_t.TRACK_TOO_SHORT, reject_t.TRACK_TOO_LONG, reject_t.ENTER_EXCLUDE_REGION,
          reject_t.MISSED_INCLUDE_REGION, reject_t.ACT_POOR_TERMINATION,
          reject_t.ACT_FAILED_WM_REQUIREMENT].map r.2.2.rejections))
      = some (true, [], true, [0, 0, 0, 0, 0, 0]) := by
  decide

/-- C11 (amended). For every invocation of the functor in which `gen_track`
obtains a seed and returns: if the seed came from a finite source and failed
the valid-start check, the path is rejected and no rejection counter changes;
otherwise exactly one of two things happens: the path is accepted and no
rejection counter changes, or the path is rejected and exactly one
rejection-reason counter is incremented by exactly one. -/
theorem every_seeded_path_accounted_once (S : Shared P W) (fuel : Nat)
    (item tck : GeneratedTrack P) (e g : Exec P W)
    (hgen : gen_track S fuel item e = Except.ok (true, tck, g)) :
    (seed_failed_valid_start S e = true →
      (track_rejected S tck.pts g).1 = true ∧
      (track_rejected S tck.pts g).2.rejections = e.rejections) ∧
    (seed_failed_valid_start S e = false →
      ((track_rejected S tck.pts g).1 = false ∧
        (track_rejected S tck.pts g).2.rejections = e.rejections) ∨
      ((track_rejected S tck.pts g).1 = true ∧
        ∃ reason, (track_rejected S tck.pts g).2.rejections
          = (add_rejection e reason).rejections)) := by
  have hgrown : ∀ (e0 : Exec P W), e0.rejections = e.rejections →
      gen_track_from_seed S fuel tck.clear e0 = Except.ok (true, tck, g) →
      ((track_rejected S tck.pts g).1 = false ∧
        (track_rejected S tck.pts g).2.rejections = e.rejections) ∨
      ((track_rejected S tck.pts g).1 = true ∧
        ∃ reason, (track_rejected S tck.pts g).2.rejections
          = (add_rejection e reason).rejections) := by
    intro e0 he0 hrun
    rcases (gen_track_from_seed_rejections S fuel _ _ _ _ _ hrun).2 with
      ⟨h1, h2⟩ | ⟨h1, reason, h3⟩
    · rcases track_rejected_counts S tck.pts g h1 with ⟨k1, k2⟩ | ⟨k1, reason, k3⟩
      · exact Or.inl ⟨k1, k2.trans (h2.trans he0)⟩
      · exact Or.inr ⟨k1, reason, k3.trans (add_rejection_congr e g reason (h2.trans he0))⟩
    · rw [track_rejected_excluded S tck.pts g h1]
      exact Or.inr ⟨rfl, reason, h3.trans (add_rejection_congr e e0 reason he0)⟩
  unfold gen_track at hgen
  unfold seed_failed_valid_start
  simp only at hgen ⊢
  have hclear : ∀ (t : GeneratedTrack P), t.clear = item.clear := fun _ => rfl
  cases hfin : S.seeds_is_finite
  · simp only [hfin, Bool.false_eq_true, if_false] at hgen
    simp only [Bool.false_and, Bool.false_eq_true, false_implies, true_and, forall_const]
    split_ifs at hgen
    · simp at hgen
    · rw [← hclear tck] at hgen
      refine hgrown _ ?_ hgen
      rfl
  · simp only [hfin, if_true] at hgen
    simp only [Bool.true_and]
    cases hg : (S.get_seed { e.method with dir := S.invalid_point }).1
    · simp [hg] at hgen
    · simp only [hg, Bool.not_true, Bool.false_eq_true, if_false] at hgen
      simp only [Bool.true_and]
      cases hc : (S.check_seed (S.get_seed { e.method with dir := S.invalid_point }).2).1
      · simp only [hc, Bool.not_false, if_true, Except.ok.injEq, Prod.mk.injEq, true_and]
          at hgen
        obtain ⟨rfl, rfl⟩ := hgen
        simp [track_rejected]
      · simp only [hc, Bool.not_true, Bool.false_eq_true, if_false] at hgen
        cases hi : (S.init (S.check_seed
            (S.get_seed { e.method with dir := S.invalid_point }).2).2).1
        · simp only [hi, Bool.not_false, if_true, Except.ok.injEq, Prod.mk.injEq, true_and]
            at hgen
          obtain ⟨rfl, rfl⟩ := hgen
          simp [track_rejected]
        · simp only [hi, Bool.not_true, Bool.false_eq_true, if_false] at hgen
          simp only [Bool.not_true, Bool.or_self, Bool.false_eq_true, false_implies, true_and,
            forall_const]
          rw [← hclear tck] at hgen
          refine hgrown _ ?_ hgen
          rfl

theorem every_seeded_path_accounted_once_witness :
    (track_rejected (line_scenario true false true 2 5 (count_then 9 term_t.EXIT_IMAGE))
        [0, 1, 2, 3, 4]
        (scenario_outcome 4 1 4 true (some reject_t.TRACK_TOO_LONG) term_t.LENGTH_EXCEED)).1
        = false ∧
      (track_rejected (line_scenario true false true 2 5 (count_then 9 term_t.EXIT_IMAGE))
        [0, 1, 2, 3, 4]
        (scenario_outcome 4 1 4 true (some reject_t.TRACK_TOO_LONG)
          term_t.LENGTH_EXCEED)).2.rejections = scenario_start.rejections ∨
    (track_rejected (line_scenario true false true 2 5 (count_then 9 term_t.EXIT_IMAGE))
        [0, 1, 2, 3, 4]
        (scenario_outcome 4 1 4 true (some reject_t.TRACK_TOO_LONG) term_t.LENGTH_EXCEED)).1
        = true ∧
      ∃ reason,
        (track_rejected (line_scenario true false true 2 5 (count_then 9 term_t.EXIT_IMAGE))
          [0, 1, 2, 3, 4]
          (scenario_outcome 4 1 4 true (some reject_t.TRACK_TOO_LONG)
            term_t.LENGTH_EXCEED)).2.rejections
          = (add_rejection scenario_start reason).rejections :=
  (every_seeded_path_accounted_once
    (line_scenario true false true 2 5 (count_then 9 term_t.EXIT_IMAGE)) 10
    { pts := [], seed_index := 0 } { pts := [0, 1, 2, 3, 4], seed_index := 0 }
    scenario_start
    (scenario_outcome 4 1 4 true (some reject_t.TRACK_TOO_LONG) term_t.LENGTH_EXCEED)
    rfl).2 rfl

/-! ### Seed attempts with a seed source that is not finite -/

theorem gen_track_non_finite (S : Shared P W) (fuel : Nat) (tck : GeneratedTrack P)
    (e : Exec P W) (hfin : S.seeds_is_finite = false)
    (hvalid : S.pos_valid (seed_attempts S MAX_NUM_SEED_ATTEMPTS
      { e.method with dir := S.invalid_point }).pos = true) :
    gen_track S fuel tck e =
      gen_track_from_seed S fuel { pts := [], seed_index := 0 }
        { method := seed_attempts S MAX_NUM_SEED_ATTEMPTS { e.method with dir := S.invalid_point }
          track_excluded := false
          track_included := List.replicate e.track_included.length false
          rejections := e.rejections
          terminations := e.terminations } := by
  simp [gen_track, hfin, hvalid, GeneratedTrack.clear]

theorem seed_attempts_failing_init (n : Nat) :
    ∀ (m : Method Int (Nat × Nat)),
      seed_attempts failing_init_scenario (n + 1) m =
        { pos := 0, dir := 1, sgm_depth := m.sgm_depth, ext := (0, m.ext.2 + (n + 1)) } := by
  induction n with
  | zero =>
    intro m
    rfl
  | succ k ih =>
    intro m
    have hstep : seed_attempts failing_init_scenario (k + 1 + 1) m =
        seed_attempts failing_init_scenario (k + 1)
          { pos := 0, dir := 1, sgm_depth := m.sgm_depth, ext := (0, m.ext.2 + 1) } := rfl
    rw [hstep, ih]
    simp only [Method.mk.injEq, Prod.mk.injEq, true_and]
    omega

/-- C13, evaluated at a failing input. The seed source is not finite and
yields a seed at every call, and the initialisation of the method fails for
every seed while leaving the position valid. Every one of the 100,000 attempts
fails, yet `gen_track` does not return false: the test after the loop looks
only at the validity of the position, so growth is run from the last seed and
a track of 10 points is returned. -/
theorem growth_after_failed_seed_attempts :
    (∀ (m : Method Int (Nat × Nat)), (seed_attempt failing_init_scenario m).1 = false) ∧
    (seed_attempts failing_init_scenario MAX_NUM_SEED_ATTEMPTS
        { scenario_start.method with dir := failing_init_scenario.invalid_point }).ext
      = (0, 100000) ∧
    gen_track failing_init_scenario 10 { pts := [], seed_index := 0 } scenario_start =
      Except.ok (true, { pts := [0, 1, 2, 3, 4, 5, 6, 7, 8, 9], seed_index := 0 },
        { scenario_outcome 9 1 9 false none term_t.EXIT_IMAGE with
          method := { pos := 9, dir := 1, sgm_depth := 0, ext := (9, 100000) } }) := by
  have hm : seed_attempts failing_init_scenario MAX_NUM_SEED_ATTEMPTS
      { scenario_start.method with dir := failing_init_scenario.invalid_point }
      = { pos := 0, dir := 1, sgm_depth := 0, ext := (0, 100000) } :=
    seed_attempts_failing_init 99999 _
  refine ⟨fun m => rfl, ?_, ?_⟩
  · rw [hm]
  · rw [gen_track_non_finite failing_init_scenario 10 _ _ rfl rfl, hm]
    rfl

/-! ### No exception from a growth direction -/

theorem next_rk4_termination (S : Shared P W) (Q : term_t → Prop)
    (hnext : ∀ m, Q (S.next m).1) (hcurv : Q term_t.HIGH_CURVATURE) (hcont : Q term_t.CONTINUE)
    (m : Method P W) : Q (next_rk4 S m).1 := by
  unfold next_rk4
  simp only
  split_ifs
  · exact hnext _
  · exact hnext _
  · exact hnext _
  · exact hnext _
  · exact hnext _
  · exact hcurv
  · exact hcont

theorem iterate_non_act_termination (S : Shared P W) (e : Exec P W) (hact : S.is_act = false)
    (hnext : ∀ m, act_only_termination (S.next m).1 = false) :
    act_only_termination (iterate S e).1 = false := by
  have hstep : act_only_termination
      (if S.rk4 = true then next_rk4 S e.method else S.next e.method).1 = false := by
    split_ifs
    · exact next_rk4_termination S (fun t => act_only_termination t = false) hnext rfl rfl _
    · exact hnext _
  unfold iterate
  generalize (if S.rk4 = true then next_rk4 S e.method else S.next e.method) = r at hstep
  simp only [hact, Bool.false_and, Bool.false_eq_true, if_false]
  split_ifs <;> first | exact hstep | rfl

theorem apply_priors_exit (S : Shared P W) (t : term_t) (l : Exec P W)
    (h : growth_exit_ok S t l) :
    (∀ x, apply_priors S t l ≠ Except.error x) ∧
    (∀ (t1 : term_t) (e2 : Exec P W), apply_priors S t l = Except.ok (t1, e2) →
      e2.track_excluded = true → ∃ reason, rejection_of_termination t1 = some reason) := by
  obtain ⟨h0, hna, hex⟩ := h
  cases hact : S.is_act
  · have hna2 := hna hact
    have hl : l.track_excluded = false := by
      cases hle : l.track_excluded
      · rfl
      · rw [(hex hle).1] at hact
        exact absurd hact (by decide)
    constructor
    · intro x hx
      unfold apply_priors at hx
      cases t <;> simp [act_only_termination] at hna2 h0 <;> simp [hact] at hx
    · intro t1 e2 ha hx2
      unfold apply_priors at ha
      cases t <;> simp [act_only_termination] at hna2 h0 <;> simp [hact] at ha <;>
        obtain ⟨rfl, rfl⟩ := ha <;> simp [hl, rejection_of_termination] at hx2 ⊢
  · constructor
    · intro x hx
      unfold apply_priors at hx
      cases t <;> simp at h0 <;> simp only [hact, if_true] at hx <;> (try split_ifs at hx) <;>
        simp at hx
    · intro t1 e2 ha hx2
      unfold apply_priors at ha
      cases hle : l.track_excluded
      · cases t <;> simp at h0 <;> simp only [hact, if_true] at ha <;>
          (try split_ifs at ha) <;>
          simp only [Except.ok.injEq, Prod.mk.injEq] at ha <;>
          obtain ⟨rfl, rfl⟩ := ha <;> simp [hle, rejection_of_termination] at hx2 ⊢
      · obtain ⟨-, hcases⟩ := hex hle
        rcases hcases with h | h | h | ⟨h, hd⟩
        · subst h
          simp [hact] at ha
          obtain ⟨rfl, -⟩ := ha
          simp [rejection_of_termination]
        · subst h
          simp [hact] at ha
          obtain ⟨rfl, -⟩ := ha
          simp [rejection_of_termination]
        · subst h
          simp [hact] at ha
          obtain ⟨rfl, -⟩ := ha
          simp [rejection_of_termination]
        · rcases h with h | h | h <;> subst h <;> simp [hact, hd] at ha <;>
            (try split_ifs at ha) <;>
            (try simp only [Except.ok.injEq, Prod.mk.injEq] at ha) <;>
            obtain ⟨rfl, -⟩ := ha <;> simp [rejection_of_termination]

theorem truncate_exit_sgm_scan_error (S : Shared P W) (pts : List P) :
    ∀ (n i : Nat) (mv : Option Int) (best : Nat) (m : Method P W) (x : Err),
      truncate_exit_sgm_scan S pts n i mv best m = Except.error x → x.thrown = false := by
  intro n
  induction n with
  | zero =>
    intro i mv best m x h
    simp [truncate_exit_sgm_scan] at h
  | succ k ih =>
    intro i mv best m x h
    unfold truncate_exit_sgm_scan at h
    split at h
    · simp only at h
      split_ifs at h
      · exact ih _ _ _ _ _ h
      · exact ih _ _ _ _ _ h
    · simp only [Except.error.injEq] at h
      subst h
      rfl

theorem truncate_exit_sgm_error (S : Shared P W) (tck : GeneratedTrack P) (e : Exec P W)
    (x : Err) (h : truncate_exit_sgm S tck e = Except.error x) : x.thrown = false := by
  unfold truncate_exit_sgm at h
  split_ifs at h
  · simp only [Except.error.injEq] at h
    subst h
    rfl
  · simp only at h
    split at h
    · rename_i y hy
      simp only [Except.error.injEq] at h
      subst h
      exact truncate_exit_sgm_scan_error S _ _ _ _ _ _ _ hy
    · simp at h

/-- Under the exit condition, the part of `gen_track_unidir` after its loop
raises none of the three exceptions. -/
theorem gen_track_unidir_finish_no_throw (S : Shared P W) (t : term_t)
    (tck : GeneratedTrack P) (l : Exec P W) (h : growth_exit_ok S t l) (x : Err)
    (hx : gen_track_unidir_finish S t tck l = Except.error x) : x.thrown = false := by
  obtain ⟨hnoerr, hrejall⟩ := apply_priors_exit S t l h
  unfold gen_track_unidir_finish at hx
  cases ha : apply_priors S t l with
  | error y => exact absurd ha (hnoerr y)
  | ok a =>
  obtain ⟨t1, e2⟩ := a
  have hrej := hrejall t1 e2 ha
  simp only [ha] at hx
  have hcount : ∀ (c : GeneratedTrack P × Exec P W),
      c.2.track_excluded = e2.track_excluded →
      (match (if c.2.track_excluded = true then
            match rejection_of_termination t1 with
            | some reason => Except.ok (add_rejection c.2 reason)
            | none => Except.error Err.excluded_but_termination_good
          else Except.ok c.2 : Except Err (Exec P W)) with
        | Except.error x => Except.error x
        | Except.ok e3 =>
          Except.ok
            (if (S.is_act && decide (t1 = term_t.ENTER_CGM) && S.act_crop_at_gmwmi) = true
              then S.crop_at_gmwmi c.1 else c.1,
             add_termination e3 t1)) = Except.error x → x.thrown = false := by
    intro c hc hm
    cases hce : c.2.track_excluded
    · simp [hce] at hm
    · obtain ⟨reason, hr⟩ := hrej (hc ▸ hce)
      simp [hce, hr] at hm
  by_cases hsgm : t1 = term_t.EXIT_SGM
  · simp only [hsgm, if_true] at hx
    cases htr : truncate_exit_sgm S tck e2 with
    | error y =>
      simp only [htr, Except.error.injEq] at hx
      subst hx
      exact truncate_exit_sgm_error S _ _ _ htr
    | ok tr =>
      obtain ⟨tr1, tr2⟩ := tr
      have hfr := truncate_exit_sgm_frame S _ _ _ _ htr
      simp only [htr] at hx
      cases hb : tr1.back with
      | none =>
        simp only [hb, Except.error.injEq] at hx
        subst hx
        rfl
      | some p =>
        simp only [hb] at hx
        have := hcount (tr1, { tr2 with method := { tr2.method with pos := p } }) hfr.1
        rw [hsgm] at this
        exact this hx
  · simp only [hsgm, if_false] at hx
    exact hcount (tck, e2) rfl hx

theorem gen_track_unidir_loop_exit (S : Shared P W)
    (hnext : S.is_act = false → ∀ m, act_only_termination (S.next m).1 = false) :
    ∀ (fuel : Nat) (tck : GeneratedTrack P) (e : Exec P W), e.track_excluded = false →
      (∀ x, gen_track_unidir_loop S fuel tck e = Except.error x → x.thrown = false) ∧
      (∀ (t : term_t) (tk : GeneratedTrack P) (l : Exec P W),
        gen_track_unidir_loop S fuel tck e = Except.ok (t, tk, l) → growth_exit_ok S t l) := by
  intro fuel
  induction fuel with
  | zero =>
    intro tck e _
    constructor
    · intro x h
      simp only [gen_track_unidir_loop, Except.error.injEq] at h
      subst h
      rfl
    · intro t tk l h
      simp [gen_track_unidir_loop] at h
  | succ f ih =>
    intro tck e hex
    have hi := iterate_frame S e
    have hbody : (gen_track_unidir_body S tck e).2.2.track_excluded = false := by
      simp only [gen_track_unidir_body]
      rw [hi.1, hex]
    have hterm : S.is_act = false →
        act_only_termination (gen_track_unidir_body S tck e).1 = false := by
      intro hact
      simp only [gen_track_unidir_body]
      split_ifs <;>
        first
        | rfl
        | exact iterate_non_act_termination S e hact (hnext hact)
    unfold gen_track_unidir_loop
    simp only
    by_cases hc : (gen_track_unidir_body S tck e).1 = term_t.CONTINUE
    · simp only [hc, if_true]
      exact ih _ _ hbody
    · simp only [hc, if_false]
      constructor
      · intro x h
        simp at h
      · intro t tk l h
        simp only [Except.ok.injEq] at h
        have h1 : (gen_track_unidir_body S tck e).1 = t := by rw [h]
        have h2 : (gen_track_unidir_body S tck e).2.2 = l := by rw [h]
        subst h1 h2
        refine ⟨hc, hterm, fun hx => ?_⟩
        rw [hbody] at hx
        exact absurd hx (by decide)

theorem apply_priors_act_fresh (S : Shared P W) (t a1 : term_t) (l a2 : Exec P W)
    (hact : S.is_act = true) (hl : l.track_excluded = false)
    (h : apply_priors S t l = Except.ok (a1, a2)) :
    a1 ≠ term_t.CONTINUE ∧ a2.method = l.method ∧
    (a2.track_excluded = true →
      (a1 = term_t.ENTER_CSF ∨ a1 = term_t.LENGTH_EXCEED ∨ a1 = term_t.ENTER_EXCLUDE ∨
        ((a1 = term_t.CALIBRATE_FAIL ∨ a1 = term_t.BAD_SIGNAL ∨ a1 = term_t.HIGH_CURVATURE) ∧
          l.method.sgm_depth = 0))) := by
  unfold apply_priors at h
  cases t <;> simp only [hact, if_true] at h <;> (try split_ifs at h with hd hp) <;>
    simp only [Except.ok.injEq, Prod.mk.injEq, reduceCtorEq] at h <;>
    obtain ⟨rfl, rfl⟩ := h <;> simp [hl] <;> omega

theorem gen_track_unidir_backtrack_body_exit (S : Shared P W) (tck : GeneratedTrack P)
    (r : Nat) (e : Exec P W) (hact : S.is_act = true)
    (htrunc : ∀ (t : GeneratedTrack P) (n : Nat) (m : Method P W),
      m.sgm_depth = 0 → (S.truncate_track t n m).2.sgm_depth = 0)
    (hex : e.track_excluded = false) :
    (∀ x, gen_track_unidir_backtrack_body S tck r e = Except.error x → x.thrown = false) ∧
    (∀ (t : term_t) (tk : GeneratedTrack P) (r1 : Nat) (l : Exec P W),
      gen_track_unidir_backtrack_body S tck r e = Except.ok (t, tk, r1, l) →
      (t = term_t.CONTINUE ∧ l.track_excluded = false) ∨ growth_exit_ok S t l) := by
  have hi := iterate_frame S e
  have hie : (iterate S e).2.track_excluded = false := by rw [hi.1, hex]
  have hvac : ∀ (t : term_t) (l : Exec P W), t ≠ term_t.CONTINUE → l.track_excluded = false →
      growth_exit_ok S t l := by
    intro t l ht hl
    refine ⟨ht, fun h => ?_, fun h => ?_⟩
    · rw [hact] at h
      exact absurd h (by decide)
    · rw [hl] at h
      exact absurd h (by decide)
  unfold gen_track_unidir_backtrack_body
  simp only
  generalize (if S.term_add_to_tck (iterate S e).1 = true
    then tck.push_back (iterate S e).2.method.pos else tck) = tk0
  by_cases hc : (iterate S e).1 = term_t.CONTINUE
  · simp only [hc, ne_eq, not_true_eq_false, if_false]
    split_ifs
    · constructor
      · intro x h
        simp at h
      · intro t tk r1 l h
        simp only [Except.ok.injEq, Prod.mk.injEq] at h
        obtain ⟨rfl, -, -, rfl⟩ := h
        exact Or.inr (hvac _ _ (by decide) hie)
    · constructor
      · intro x h
        simp at h
      · intro t tk r1 l h
        simp only [Except.ok.injEq, Prod.mk.injEq] at h
        obtain ⟨rfl, -, -, rfl⟩ := h
        exact Or.inl ⟨rfl, hie⟩
  · simp only [ne_eq, hc, not_false_eq_true, if_true]
    have hexit := apply_priors_exit S (iterate S e).1 (iterate S e).2 (hvac _ _ hc hie)
    cases ha : apply_priors S (iterate S e).1 (iterate S e).2 with
    | error y => exact absurd ha (hexit.1 y)
    | ok a =>
      obtain ⟨a1, a2⟩ := a
      obtain ⟨ha1, ham, hax⟩ := apply_priors_act_fresh S _ _ _ _ hact hie ha
      simp only
      generalize htr : S.truncate_track tk0 (r + 1) a2.method = tr
      have hsg : a2.method.sgm_depth = 0 → tr.2.sgm_depth = 0 := by
        intro h0
        rw [← htr]
        exact htrunc _ _ _ h0
      split_ifs with hcond hsize
      · split
        · constructor
          · intro x h
            simp at h
          · intro t tk r1 l h
            simp only [Except.ok.injEq, Prod.mk.injEq] at h
            obtain ⟨rfl, -, -, rfl⟩ := h
            exact Or.inl ⟨rfl, rfl⟩
        · constructor
          · intro x h
            simp only [Except.error.injEq] at h
            subst h
            rfl
          · intro t tk r1 l h
            simp at h
      · constructor
        · intro x h
          simp at h
        · intro t tk r1 l h
          simp only [Except.ok.injEq, Prod.mk.injEq] at h
          obtain ⟨rfl, -, -, rfl⟩ := h
          simp only [Bool.and_eq_true, decide_eq_true_eq] at hcond
          refine Or.inr ⟨ha1, fun h => ?_, fun _ => ⟨hact, ?_⟩⟩
          · rw [hact] at h
            exact absurd h (by decide)
          · rcases hax hcond.1 with h | h | h | ⟨h, hd⟩
            · exact Or.inl h
            · exact Or.inr (Or.inl h)
            · exact Or.inr (Or.inr (Or.inl h))
            · exact Or.inr (Or.inr (Or.inr ⟨h, hsg (ham ▸ hd)⟩))
      · constructor
        · intro x h
          simp at h
        · intro t tk r1 l h
          simp only [Except.ok.injEq, Prod.mk.injEq] at h
          obtain ⟨rfl, -, -, rfl⟩ := h
          refine Or.inr ⟨ha1, fun h => ?_, fun hx => ⟨hact, ?_⟩⟩
          · rw [hact] at h
            exact absurd h (by decide)
          · rcases hax hx with h | h | h | ⟨h, hd⟩
            · exact Or.inl h
            · exact Or.inr (Or.inl h)
            · exact Or.inr (Or.inr (Or.inl h))
            · exact Or.inr (Or.inr (Or.inr ⟨h, ham ▸ hd⟩))

theorem gen_track_unidir_backtrack_exit (S : Shared P W) (hact : S.is_act = true)
    (htrunc : ∀ (t : GeneratedTrack P) (n : Nat) (m : Method P W),
      m.sgm_depth = 0 → (S.truncate_track t n m).2.sgm_depth = 0) :
    ∀ (fuel : Nat) (tck : GeneratedTrack P) (r : Nat) (e : Exec P W),
      e.track_excluded = false →
      (∀ x, gen_track_unidir_backtrack S fuel tck r e = Except.error x → x.thrown = false) ∧
      (∀ (t : term_t) (tk : GeneratedTrack P) (r1 : Nat) (l : Exec P W),
        gen_track_unidir_backtrack S fuel tck r e = Except.ok (t, tk, r1, l) →
        growth_exit_ok S t l) := by
  intro fuel
  induction fuel with
  | zero =>
    intro tck r e _
    constructor
    · intro x h
      simp only [gen_track_unidir_backtrack, Except.error.injEq] at h
      subst h
      rfl
    · intro t tk r1 l h
      simp [gen_track_unidir_backtrack] at h
  | succ f ih =>
    intro tck r e hex
    obtain ⟨hberr, hbok⟩ := gen_track_unidir_backtrack_body_exit S tck r e hact htrunc hex
    unfold gen_track_unidir_backtrack
    cases hb : gen_track_unidir_backtrack_body S tck r e with
    | error y =>
      constructor
      · intro x h
        simp only [Except.error.injEq] at h
        subst h
        exact hberr _ hb
      · intro t tk r1 l h
        simp at h
    | ok b =>
      obtain ⟨b1, b2, b3, b4⟩ := b
      simp only
      by_cases hc : b1 = term_t.CONTINUE
      · simp only [hc, if_true]
        rcases hbok _ _ _ _ hb with ⟨-, hx⟩ | hx
        · exact ih _ _ _ hx
        · exact absurd hc hx.1
      · simp only [hc, if_false]
        constructor
        · intro x h
          simp at h
        · intro t tk r1 l h
          simp only [Except.ok.injEq, Prod.mk.injEq] at h
          obtain ⟨rfl, -, -, rfl⟩ := h
          rcases hbok _ _ _ _ hb with ⟨hcc, -⟩ | hx
          · exact absurd hcc hc
          · exact hx

/-- C17. A growth direction raises none of the three exceptions of exec.h,
for every step source: in unconstrained mode one whose `next` returns no
termination reserved to anatomically-constrained mode, and with a
`truncate_track` that leaves a zero grey matter depth counter at zero. Started
with the rejection flag unset (as `gen_track` does), `gen_track_unidir` never
ends in a thrown error, whatever the fuel; and whenever it returns with the
rejection flag set, the termination it counted is one of CALIBRATE_FAIL,
ENTER_CSF, BAD_SIGNAL, HIGH_CURVATURE, LENGTH_EXCEED and ENTER_EXCLUDE. -/
theorem gen_track_unidir_never_throws (S : Shared P W) (fuel : Nat) (tck : GeneratedTrack P)
    (e : Exec P W) (hentry : e.track_excluded = false)
    (hnext : S.is_act = false → ∀ m, act_only_termination (S.next m).1 = false)
    (htrunc : ∀ (t : GeneratedTrack P) (n : Nat) (m : Method P W),
      m.sgm_depth = 0 → (S.truncate_track t n m).2.sgm_depth = 0) :
    (∀ x, gen_track_unidir S fuel tck e = Except.error x → x.thrown = false) ∧
    (∀ (tck1 : GeneratedTrack P) (e1 : Exec P W),
      gen_track_unidir S fuel tck e = Except.ok (tck1, e1) → e1.track_excluded = true →
      ∃ t1, e1.terminations = (add_termination e t1).terminations ∧
        (t1 = term_t.CALIBRATE_FAIL ∨ t1 = term_t.ENTER_CSF ∨ t1 = term_t.BAD_SIGNAL ∨
          t1 = term_t.HIGH_CURVATURE ∨ t1 = term_t.LENGTH_EXCEED ∨
          t1 = term_t.ENTER_EXCLUDE)) := by
  constructor
  · intro x hx
    unfold gen_track_unidir at hx
    simp only at hx
    generalize he0 : (if S.is_act = true then
      ({ e with method := { e.method with sgm_depth := 0 } } : Exec P W) else e) = e0 at hx
    have h0 : e0.track_excluded = false := by
      rw [← he0]
      split_ifs <;> exact hentry
    split_ifs at hx with hbt
    · have hact : S.is_act = true := by
        simp only [Bool.and_eq_true] at hbt
        exact hbt.1
      obtain ⟨hlerr, hlok⟩ := gen_track_unidir_backtrack_exit S hact htrunc fuel tck 0 e0 h0
      cases hl : gen_track_unidir_backtrack S fuel tck 0 e0 with
      | error y =>
        simp only [hl, Except.error.injEq] at hx
        subst hx
        exact hlerr _ hl
      | ok b =>
        obtain ⟨b1, b2, b3, b4⟩ := b
        simp only [hl] at hx
        exact gen_track_unidir_finish_no_throw S _ _ _ (hlok _ _ _ _ hl) _ hx
    · obtain ⟨hlerr, hlok⟩ := gen_track_unidir_loop_exit S hnext fuel tck e0 h0
      cases hl : gen_track_unidir_loop S fuel tck e0 with
      | error y =>
        simp only [hl, Except.error.injEq] at hx
        subst hx
        exact hlerr _ hl
      | ok b =>
        obtain ⟨b1, b2, b3⟩ := b
        simp only [hl] at hx
        exact gen_track_unidir_finish_no_throw S _ _ _ (hlok _ _ _ hl) _ hx
  · intro tck1 e1 hrun hx1
    obtain ⟨t0, t1, l, e2, -, -, -, ht, hx, hr⟩ := gen_track_unidir_spec S fuel tck tck1 e e1 hrun
    refine ⟨t1, ht, ?_⟩
    rcases hr with ⟨h1, -⟩ | ⟨-, reason, h2, -⟩
    · rw [hx, h1] at hx1
      exact absurd hx1 (by decide)
    · cases t1 <;> simp [rejection_of_termination] at h2 ⊢

theorem gen_track_unidir_never_throws_witness :
    (∀ x, gen_track_unidir failing_step_scenario 10 { pts := [0], seed_index := 0 }
        scenario_seeded = Except.error x → x.thrown = false) ∧
    ∃ t1, (scenario_outcome 1 1 0 true (some reject_t.ACT_POOR_TERMINATION)
          term_t.BAD_SIGNAL).terminations = (add_termination scenario_seeded t1).terminations ∧
      (t1 = term_t.CALIBRATE_FAIL ∨ t1 = term_t.ENTER_CSF ∨ t1 = term_t.BAD_SIGNAL ∨
        t1 = term_t.HIGH_CURVATURE ∨ t1 = term_t.LENGTH_EXCEED ∨ t1 = term_t.ENTER_EXCLUDE) :=
  ⟨(gen_track_unidir_never_throws failing_step_scenario 10 { pts := [0], seed_index := 0 }
      scenario_seeded rfl (fun h => absurd h (by decide))
      (fun _ n m h => show m.sgm_depth - n = 0 by rw [h, Nat.zero_sub])).1,
   (gen_track_unidir_never_throws failing_step_scenario 10 { pts := [0], seed_index := 0 }
      scenario_seeded rfl (fun h => absurd h (by decide))
      (fun _ n m h => show m.sgm_depth - n = 0 by rw [h, Nat.zero_sub])).2
      { pts := [], seed_index := 0 }
      (scenario_outcome 1 1 0 true (some reject_t.ACT_POOR_TERMINATION) term_t.BAD_SIGNAL)
      rfl rfl⟩

/-! ### Bidirectional assembly -/

theorem next_rk4_sgm_depth (S : Shared P W)
    (hnext : ∀ m, (S.next m).2.sgm_depth = m.sgm_depth) (m : Method P W) :
    (next_rk4 S m).2.sgm_depth = m.sgm_depth := by
  unfold next_rk4
  simp only
  split_ifs <;> simp only [hnext]

/-- In anatomically-constrained mode one call of `iterate` raises the grey
matter depth counter by at most one when it returns CONTINUE, and not at all
when it returns a termination other than EXIT_MASK, ENTER_EXCLUDE and
TRAVERSE_ALL_INCLUDE. -/
theorem iterate_sgm_depth (S : Shared P W) (e : Exec P W)
    (hnext : ∀ m, (S.next m).2.sgm_depth = m.sgm_depth)
    (hstruct : ∀ m, ((S.check_structural m).1 = term_t.CONTINUE →
          (S.check_structural m).2.sgm_depth ≤ m.sgm_depth + 1) ∧
        ((S.check_structural m).1 ≠ term_t.CONTINUE →
          (S.check_structural m).2.sgm_depth ≤ m.sgm_depth)) :
    ((iterate S e).1 = term_t.CONTINUE →
      (iterate S e).2.method.sgm_depth ≤ e.method.sgm_depth + 1) ∧
    ((iterate S e).1 ≠ term_t.CONTINUE → (iterate S e).1 ≠ term_t.EXIT_MASK →
      (iterate S e).1 ≠ term_t.ENTER_EXCLUDE → (iterate S e).1 ≠ term_t.TRAVERSE_ALL_INCLUDE →
      (iterate S e).2.method.sgm_depth ≤ e.method.sgm_depth) := by
  have hstep : (if S.rk4 = true then next_rk4 S e.method else S.next e.method).2.sgm_depth
      = e.method.sgm_depth := by
    split_ifs
    · exact next_rk4_sgm_depth S hnext _
    · exact hnext _
  unfold iterate
  generalize (if S.rk4 = true then next_rk4 S e.method else S.next e.method) = r at hstep
  simp only
  by_cases hr : r.1 = term_t.CONTINUE
  · simp only [hr, ne_eq, not_true_eq_false, if_false]
    have hs : (if S.is_act = true then S.check_structural r.2
        else (term_t.CONTINUE, r.2)).2.sgm_depth ≤ e.method.sgm_depth + 1 ∧
        ((if S.is_act = true then S.check_structural r.2
          else (term_t.CONTINUE, r.2)).1 ≠ term_t.CONTINUE →
          (if S.is_act = true then S.check_structural r.2
            else (term_t.CONTINUE, r.2)).2.sgm_depth ≤ e.method.sgm_depth) := by
      split_ifs
      · constructor
        · by_cases hc : (S.check_structural r.2).1 = term_t.CONTINUE
          · have := (hstruct r.2).1 hc
            omega
          · have := (hstruct r.2).2 hc
            omega
        · intro hc
          have := (hstruct r.2).2 hc
          omega
      · constructor
        · simp only
          omega
        · intro hc
          exact absurd rfl hc
    generalize (if S.is_act = true then S.check_structural r.2
      else (term_t.CONTINUE, r.2)) = s at hs
    by_cases hsc : s.1 = term_t.CONTINUE
    · simp only [hsc, ne_eq, not_true_eq_false, if_false]
      split_ifs <;> simp <;> exact hs.1
    · simp only [ne_eq, hsc, not_false_eq_true, if_true]
      exact ⟨fun h => h.elim, fun _ _ _ _ => hs.2 hsc⟩
  · simp only [ne_eq, hr, not_false_eq_true, if_true]
    exact ⟨fun _ => by omega, fun _ _ _ _ => by omega⟩

theorem take_keeps_prefix (base extra : List P) (k : Nat) (hk : base.length ≤ k) :
    (base ++ extra).take k = base ++ extra.take (k - base.length) := by
  rw [List.take_append_eq_append_take, List.take_of_length_le hk]

theorem truncate_exit_sgm_scan_best (S : Shared P W) (pts : List P) :
    ∀ (n i : Nat) (mv : Option Int) (best b : Nat) (m m1 : Method P W),
      truncate_exit_sgm_scan S pts n i mv best m = Except.ok (b, m1) → b = best ∨ i ≤ b := by
  intro n
  induction n with
  | zero =>
    intro i mv best b m m1 h
    simp only [truncate_exit_sgm_scan, Except.ok.injEq, Prod.mk.injEq] at h
    exact Or.inl h.1.symm
  | succ k ih =>
    intro i mv best b m m1 h
    unfold truncate_exit_sgm_scan at h
    split at h
    · simp only at h
      split_ifs at h
      · rcases ih _ _ _ _ _ _ h with h1 | h1
        · exact Or.inr (by omega)
        · exact Or.inr (by omega)
      · rcases ih _ _ _ _ _ _ h with h1 | h1
        · exact Or.inl h1
        · exact Or.inr (by omega)
    · simp at h

/-- The crop of `truncate_exit_sgm` leaves a prefix of the track that reaches
beyond the points preceding the grey matter segment; the seed index and the
rest of the tracker state apart from the method are untouched. -/
theorem truncate_exit_sgm_keeps (S : Shared P W) (tck tck1 : GeneratedTrack P)
    (e e1 : Exec P W) (h : truncate_exit_sgm S tck e = Except.ok (tck1, e1)) :
    tck1.seed_index = tck.seed_index ∧
    ∃ b, tck1.pts = tck.pts.take (b + 1) ∧ tck.pts.length - e.method.sgm_depth ≤ b := by
  unfold truncate_exit_sgm at h
  split_ifs at h with hd
  simp only at h
  split at h
  · simp at h
  · rename_i r hr
    simp only [Except.ok.injEq, Prod.mk.injEq] at h
    obtain ⟨rfl, -⟩ := h
    refine ⟨rfl, r.1, rfl, ?_⟩
    have hb := truncate_exit_sgm_scan_best S _ _ _ _ _ r.1 _ r.2 hr
    simp only [GeneratedTrack.size] at hb hd
    omega

theorem apply_priors_result (S : Shared P W) (t t1 : term_t) (l e2 : Exec P W)
    (h : apply_priors S t l = Except.ok (t1, e2)) :
    (t1 = t ∨ (t1 = term_t.TERM_IN_SGM ∧ e2.track_excluded = l.track_excluded)) ∧
    (l.track_excluded = true → e2.track_excluded = true) ∧
    (t1 = term_t.EXIT_SGM → S.is_act = true) := by
  unfold apply_priors at h
  cases t <;> split_ifs at h <;>
    simp only [Except.ok.injEq, Prod.mk.injEq, reduceCtorEq] at h <;>
    obtain ⟨rfl, rfl⟩ := h <;> simp_all

/-- The part of `gen_track_unidir` after its loop keeps the seed index and the
points up to the seed, provided an exit from the grey matter comes with a depth
counter no larger than the number of points grown beyond the seed. -/
theorem gen_track_unidir_finish_keeps (S : Shared P W)
    (hcol : S.is_act = true → act_collaborators_local S)
    (t : term_t) (tck tck1 : GeneratedTrack P) (l e1 : Exec P W)
    (h : gen_track_unidir_finish S t tck l = Except.ok (tck1, e1))
    (base extra : List P) (hpts : tck.pts = base ++ extra)
    (hbase : base.length = tck.seed_index + 1)
    (hsgm : S.is_act = true → t = term_t.EXIT_SGM → l.method.sgm_depth ≤ extra.length) :
    tck1.seed_index = tck.seed_index ∧ ∃ extra1, tck1.pts = base ++ extra1 := by
  unfold gen_track_unidir_finish at h
  cases ha : apply_priors S t l with
  | error y => simp [ha] at h
  | ok a =>
    obtain ⟨t1, e2⟩ := a
    have hres := apply_priors_result S _ _ _ _ ha
    have hfr := apply_priors_frame S _ _ _ _ ha
    simp only [ha] at h
    have hcount : ∀ (c : GeneratedTrack P × Exec P W),
        c.1.seed_index = tck.seed_index → (∃ x, c.1.pts = base ++ x) →
        (match (if c.2.track_excluded = true then
              match rejection_of_termination t1 with
              | some reason => Except.ok (add_rejection c.2 reason)
              | none => Except.error Err.excluded_but_termination_good
            else Except.ok c.2 : Except Err (Exec P W)) with
          | Except.error x => Except.error x
          | Except.ok e3 =>
            Except.ok
              (if (S.is_act && decide (t1 = term_t.ENTER_CGM) && S.act_crop_at_gmwmi) = true
                then S.crop_at_gmwmi c.1 else c.1,
               add_termination e3 t1)) = Except.ok (tck1, e1) →
        tck1.seed_index = tck.seed_index ∧ ∃ extra1, tck1.pts = base ++ extra1 := by
      intro c hsi hx hm
      have hcrop : (if (S.is_act && decide (t1 = term_t.ENTER_CGM) && S.act_crop_at_gmwmi) = true
          then S.crop_at_gmwmi c.1 else c.1) = tck1 := by
        split at hm
        · simp at hm
        · simp only [Except.ok.injEq, Prod.mk.injEq] at hm
          exact hm.1
      rw [← hcrop]
      split_ifs with hcond
      · have hact : S.is_act = true := by
          simp only [Bool.and_eq_true] at hcond
          exact hcond.1.1
        obtain ⟨-, -, -, -, hc⟩ := hcol hact
        obtain ⟨h1, x1, h2⟩ := hc c.1
        obtain ⟨x, hx⟩ := hx
        refine ⟨h1.trans hsi, x1, ?_⟩
        rw [h2, hx, hsi, ← hbase, List.take_left]
      · exact ⟨hsi, hx⟩
    by_cases hsgm1 : t1 = term_t.EXIT_SGM
    · have hact := hres.2.2 hsgm1
      have ht : t = term_t.EXIT_SGM := by
        rcases hres.1 with h1 | ⟨h1, -⟩
        · rw [← h1]
          exact hsgm1
        · rw [hsgm1] at h1
          exact absurd h1 (by decide)
      simp only [hsgm1, if_true] at h
      cases htr : truncate_exit_sgm S tck e2 with
      | error y => simp [htr] at h
      | ok tr =>
        obtain ⟨tr1, tr2⟩ := tr
        obtain ⟨hk1, b, hk2, hk3⟩ := truncate_exit_sgm_keeps S _ _ _ _ htr
        simp only [htr] at h
        cases hb : tr1.back with
        | none => simp [hb] at h
        | some p =>
          simp only [hb] at h
          have hd := hsgm hact ht
          rw [hfr.1] at hk3
          have hlen : tck.pts.length = base.length + extra.length := by
            rw [hpts, List.length_append]
          have := hcount (tr1, { tr2 with method := { tr2.method with pos := p } }) hk1
            ⟨extra.take (b + 1 - base.length), by
              rw [hk2, hpts]
              exact take_keeps_prefix base extra (b + 1) (by omega)⟩
          rw [hsgm1] at this
          exact this h
    · simp only [hsgm1, if_false] at h
      exact hcount (tck, e2) rfl ⟨extra, hpts⟩ h

theorem track_after_iterate_pts (S : Shared P W) (tck : GeneratedTrack P) (e : Exec P W) :
    (track_after_iterate S tck e).seed_index = tck.seed_index ∧
    ∃ x, (track_after_iterate S tck e).pts = tck.pts ++ x ∧
      (S.term_add_to_tck (iterate S e).1 = true → x.length = 1) := by
  unfold track_after_iterate
  split_ifs with h
  · exact ⟨rfl, [(iterate S e).2.method.pos], rfl, fun _ => rfl⟩
  · exact ⟨rfl, [], by simp, fun h1 => absurd h1 h⟩

/-- The loop of `gen_track_unidir` without backtracking only appends points;
in anatomically-constrained mode, when it leaves with EXIT_SGM the depth
counter is at most the number of points appended. -/
theorem gen_track_unidir_loop_appends (S : Shared P W)
    (hcol : S.is_act = true → act_collaborators_local S) :
    ∀ (fuel : Nat) (tck : GeneratedTrack P) (e : Exec P W) (t : term_t)
      (tk : GeneratedTrack P) (l : Exec P W),
      gen_track_unidir_loop S fuel tck e = Except.ok (t, tk, l) →
      ∀ (base extra : List P), tck.pts = base ++ extra →
      (S.is_act = true → e.method.sgm_depth ≤ extra.length) →
      tk.seed_index = tck.seed_index ∧
      ∃ extra1, tk.pts = base ++ extra1 ∧
        (S.is_act = true → t = term_t.EXIT_SGM → l.method.sgm_depth ≤ extra1.length) := by
  intro fuel
  induction fuel with
  | zero =>
    intro tck e t tk l h
    simp [gen_track_unidir_loop] at h
  | succ f ih =>
    intro tck e t tk l h base extra hpts hsgm
    obtain ⟨hsi, x, hx, hxl⟩ := track_after_iterate_pts S tck e
    have hb1 : (gen_track_unidir_body S tck e).2.1 = track_after_iterate S tck e := rfl
    have hb2 : (gen_track_unidir_body S tck e).2.2 = (iterate S e).2 := rfl
    have hb0 : (gen_track_unidir_body S tck e).1 ≠ term_t.LENGTH_EXCEED →
        (gen_track_unidir_body S tck e).1 = (iterate S e).1 := by
      intro hne
      simp only [gen_track_unidir_body] at hne ⊢
      split_ifs at hne ⊢ <;> first | rfl | exact absurd rfl hne
    have hpts1 : (track_after_iterate S tck e).pts = base ++ (extra ++ x) := by
      rw [hx, hpts, List.append_assoc]
    unfold gen_track_unidir_loop at h
    simp only at h
    by_cases hc : (gen_track_unidir_body S tck e).1 = term_t.CONTINUE
    · simp only [hc, if_true] at h
      have hit : (iterate S e).1 = term_t.CONTINUE := by
        rw [← hb0 (by rw [hc]; decide)]
        exact hc
      rw [hb1, hb2] at h
      obtain ⟨h1, extra1, h2, h3⟩ := ih _ _ _ _ _ h base (extra ++ x) hpts1 (by
        intro hact
        obtain ⟨hadd, hnext, hstruct, -, -⟩ := hcol hact
        have hs := (iterate_sgm_depth S e hnext hstruct).1 hit
        have hx1 := hxl (by rw [hit]; exact hadd)
        have := hsgm hact
        rw [List.length_append, hx1]
        omega)
      exact ⟨h1.trans hsi, extra1, h2, h3⟩
    · simp only [hc, if_false, Except.ok.injEq] at h
      have h1 : (gen_track_unidir_body S tck e).1 = t := by rw [h]
      have h2 : (gen_track_unidir_body S tck e).2.1 = tk := by rw [h]
      have h3 : (gen_track_unidir_body S tck e).2.2 = l := by rw [h]
      subst h1 h2 h3
      rw [hb1, hb2]
      refine ⟨hsi, extra ++ x, hpts1, ?_⟩
      intro hact ht
      obtain ⟨-, hnext, hstruct, -, -⟩ := hcol hact
      have hit : (iterate S e).1 = term_t.EXIT_SGM := by
        rw [← hb0 (by rw [ht]; decide)]
        exact ht
      have hs := (iterate_sgm_depth S e hnext hstruct).2 (by rw [hit]; decide)
        (by rw [hit]; decide) (by rw [hit]; decide) (by rw [hit]; decide)
      have := hsgm hact
      rw [List.length_append]
      omega

/-- One pass of the backtracking loop keeps the points up to the seed: the
track it leaves is the given base followed by some points, as long as the
track is not excluded at that moment. -/
theorem gen_track_unidir_backtrack_body_appends (S : Shared P W) (hact : S.is_act = true)
    (hcol : act_collaborators_local S) (tck : GeneratedTrack P) (r : Nat) (e : Exec P W)
    (hex : e.track_excluded = false) (base extra : List P) (hpts : tck.pts = base ++ extra)
    (hbase : base.length = tck.seed_index + 1) (hsgm : e.method.sgm_depth ≤ extra.length)
    (t : term_t) (tk : GeneratedTrack P) (r1 : Nat) (l : Exec P W)
    (h : gen_track_unidir_backtrack_body S tck r e = Except.ok (t, tk, r1, l)) :
    tk.seed_index = tck.seed_index ∧ (t = term_t.CONTINUE → l.track_excluded = false) ∧
    (l.track_excluded = false → ∃ extra1, tk.pts = base ++ extra1 ∧
      (t = term_t.CONTINUE ∨ t = term_t.EXIT_SGM → l.method.sgm_depth ≤ extra1.length)) := by
  obtain ⟨hadd, hnext, hstruct, htrunc, -⟩ := hcol
  have hi := iterate_frame S e
  have hie : (iterate S e).2.track_excluded = false := by rw [hi.1, hex]
  have hsd := iterate_sgm_depth S e hnext hstruct
  obtain ⟨hsi, x, hx, hxl⟩ := track_after_iterate_pts S tck e
  have hpts1 : (track_after_iterate S tck e).pts = base ++ (extra ++ x) := by
    rw [hx, hpts, List.append_assoc]
  unfold gen_track_unidir_backtrack_body at h
  simp only at h
  have htk : (if S.term_add_to_tck (iterate S e).1 = true
    then tck.push_back (iterate S e).2.method.pos else tck) = track_after_iterate S tck e := rfl
  rw [htk] at h
  generalize track_after_iterate S tck e = tk0 at h hsi hpts1
  by_cases hc : (iterate S e).1 = term_t.CONTINUE
  · simp only [hc, ne_eq, not_true_eq_false, if_false] at h
    have hx1 := hxl (by rw [hc]; exact hadd)
    have hs := hsd.1 hc
    split_ifs at h
    · simp only [Except.ok.injEq, Prod.mk.injEq] at h
      obtain ⟨rfl, rfl, -, rfl⟩ := h
      refine ⟨hsi, fun h => absurd h (by decide), fun _ => ⟨_, hpts1, ?_⟩⟩
      rintro (h | h) <;> exact absurd h (by decide)
    · simp only [Except.ok.injEq, Prod.mk.injEq] at h
      obtain ⟨rfl, rfl, -, rfl⟩ := h
      refine ⟨hsi, fun _ => hie, fun _ => ⟨_, hpts1, fun _ => ?_⟩⟩
      rw [List.length_append, hx1]
      omega
  · simp only [ne_eq, hc, not_false_eq_true, if_true] at h
    cases ha : apply_priors S (iterate S e).1 (iterate S e).2 with
    | error y => simp [ha] at h
    | ok a =>
      obtain ⟨a1, a2⟩ := a
      obtain ⟨ha1, ham, hax⟩ := apply_priors_act_fresh S _ _ _ _ hact hie ha
      obtain ⟨hres, -, -⟩ := apply_priors_result S _ _ _ _ ha
      simp only [ha] at h
      obtain ⟨htr1, htr2⟩ := htrunc tk0 (r + 1) a2.method
      generalize S.truncate_track tk0 (r + 1) a2.method = tr at h htr1 htr2
      split_ifs at h with hcond hsize
      · split at h
        · rename_i last prev rest hrev
          simp only [Except.ok.injEq, Prod.mk.injEq] at h
          obtain ⟨rfl, rfl, -, rfl⟩ := h
          simp only [Bool.and_eq_true, decide_eq_true_eq] at hcond
          have ha1r : a1 = (iterate S e).1 := by
            rcases hres with h | ⟨-, h⟩
            · exact h
            · rw [hie] at h
              rw [h] at hcond
              exact absurd hcond.1 (by decide)
          subst ha1r
          have hs : (iterate S e).2.method.sgm_depth ≤ e.method.sgm_depth := by
            rcases hax hcond.1 with h | h | h | ⟨h | h | h, -⟩
            · exact hsd.2 hc (by rw [h]; decide) hcond.2 (by rw [h]; decide)
            · exact hsd.2 hc (by rw [h]; decide) hcond.2 (by rw [h]; decide)
            · exact absurd h hcond.2
            · exact hsd.2 hc (by rw [h]; decide) hcond.2 (by rw [h]; decide)
            · exact hsd.2 hc (by rw [h]; decide) hcond.2 (by rw [h]; decide)
            · exact hsd.2 hc (by rw [h]; decide) hcond.2 (by rw [h]; decide)
          simp only [GeneratedTrack.size, GeneratedTrack.get_seed_index] at hsize
          rw [htr1] at hsize ⊢
          simp only [List.length_take] at hsize
          refine ⟨hsi, fun _ => rfl, fun _ => ?_⟩
          have hlen : tk0.pts.length = base.length + (extra.length + x.length) := by
            rw [hpts1, List.length_append, List.length_append]
          have hk : base.length ≤ tk0.pts.length - (r + 1) := by
            rw [hsi] at hsize
            omega
          refine ⟨(extra ++ x).take (tk0.pts.length - (r + 1) - base.length), ?_, fun _ => ?_⟩
          · show List.take (tk0.pts.length - (r + 1)) tk0.pts = _
            rw [hpts1] at hk ⊢
            exact take_keeps_prefix base (extra ++ x) _ hk
          · show tr.2.sgm_depth ≤ _
            rw [List.length_take, List.length_append]
            rw [ham] at htr2
            rw [hsi] at hsize
            omega
        · simp at h
      · simp only [Except.ok.injEq, Prod.mk.injEq] at h
        obtain ⟨rfl, rfl, -, rfl⟩ := h
        simp only [Bool.and_eq_true, decide_eq_true_eq] at hcond
        rw [htr1]
        refine ⟨hsi, fun h => absurd h ha1, fun h => ?_⟩
        rw [show ({ a2 with method := tr.2 } : Exec P W).track_excluded = a2.track_excluded from rfl,
          hcond.1] at h
        exact absurd h (by decide)
      · simp only [Except.ok.injEq, Prod.mk.injEq] at h
        obtain ⟨rfl, rfl, -, rfl⟩ := h
        refine ⟨hsi, fun h => absurd h ha1, fun _ => ⟨_, hpts1, ?_⟩⟩
        rintro (h | h)
        · exact absurd h ha1
        · have ha1r : (iterate S e).1 = term_t.EXIT_SGM := by
            rcases hres with h1 | ⟨h1, -⟩
            · rw [← h1, h]
            · rw [h] at h1
              exact absurd h1 (by decide)
          have hs := hsd.2 (by rw [ha1r]; decide) (by rw [ha1r]; decide)
            (by rw [ha1r]; decide) (by rw [ha1r]; decide)
          rw [ham, List.length_append]
          omega

theorem gen_track_unidir_backtrack_appends (S : Shared P W) (hact : S.is_act = true)
    (hcol : act_collaborators_local S) :
    ∀ (fuel : Nat) (tck : GeneratedTrack P) (r : Nat) (e : Exec P W) (t : term_t)
      (tk : GeneratedTrack P) (r1 : Nat) (l : Exec P W),
      e.track_excluded = false →
      gen_track_unidir_backtrack S fuel tck r e = Except.ok (t, tk, r1, l) →
      ∀ (base extra : List P), tck.pts = base ++ extra →
      base.length = tck.seed_index + 1 → e.method.sgm_depth ≤ extra.length →
      tk.seed_index = tck.seed_index ∧
      (l.track_excluded = false → ∃ extra1, tk.pts = base ++ extra1 ∧
        (t = term_t.EXIT_SGM → l.method.sgm_depth ≤ extra1.length)) := by
  intro fuel
  induction fuel with
  | zero =>
    intro tck r e t tk r1 l _ h
    simp [gen_track_unidir_backtrack] at h
  | succ f ih =>
    intro tck r e t tk r1 l hex h base extra hpts hbase hsgm
    unfold gen_track_unidir_backtrack at h
    cases hb : gen_track_unidir_backtrack_body S tck r e with
    | error y => simp [hb] at h
    | ok b =>
      obtain ⟨bt, btk, br, bl⟩ := b
      obtain ⟨h1, h2, h3⟩ := gen_track_unidir_backtrack_body_appends S hact hcol tck r e hex
        base extra hpts hbase hsgm bt btk br bl hb
      simp only [hb] at h
      by_cases hc : bt = term_t.CONTINUE
      · simp only [hc, if_true] at h
        obtain ⟨extra1, h4, h5⟩ := h3 (h2 hc)
        obtain ⟨h6, h7⟩ := ih _ _ _ _ _ _ _ (h2 hc) h base extra1 h4 (by rw [h1]; exact hbase)
          (h5 (Or.inl hc))
        exact ⟨h6.trans h1, h7⟩
      · simp only [hc, if_false, Except.ok.injEq, Prod.mk.injEq] at h
        obtain ⟨rfl, rfl, -, rfl⟩ := h
        refine ⟨h1, fun hl => ?_⟩
        obtain ⟨extra1, h4, h5⟩ := h3 hl
        exact ⟨extra1, h4, fun ht => h5 (Or.inr ht)⟩

/-- A growth direction that starts at the seed (the seed being the last point
of the track) and ends without the track being rejected only appends points
after the seed and keeps the seed index. -/
theorem gen_track_unidir_appends (S : Shared P W)
    (hcol : S.is_act = true → act_collaborators_local S) (fuel : Nat)
    (tck tck1 : GeneratedTrack P) (e e1 : Exec P W)
    (h : gen_track_unidir S fuel tck e = Except.ok (tck1, e1))
    (hex : e.track_excluded = false) (hseed : tck.size = tck.seed_index + 1)
    (hacc : e1.track_excluded = false) :
    tck1.seed_index = tck.seed_index ∧ ∃ extra, tck1.pts = tck.pts ++ extra := by
  unfold gen_track_unidir at h
  simp only at h
  have hfin : ∀ (t : term_t) (tk : GeneratedTrack P) (l : Exec P W),
      gen_track_unidir_finish S t tk l = Except.ok (tck1, e1) → l.track_excluded = false := by
    intro t tk l hf
    obtain ⟨t1, e2, ha, -, hx, -, -⟩ := gen_track_unidir_finish_spec S t tk tck1 l e1 hf
    obtain ⟨-, hmono, -⟩ := apply_priors_result S _ _ _ _ ha
    cases hl : l.track_excluded with
    | false => rfl
    | true =>
      rw [hmono hl, hacc] at hx
      exact absurd hx (by decide)
  by_cases hbt : (S.is_act && S.act_backtrack) = true
  · simp only [hbt, if_true] at h
    have hact : S.is_act = true := by
      simp only [Bool.and_eq_true] at hbt
      exact hbt.1
    simp only [hact, if_true] at h
    cases hl : gen_track_unidir_backtrack S fuel tck 0
        { e with method := { e.method with sgm_depth := 0 } } with
    | error y => simp [hl] at h
    | ok b =>
      obtain ⟨t, tk, r1, l⟩ := b
      simp only [hl] at h
      obtain ⟨h1, h2⟩ := gen_track_unidir_backtrack_appends S hact (hcol hact) fuel tck 0
        { e with method := { e.method with sgm_depth := 0 } }
        t tk r1 l hex hl tck.pts [] (by simp) hseed (Nat.zero_le _)
      obtain ⟨extra1, h3, h4⟩ := h2 (hfin _ _ _ h)
      obtain ⟨h5, extra2, h6⟩ := gen_track_unidir_finish_keeps S hcol _ _ _ _ _ h _ _ h3
        (by rw [h1]; exact hseed) (fun _ => h4)
      exact ⟨h5.trans h1, extra2, h6⟩
  · simp only [hbt, if_false] at h
    have he0 : S.is_act = true → (if S.is_act = true then
        ({ e with method := { e.method with sgm_depth := 0 } } : Exec P W) else e).method.sgm_depth
          = 0 := by
      intro hact
      rw [if_pos hact]
    generalize (if S.is_act = true then
      ({ e with method := { e.method with sgm_depth := 0 } } : Exec P W) else e) = e0 at h he0
    cases hl : gen_track_unidir_loop S fuel tck e0 with
    | error y => simp [hl] at h
    | ok b =>
      obtain ⟨t, tk, l⟩ := b
      simp only [hl] at h
      obtain ⟨h1, extra1, h3, h4⟩ := gen_track_unidir_loop_appends S hcol fuel tck e0 t tk l hl
        tck.pts [] (by simp) (fun hact => by rw [he0 hact]; exact Nat.zero_le _)
      obtain ⟨h5, extra2, h6⟩ := gen_track_unidir_finish_keeps S hcol _ _ _ _ _ h _ _ h3
        (by rw [h1]; exact hseed) h4
      exact ⟨h5.trans h1, extra2, h6⟩

theorem gen_track_from_seed_unfold (S : Shared P W) (fuel : Nat) (tck0 : GeneratedTrack P)
    (e0 : Exec P W) (tckf : GeneratedTrack P) (ef : Exec P W)
    (hfwd : gen_track_unidir S fuel (tck0.push_back (forward_start S e0).2.method.pos)
      (forward_start S e0).2 = Except.ok (tckf, ef)) :
    gen_track_from_seed S fuel tck0 e0 =
      if (!ef.track_excluded && !(forward_start S e0).1) = true then
        match tckf.reverse.back with
        | none => Except.error Err.out_of_bounds
        | some p =>
          match gen_track_unidir S fuel tckf.reverse
            (backward_start S (forward_start S e0).2.method.dir ef p) with
          | Except.error x => Except.error x
          | Except.ok b => Except.ok (true, b.1, b.2)
      else Except.ok (true, tckf, ef) := by
  unfold gen_track_from_seed backward_start
  simp only [hfwd]

theorem seed_is_last_of_reverse (p : P) (pts ex : List P) (h : pts = [p] ++ ex) :
    pts.reverse.getLast? = some p ∧ pts.length - 1 + 1 = pts.length ∧
    ∀ extra, (pts.reverse ++ extra).get? (pts.length - 1) = some p := by
  subst h
  refine ⟨by simp, by simp, fun extra => ?_⟩
  simp only [List.reverse_append, List.reverse_cons, List.reverse_nil, List.nil_append,
    List.length_append, List.length_singleton, List.append_assoc, List.singleton_append]
  rw [List.get?_eq_getElem?, List.getElem?_append_right (by simp)]
  simp

theorem line_scenario_act_collaborators_local (bt uni : Bool) (minp maxp k : Nat) (t : term_t) :
    act_collaborators_local (line_scenario true bt uni minp maxp (count_then k t)) := by
  refine ⟨rfl, fun m => ?_, fun m => ⟨fun _ => Nat.le_succ _, fun _ => Nat.le_refl _⟩,
    fun tk n m => ⟨rfl, Nat.le_refl _⟩, fun tk => ⟨rfl, tk.pts.drop (tk.seed_index + 1), ?_⟩⟩
  · show (count_then k t m).2.sgm_depth = m.sgm_depth
    unfold count_then
    split_ifs <;> rfl
  · exact (List.take_append_drop _ _).symm

/-- C14. Bidirectional assembly in `gen_track`, for a start with the rejection
flag unset and the track cleared. When forward growth leaves the path rejected
or tracking is unidirectional, no second growth is run and the result is the
forward path unchanged. Otherwise the forward path is reversed (its last point
is then the seed), and the result is that of a second growth from the seed
position with the negated seed direction. For every accepted bidirectional
result the final sequence is the reversed forward path followed by further
points, the seed index is the forward length minus one and the point at that
index is the seed. In anatomically-constrained mode this assumes that the
collaborators keep the grey matter depth counter and the points up to the seed
(`act_collaborators_local`). -/
theorem bidirectional_assembly (S : Shared P W)
    (hcol : S.is_act = true → act_collaborators_local S) (fuel : Nat)
    (tck : GeneratedTrack P) (e0 : Exec P W) (tckf : GeneratedTrack P) (ef : Exec P W)
    (hex : e0.track_excluded = false)
    (hfwd : gen_track_unidir S fuel (tck.clear.push_back (forward_start S e0).2.method.pos)
      (forward_start S e0).2 = Except.ok (tckf, ef)) :
    (ef.track_excluded = true ∨ (forward_start S e0).1 = true →
      gen_track_from_seed S fuel tck.clear e0 = Except.ok (true, tckf, ef)) ∧
    (ef.track_excluded = false → (forward_start S e0).1 = false →
      tckf.reverse.pts = tckf.pts.reverse ∧
      tckf.reverse.back = some (forward_start S e0).2.method.pos ∧
      gen_track_from_seed S fuel tck.clear e0 =
        match gen_track_unidir S fuel tckf.reverse
          (backward_start S (forward_start S e0).2.method.dir ef
            (forward_start S e0).2.method.pos) with
        | Except.error x => Except.error x
        | Except.ok b => Except.ok (true, b.1, b.2)) ∧
    (∀ r, gen_track_from_seed S fuel tck.clear e0 = Except.ok r →
      r.2.2.track_excluded = false → (forward_start S e0).1 = false →
      r.2.1.seed_index = tckf.pts.length - 1 ∧
      r.2.1.pts.get? r.2.1.seed_index = some (forward_start S e0).2.method.pos ∧
      ∃ extra, r.2.1.pts = tckf.pts.reverse ++ extra) := by
  have hun := gen_track_from_seed_unfold S fuel tck.clear e0 tckf ef hfwd
  have hfa : ef.track_excluded = false →
      ∃ ex, tckf.pts = [(forward_start S e0).2.method.pos] ++ ex := by
    intro hacc
    exact (gen_track_unidir_appends S hcol fuel _ _ _ _ hfwd hex rfl hacc).2
  refine ⟨fun h => ?_, fun hacc huni => ?_, fun r hr hacc huni => ?_⟩
  · rw [hun, if_neg]
    rcases h with h | h <;> simp [h]
  · obtain ⟨ex, hpts⟩ := hfa hacc
    obtain ⟨hlast, -, -⟩ := seed_is_last_of_reverse _ _ _ hpts
    have hback : tckf.reverse.back = some (forward_start S e0).2.method.pos := hlast
    refine ⟨rfl, hback, ?_⟩
    rw [hun, if_pos (by simp [hacc, huni]), hback]
  · have hacc1 : ef.track_excluded = false := by
      cases hx : ef.track_excluded with
      | false => rfl
      | true =>
        rw [hun, if_neg (by simp [hx])] at hr
        simp only [Except.ok.injEq] at hr
        rw [← hr] at hacc
        exact absurd (hx.symm.trans hacc) (by decide)
    obtain ⟨ex, hpts⟩ := hfa hacc1
    obtain ⟨hlast, hlen, hget⟩ := seed_is_last_of_reverse _ _ _ hpts
    have hback : tckf.reverse.back = some (forward_start S e0).2.method.pos := hlast
    rw [hun, if_pos (by simp [hacc1, huni]), hback] at hr
    simp only at hr
    cases hb : gen_track_unidir S fuel tckf.reverse
        (backward_start S (forward_start S e0).2.method.dir ef
          (forward_start S e0).2.method.pos) with
    | error y => simp [hb] at hr
    | ok b =>
      simp only [hb, Except.ok.injEq] at hr
      subst hr
      obtain ⟨h1, extra, h2⟩ := gen_track_unidir_appends S hcol fuel _ _ _ _ hb hacc1
        (by show tckf.pts.reverse.length = tckf.pts.length - 1 + 1
            rw [List.length_reverse, hlen]) hacc
      refine ⟨h1, ?_, extra, h2⟩
      show b.1.pts.get? b.1.seed_index = _
      rw [h1, h2]
      exact hget extra

theorem bidirectional_assembly_witness :
    gen_track_unidir (line_scenario true false false 2 100 (count_then 3 term_t.EXIT_IMAGE)) 10
      { pts := [0], seed_index := 0 } scenario_seeded =
      Except.ok ({ pts := [0, 1, 2, 3], seed_index := 0 },
        scenario_outcome 3 1 3 false none term_t.EXIT_IMAGE) ∧
    gen_track_from_seed (line_scenario true false false 2 100 (count_then 3 term_t.EXIT_IMAGE)) 10
      { pts := [], seed_index := 0 } scenario_seeded =
      Except.ok (true, { pts := [3, 2, 1, 0, -1, -2, -3], seed_index := 3 },
        add_termination (scenario_outcome (-3) (-1) 3 false none term_t.EXIT_IMAGE)
          term_t.EXIT_IMAGE) ∧
    (3 = [(0 : Int), 1, 2, 3].length - 1 ∧
      [(3 : Int), 2, 1, 0, -1, -2, -3].get? 3 = some 0 ∧
      ∃ extra, [(3 : Int), 2, 1, 0, -1, -2, -3] = [(0 : Int), 1, 2, 3].reverse ++ extra) :=
  ⟨rfl, rfl,
   (bidirectional_assembly (line_scenario true false false 2 100 (count_then 3 term_t.EXIT_IMAGE))
      (fun _ => line_scenario_act_collaborators_local false false 2 100 3 term_t.EXIT_IMAGE) 10
      { pts := [7], seed_index := 0 } scenario_seeded { pts := [0, 1, 2, 3], seed_index := 0 }
      (scenario_outcome 3 1 3 false none term_t.EXIT_IMAGE) rfl rfl).2.2
      (true, { pts := [3, 2, 1, 0, -1, -2, -3], seed_index := 3 },
        add_termination (scenario_outcome (-3) (-1) 3 false none term_t.EXIT_IMAGE)
          term_t.EXIT_IMAGE) rfl rfl rfl⟩

/-! ### Exhaustion of the per-voxel seed sources -/

/-- C18. For `Random_per_voxel` and `Grid_per_voxel`: a call of `get_seed` that
returns false leaves the output point as it was and leaves the source expired,
and every call on that source afterwards (whatever the output point passed and
the fuel) returns false, leaves the point unmodified and leaves the source in
the same state, so that the same holds for all later calls. -/
theorem per_voxel_exhaustion_is_permanent (R Pt : Type) :
    (∀ (fuel : Nat) (s s1 : Random_per_voxel R Pt) (p p1 : Pt),
      Random_per_voxel.get_seed R Pt fuel s p = some (false, s1, p1) →
      p1 = p ∧ s1.expired = true ∧
      ∀ (fuel1 : Nat) (q : Pt), Random_per_voxel.get_seed R Pt fuel1 s1 q = some (false, s1, q)) ∧
    (∀ (fuel : Nat) (s s1 : Grid_per_voxel Pt) (p p1 : Pt),
      Grid_per_voxel.get_seed Pt fuel s p = some (false, s1, p1) →
      p1 = p ∧ s1.expired = true ∧
      ∀ (fuel1 : Nat) (q : Pt), Grid_per_voxel.get_seed Pt fuel1 s1 q = some (false, s1, q)) := by
  have hr : ∀ (s : Random_per_voxel R Pt), s.expired = true →
      ∀ (fuel1 : Nat) (q : Pt), Random_per_voxel.get_seed R Pt fuel1 s q = some (false, s, q) := by
    intro s hs fuel1 q
    unfold Random_per_voxel.get_seed
    rw [if_pos hs]
  have hg : ∀ (s : Grid_per_voxel Pt), s.expired = true →
      ∀ (fuel1 : Nat) (q : Pt), Grid_per_voxel.get_seed Pt fuel1 s q = some (false, s, q) := by
    intro s hs fuel1 q
    unfold Grid_per_voxel.get_seed
    rw [if_pos hs]
  constructor
  · intro fuel s s1 p p1 h
    have key : p1 = p ∧ s1.expired = true := by
      unfold Random_per_voxel.get_seed Random_per_voxel.emit at h
      split_ifs at h with h1 h2 h3
      · simp only [Option.some.injEq, Prod.mk.injEq, true_and] at h
        obtain ⟨rfl, rfl⟩ := h
        exact ⟨rfl, h1⟩
      · split at h
        · simp at h
        · split_ifs at h
          · simp only [Option.some.injEq, Prod.mk.injEq, true_and] at h
            obtain ⟨rfl, rfl⟩ := h
            exact ⟨rfl, rfl⟩
          · simp at h
      · split at h
        · simp at h
        · split_ifs at h
          · simp only [Option.some.injEq, Prod.mk.injEq, true_and] at h
            obtain ⟨rfl, rfl⟩ := h
            exact ⟨rfl, rfl⟩
          · simp at h
      · simp at h
    exact ⟨key.1, key.2, hr s1 key.2⟩
  · intro fuel s s1 p p1 h
    have key : p1 = p ∧ s1.expired = true := by
      unfold Grid_per_voxel.get_seed Grid_per_voxel.emit at h
      split_ifs at h with h1 h2 h3 h4
      · simp only [Option.some.injEq, Prod.mk.injEq, true_and] at h
        obtain ⟨rfl, rfl⟩ := h
        exact ⟨rfl, h1⟩
      · split at h
        · simp at h
        · split_ifs at h
          · simp only [Option.some.injEq, Prod.mk.injEq, true_and] at h
            obtain ⟨rfl, rfl⟩ := h
            exact ⟨rfl, rfl⟩
          · simp at h
      · simp at h
      · simp at h
      · simp at h
    exact ⟨key.1, key.2, hg s1 key.2⟩

theorem per_voxel_exhaustion_is_permanent_witness :
    (Random_per_voxel.get_seed Nat (Int × Int × Int) 5 last_voxel_random (7, 7, 7) =
        some (false, { last_voxel_random with inc := 0, expired := true }, (7, 7, 7)) ∧
      Random_per_voxel.get_seed Nat (Int × Int × Int) 5
        { last_voxel_random with inc := 0, expired := true } (8, 8, 8) =
        some (false, { last_voxel_random with inc := 0, expired := true }, (8, 8, 8))) ∧
    (Grid_per_voxel.get_seed (Int × Int × Int) 5 last_voxel_grid (7, 7, 7) =
        some (false, { last_voxel_grid with pos := (0, 0, 0), expired := true }, (7, 7, 7)) ∧
      Grid_per_voxel.get_seed (Int × Int × Int) 5
        { last_voxel_grid with pos := (0, 0, 0), expired := true } (8, 8, 8) =
        some (false, { last_voxel_grid with pos := (0, 0, 0), expired := true }, (8, 8, 8))) :=
  ⟨⟨rfl, ((per_voxel_exhaustion_is_permanent Nat (Int × Int × Int)).1 5 last_voxel_random
      { last_voxel_random with inc := 0, expired := true } (7, 7, 7) (7, 7, 7) rfl).2.2 5
      (8, 8, 8)⟩,
   ⟨rfl, ((per_voxel_exhaustion_is_permanent Nat (Int × Int × Int)).2 5 last_voxel_grid
      { last_voxel_grid with pos := (0, 0, 0), expired := true } (7, 7, 7) (7, 7, 7) rfl).2.2 5
      (8, 8, 8)⟩⟩

/-! ### Top-N / bottom-N thresholding -/

theorem multimap_insert_perm {α : Type} [LinearOrder α] (x : α × Nat) (l : List (α × Nat)) :
    (multimap_insert x l).Perm (x :: l) := by
  induction l with
  | nil => exact List.Perm.refl _
  | cons y ys ih =>
    unfold multimap_insert
    split_ifs
    · exact List.Perm.refl _
    · exact (List.Perm.cons y ih).trans (List.Perm.swap x y ys)

theorem multimap_insert_length {α : Type} [LinearOrder α] (x : α × Nat) (l : List (α × Nat)) :
    (multimap_insert x l).length = l.length + 1 := by
  rw [(multimap_insert_perm x l).length_eq, List.length_cons]

theorem multimap_insert_sorted {α : Type} [LinearOrder α] (x : α × Nat) (l : List (α × Nat))
    (h : l.Pairwise (fun a b => a.1 ≤ b.1)) :
    (multimap_insert x l).Pairwise (fun a b => a.1 ≤ b.1) := by
  induction l with
  | nil => simp [multimap_insert]
  | cons y ys ih =>
    rw [List.pairwise_cons] at h
    unfold multimap_insert
    split_ifs with hxy
    · refine List.pairwise_cons.mpr ⟨fun z hz => ?_, List.pairwise_cons.mpr h⟩
      rcases List.mem_cons.mp hz with rfl | hz
      · exact le_of_lt hxy
      · exact le_trans (le_of_lt hxy) (h.1 z hz)
    · refine List.pairwise_cons.mpr ⟨fun z hz => ?_, ih h.2⟩
      rcases List.mem_cons.mp ((multimap_insert_perm x ys).mem_iff.mp hz) with rfl | hz
      · exact not_lt.mp hxy
      · exact h.1 z hz

/-- The top-N voxel loop returns a list; it holds N entries once N voxels have
been seen, the entries kept and the entries dropped are together the voxels
seen, and no dropped entry has a greater intensity than a kept one. -/
theorem top_loop_spec {α : Type} [LinearOrder α] (N : Nat) (hN : 0 < N) :
    ∀ (vs L dropped : List (α × Nat)), L.Pairwise (fun a b => a.1 ≤ b.1) → L.length ≤ N →
      (L.length < N → dropped = []) → (∀ d ∈ dropped, ∀ s ∈ L, d.1 ≤ s.1) →
      ∃ L1 dropped1, top_loop N vs L = some L1 ∧ L1.length = min (L.length + vs.length) N ∧
        (L1 ++ dropped1).Perm (L ++ dropped ++ vs) ∧ (∀ d ∈ dropped1, ∀ s ∈ L1, d.1 ≤ s.1) := by
  intro vs
  induction vs with
  | nil =>
    intro L dropped _ hle _ hd
    exact ⟨L, dropped, rfl, by simp [hle], by simp, hd⟩
  | cons v vs ih =>
    intro L dropped hs hle hfull hd
    by_cases hlen : L.length = N
    · cases L with
      | nil =>
        simp only [List.length_nil] at hlen
        omega
      | cons b rest =>
        rw [List.pairwise_cons] at hs
        by_cases hv : v.1 < b.1
        · obtain ⟨L1, d1, h1, h2, h3, h4⟩ := ih (b :: rest) (v :: dropped)
            (List.pairwise_cons.mpr hs) hle (fun h => by omega) (by
              intro d hdm s hsm
              rcases List.mem_cons.mp hdm with rfl | hdm
              · rcases List.mem_cons.mp hsm with rfl | hsm
                · exact le_of_lt hv
                · exact le_trans (le_of_lt hv) (hs.1 s hsm)
              · exact hd d hdm s hsm)
          refine ⟨L1, d1, ?_, ?_, ?_, h4⟩
          · rw [← h1]
            simp only [top_loop, hlen, if_true, hv]
          · rw [h2]
            simp only [List.length_cons] at hlen ⊢
            omega
          · refine h3.trans ?_
            simp only [List.append_assoc, List.cons_append]
            exact List.Perm.cons b (List.Perm.append_left rest List.perm_middle.symm)
        · have hbv : b.1 ≤ v.1 := not_lt.mp hv
          have hlen1 : (multimap_insert v rest).length = N := by
            rw [multimap_insert_length, ← hlen, List.length_cons]
          obtain ⟨L1, d1, h1, h2, h3, h4⟩ := ih (multimap_insert v rest) (b :: dropped)
            (multimap_insert_sorted v rest hs.2) (le_of_eq hlen1) (fun h => by omega) (by
              intro d hdm s hsm
              have hsm1 := List.mem_cons.mp ((multimap_insert_perm v rest).mem_iff.mp hsm)
              rcases List.mem_cons.mp hdm with rfl | hdm
              · rcases hsm1 with rfl | hsm1
                · exact hbv
                · exact hs.1 s hsm1
              · rcases hsm1 with rfl | hsm1
                · exact le_trans (hd d hdm b (List.mem_cons_self _ _)) hbv
                · exact hd d hdm s (List.mem_cons_of_mem _ hsm1))
          refine ⟨L1, d1, ?_, ?_, ?_, h4⟩
          · rw [← h1]
            simp only [top_loop, hlen, if_true, hv, if_false]
          · rw [h2, hlen1]
            simp only [List.length_cons] at hlen ⊢
            omega
          · refine h3.trans ?_
            refine ((multimap_insert_perm v rest).append_right _).append_right _ |>.trans ?_
            simp only [List.append_assoc, List.cons_append]
            refine (List.perm_middle.cons v).trans ((List.Perm.swap b v _).trans ?_)
            refine List.Perm.cons b ?_
            rw [← List.append_assoc, ← List.append_assoc]
            exact List.perm_middle.symm
    · have hlt : L.length < N := by omega
      have hdn := hfull hlt
      subst hdn
      obtain ⟨L1, d1, h1, h2, h3, h4⟩ := ih (multimap_insert v L) []
        (multimap_insert_sorted v L hs) (by rw [multimap_insert_length]; omega) (fun _ => rfl)
        (fun d hdm => absurd hdm (List.not_mem_nil d))
      refine ⟨L1, d1, ?_, ?_, ?_, h4⟩
      · rw [← h1]
        simp only [top_loop, hlen, if_false]
      · rw [h2, multimap_insert_length, List.length_cons]
        congr 1
        omega
      · refine h3.trans ?_
        simp only [List.append_nil]
        exact ((multimap_insert_perm v L).append_right _).trans List.perm_middle.symm

/-- The bottom-N voxel loop returns a list; it holds N entries once N voxels
have been seen, the entries kept and the entries dropped are together the
voxels seen, and no dropped entry has a smaller intensity than a kept one. -/
theorem bottom_loop_spec {α : Type} [LinearOrder α] (N : Nat) (hN : 0 < N) :
    ∀ (vs L dropped : List (α × Nat)), L.Pairwise (fun a b => a.1 ≤ b.1) → L.length ≤ N →
      (L.length < N → dropped = []) → (∀ d ∈ dropped, ∀ s ∈ L, s.1 ≤ d.1) →
      ∃ L1 dropped1, bottom_loop N vs L = some L1 ∧ L1.length = min (L.length + vs.length) N ∧
        (L1 ++ dropped1).Perm (L ++ dropped ++ vs) ∧ (∀ d ∈ dropped1, ∀ s ∈ L1, s.1 ≤ d.1) := by
  intro vs
  induction vs with
  | nil =>
    intro L dropped _ hle _ hd
    exact ⟨L, dropped, rfl, by simp [hle], by simp, hd⟩
  | cons v vs ih =>
    intro L dropped hs hle hfull hd
    by_cases hlen : L.length = N
    · cases hgl : L.getLast? with
      | none =>
        rw [List.getLast?_eq_none_iff] at hgl
        rw [hgl, List.length_nil] at hlen
        omega
      | some b =>
        have hL : L.dropLast ++ [b] = L := List.dropLast_append_getLast? b hgl
        generalize L.dropLast = init at hL
        subst hL
        rw [List.pairwise_append] at hs
        have hib : ∀ s ∈ init, s.1 ≤ b.1 := fun s hsm => hs.2.2 s hsm b (List.mem_singleton_self b)
        have hdl : (init ++ [b]).dropLast = init := List.dropLast_concat
        simp only [List.length_append, List.length_singleton] at hlen
        by_cases hv : v.1 > b.1
        · obtain ⟨L1, d1, h1, h2, h3, h4⟩ := ih (init ++ [b]) (v :: dropped)
            (List.pairwise_append.mpr hs) hle
            (fun h => by simp only [List.length_append, List.length_singleton] at h; omega) (by
              intro d hdm s hsm
              rcases List.mem_cons.mp hdm with rfl | hdm
              · rcases List.mem_append.mp hsm with hsm | hsm
                · exact le_trans (hib s hsm) (le_of_lt hv)
                · rw [List.mem_singleton.mp hsm]
                  exact le_of_lt hv
              · exact hd d hdm s hsm)
          refine ⟨L1, d1, ?_, ?_, ?_, h4⟩
          · rw [← h1]
            simp only [bottom_loop, List.length_append, List.length_singleton, hlen, if_true,
              hgl, hv]
          · rw [h2]
            simp only [List.length_append, List.length_singleton, List.length_cons]
            omega
          · refine h3.trans ?_
            simp only [List.append_assoc]
            exact List.Perm.append_left init (List.Perm.append_left [b] List.perm_middle.symm)
        · have hbv : v.1 ≤ b.1 := not_lt.mp hv
          have hlen1 : (multimap_insert v init).length = N := by
            rw [multimap_insert_length, hlen]
          obtain ⟨L1, d1, h1, h2, h3, h4⟩ := ih (multimap_insert v init) (b :: dropped)
            (multimap_insert_sorted v init hs.1) (le_of_eq hlen1) (fun h => by omega) (by
              intro d hdm s hsm
              have hsm1 := List.mem_cons.mp ((multimap_insert_perm v init).mem_iff.mp hsm)
              have hbm : b ∈ init ++ [b] := List.mem_append_right _ (List.mem_singleton_self b)
              rcases List.mem_cons.mp hdm with rfl | hdm
              · rcases hsm1 with rfl | hsm1
                · exact hbv
                · exact hib s hsm1
              · rcases hsm1 with rfl | hsm1
                · exact le_trans hbv (hd d hdm b hbm)
                · exact hd d hdm s (List.mem_append_left _ hsm1))
          refine ⟨L1, d1, ?_, ?_, ?_, h4⟩
          · rw [← h1]
            simp only [bottom_loop, List.length_append, List.length_singleton, hlen, if_true,
              hgl, hv, if_false, hdl]
          · rw [h2, hlen1]
            simp only [List.length_append, List.length_singleton, List.length_cons]
            omega
          · refine h3.trans ?_
            refine ((multimap_insert_perm v init).append_right _).append_right _ |>.trans ?_
            simp only [List.append_assoc, List.cons_append, List.nil_append]
            have e1 : v :: (init ++ b :: (dropped ++ vs)) = v :: ((init ++ b :: dropped) ++ vs) := by
              simp
            have e2 : init ++ b :: (dropped ++ v :: vs) = (init ++ b :: dropped) ++ v :: vs := by
              simp
            rw [e1, e2]
            exact List.perm_middle.symm
    · have hlt : L.length < N := by omega
      have hdn := hfull hlt
      subst hdn
      obtain ⟨L1, d1, h1, h2, h3, h4⟩ := ih (multimap_insert v L) []
        (multimap_insert_sorted v L hs) (by rw [multimap_insert_length]; omega) (fun _ => rfl)
        (fun d hdm => absurd hdm (List.not_mem_nil d))
      refine ⟨L1, d1, ?_, ?_, ?_, h4⟩
      · rw [← h1]
        simp only [bottom_loop, hlen, if_false]
      · rw [h2, multimap_insert_length, List.length_cons]
        congr 1
        omega
      · refine h3.trans ?_
        simp only [List.append_nil]
        exact ((multimap_insert_perm v L).append_right _).trans List.perm_middle.symm

theorem mem_voxels_iff {α : Type} (image : List α) (w : α) (i : Nat) :
    (w, i) ∈ image.zip (List.range image.length) ↔ image[i]? = some w := by
  rw [List.mem_iff_getElem?]
  constructor
  · rintro ⟨k, hk⟩
    rw [List.getElem?_zip_eq_some] at hk
    obtain ⟨h1, h2⟩ := hk
    have hlt : k < image.length := by
      rcases Nat.lt_or_ge k image.length with h | h
      · exact h
      · rw [List.getElem?_eq_none (by simpa using h)] at h2
        exact absurd h2 (by simp)
    rw [List.getElem?_range hlt] at h2
    simp only [Option.some.injEq] at h2
    subst h2
    exact h1
  · intro h
    have hlt : i < image.length := by
      rcases Nat.lt_or_ge i image.length with h1 | h1
      · exact h1
      · rw [List.getElem?_eq_none h1] at h
        exact absurd h (by simp)
    refine ⟨i, ?_⟩
    rw [List.getElem?_zip_eq_some]
    exact ⟨h, List.getElem?_range hlt⟩

theorem voxels_positions {α : Type} (image : List α) :
    (image.zip (List.range image.length)).map Prod.snd = List.range image.length ∧
    (image.zip (List.range image.length)).length = image.length := by
  constructor
  · exact List.map_snd_zip _ _ (by simp)
  · simp

theorem write_mask_fold {α : Type} (o : mask_value) :
    ∀ (list : List (α × Nat)) (out : List mask_value),
      (list.foldl (fun out entry => out.set entry.2 o) out).length = out.length ∧
      ∀ i, i < out.length →
        (list.foldl (fun out entry => out.set entry.2 o) out)[i]? =
          if i ∈ list.map Prod.snd then some o else out[i]? := by
  intro list
  induction list with
  | nil =>
    intro out
    exact ⟨rfl, fun i _ => by simp⟩
  | cons e es ih =>
    intro out
    obtain ⟨h1, h2⟩ := ih (out.set e.2 o)
    simp only [List.foldl_cons, List.map_cons, List.mem_cons]
    refine ⟨by rw [h1, List.length_set], fun i hi => ?_⟩
    rw [h2 i (by rw [List.length_set]; exact hi)]
    by_cases hmem : i ∈ es.map Prod.snd
    · simp [hmem]
    · by_cases hie : i = e.2
      · subst hie
        simp [hmem, List.getElem?_set, hi]
      · have hne : e.2 ≠ i := fun h => hie h.symm
        simp [hmem, hie, List.getElem?_set, hne]

/-- The output of the two output loops: as many voxels as the image has, a
voxel holding `one` when its position is in the list and `zero` otherwise. -/
theorem write_mask_spec {α : Type} (z o : mask_value) (n : Nat) (list : List (α × Nat)) :
    write_mask z o n list =
      (List.range n).map (fun i => if i ∈ list.map Prod.snd then o else z) := by
  obtain ⟨h1, h2⟩ := write_mask_fold o list (List.replicate n z)
  rw [List.length_replicate] at h1 h2
  apply List.ext_getElem?
  intro i
  unfold write_mask
  by_cases hi : i < n
  · rw [h2 i hi, List.getElem?_map, List.getElem?_range hi]
    by_cases hmem : i ∈ list.map Prod.snd
    · simp [hmem]
    · simp [hmem, List.getElem?_replicate, hi]
  · rw [List.getElem?_eq_none (by rw [h1]; omega), List.getElem?_eq_none (by simp; omega)]

theorem mask_count (z o : mask_value) (hzo : z ≠ o) (n : Nat) (ps : List Nat) (hnd : ps.Nodup)
    (hlt : ∀ p ∈ ps, p < n) :
    ((List.range n).map (fun i => if i ∈ ps then o else z)).count o = ps.length := by
  rw [List.count, List.countP_map, List.countP_eq_length_filter]
  have hf : (List.range n).filter ((fun x => x == o) ∘ fun i => if i ∈ ps then o else z) =
      (List.range n).filter (fun i => decide (i ∈ ps)) := by
    apply List.filter_congr
    intro i _
    by_cases h : i ∈ ps <;> simp [h, hzo]
  rw [hf]
  apply List.Perm.length_eq
  apply (List.perm_ext_iff_of_nodup ((List.nodup_range n).filter _) hnd).mpr
  intro a
  simp only [List.mem_filter, List.mem_range, decide_eq_true_eq]
  exact ⟨fun h => h.2, fun h => ⟨hlt a h, h⟩⟩

/-- The mask written for a list of kept entries that, together with a list of
dropped entries, makes up the voxels of the image: one voxel is set per kept
entry, a set voxel is a kept entry and an unset voxel a dropped one. -/
theorem selection_mask_spec {α : Type} (image : List α) (z o : mask_value) (hzo : z ≠ o)
    (L1 d1 : List (α × Nat))
    (hperm : (L1 ++ d1).Perm (image.zip (List.range image.length))) :
    (write_mask z o image.length L1).length = image.length ∧
    (write_mask z o image.length L1).count o = L1.length ∧
    ∀ (i j : Nat) (a b : α), image[i]? = some a → image[j]? = some b →
      (write_mask z o image.length L1)[i]? = some o →
      (write_mask z o image.length L1)[j]? ≠ some o → (a, i) ∈ L1 ∧ (b, j) ∈ d1 := by
  have hpos : (L1.map Prod.snd ++ d1.map Prod.snd).Perm (List.range image.length) := by
    rw [← List.map_append, ← (voxels_positions image).1]
    exact hperm.map Prod.snd
  have hnd : (L1.map Prod.snd ++ d1.map Prod.snd).Nodup :=
    hpos.nodup_iff.mpr (List.nodup_range _)
  have hnd1 : (L1.map Prod.snd).Nodup := (List.nodup_append.mp hnd).1
  have hlt : ∀ p ∈ L1.map Prod.snd, p < image.length := by
    intro p hp
    exact List.mem_range.mp (hpos.mem_iff.mp (List.mem_append_left _ hp))
  have hval : ∀ (w : α) (p : Nat), (w, p) ∈ L1 → image[p]? = some w := by
    intro w p hm
    exact (mem_voxels_iff image w p).mp (hperm.mem_iff.mp (List.mem_append_left _ hm))
  rw [write_mask_spec]
  refine ⟨by simp, ?_, ?_⟩
  · rw [mask_count z o hzo _ _ hnd1 hlt, List.length_map]
  · intro i j a b hia hjb hi hj
    have hilt : i < image.length := by
      rcases Nat.lt_or_ge i image.length with h | h
      · exact h
      · rw [List.getElem?_eq_none h] at hia
        exact absurd hia (by simp)
    have hjlt : j < image.length := by
      rcases Nat.lt_or_ge j image.length with h | h
      · exact h
      · rw [List.getElem?_eq_none h] at hjb
        exact absurd hjb (by simp)
    rw [List.getElem?_map, List.getElem?_range hilt] at hi
    rw [List.getElem?_map, List.getElem?_range hjlt] at hj
    simp only [Option.map_some'] at hi hj
    have hi1 : i ∈ L1.map Prod.snd := by
      by_contra hc
      rw [if_neg hc] at hi
      exact hzo (Option.some.inj hi)
    have hj1 : j ∉ L1.map Prod.snd := by
      intro hc
      rw [if_pos hc] at hj
      exact hj rfl
    constructor
    · obtain ⟨⟨w, p⟩, hm, hp⟩ := List.mem_map.mp hi1
      simp only at hp
      subst hp
      have := hval w p hm
      rw [hia] at this
      rw [Option.some.inj this]
      exact hm
    · have hm : (b, j) ∈ L1 ++ d1 := hperm.mem_iff.mpr ((mem_voxels_iff image b j).mpr hjb)
      rcases List.mem_append.mp hm with h | h
      · exact absurd (List.mem_map.mpr ⟨(b, j), h, rfl⟩) hj1
      · exact h

/-- With a non-zero count EXECUTE is the block of `if (topN || bottomN)`. -/
theorem threshold_execute_of_count {α : Type} [LinearOrder α] (val : Option α) (first_min : α)
    (topN bottomN : Nat) (invert use_NaN : Bool) (image : List α)
    (h : topN ≠ 0 ∨ bottomN ≠ 0) :
    threshold_execute val first_min topN bottomN invert use_NaN image =
      threshold_top_bottom topN bottomN invert use_NaN image := by
  unfold threshold_execute
  by_cases hc : image.length < topN ∨ image.length < bottomN
  · unfold threshold_top_bottom
    rw [if_pos hc, if_pos hc]
  · rw [if_neg hc]
    dsimp only
    rw [if_pos h]

/-- With both counts zero EXECUTE thresholds at the intensity: here at 3, and
at the first minimum 5 when no intensity is given. -/
theorem threshold_execute_at_intensity :
    threshold_execute (some 3) 5 0 0 false false [(5 : Int), 1, 5, 3, 5] =
      Except.ok [mask_value.one, mask_value.zero, mask_value.one, mask_value.one,
        mask_value.one] ∧
    threshold_execute none 5 0 0 false false [(5 : Int), 1, 5, 3, 5] =
      Except.ok [mask_value.one, mask_value.zero, mask_value.one, mask_value.zero,
        mask_value.one] := by
  constructor <;> rfl

/-- C19. Top-N / bottom-N thresholding over intensities in a linear order, for
every image and every N with 1 <= N <= voxel count, without `-invert` (with or
without `-nan`). With `-top N` the run produces an output mask of the size of
the image in which exactly N voxels are set to one, and the intensity of every
voxel set to one is at least the intensity of every voxel not set to one. With
`-bottom N` exactly N voxels are set to one and the intensity of every voxel
set to one is at most the intensity of every voxel not set to one. -/
theorem threshold_selects_extreme_voxels {α : Type} [LinearOrder α] (image : List α) (N : Nat)
    (use_NaN : Bool) (h1 : 1 ≤ N) (h2 : N ≤ image.length) :
    (∃ out, threshold_top_bottom N 0 false use_NaN image = Except.ok out ∧
      out.length = image.length ∧ out.count mask_value.one = N ∧
      ∀ (i j : Nat) (a b : α), image[i]? = some a → image[j]? = some b →
        out[i]? = some mask_value.one → out[j]? ≠ some mask_value.one → b ≤ a) ∧
    (∃ out, threshold_top_bottom 0 N false use_NaN image = Except.ok out ∧
      out.length = image.length ∧ out.count mask_value.one = N ∧
      ∀ (i j : Nat) (a b : α), image[i]? = some a → image[j]? = some b →
        out[i]? = some mask_value.one → out[j]? ≠ some mask_value.one → a ≤ b) := by
  have hN : N ≠ 0 := by omega
  have hzo : (if use_NaN = true then mask_value.nan else mask_value.zero) ≠ mask_value.one := by
    cases use_NaN <;> decide
  have hvl := (voxels_positions image).2
  constructor
  · obtain ⟨L1, d1, ht, hl, hp, ho⟩ := top_loop_spec N (by omega)
      (image.zip (List.range image.length)) [] [] List.Pairwise.nil (Nat.zero_le _)
      (fun _ => rfl) (fun d hd => absurd hd (List.not_mem_nil d))
    simp only [List.nil_append] at hp
    rw [List.length_nil, Nat.zero_add, hvl, min_eq_right h2] at hl
    obtain ⟨s1, s2, s3⟩ := selection_mask_spec image _ _ hzo L1 d1 hp
    refine ⟨_, ?_, s1, s2.trans hl, fun i j a b hia hjb hi hj => ?_⟩
    · unfold threshold_top_bottom
      rw [if_neg (by omega)]
      simp only [ne_eq, hN, not_false_eq_true, if_true, ht, Bool.false_eq_true, if_false]
    · obtain ⟨m1, m2⟩ := s3 i j a b hia hjb hi hj
      exact ho _ m2 _ m1
  · obtain ⟨L1, d1, ht, hl, hp, ho⟩ := bottom_loop_spec N (by omega)
      (image.zip (List.range image.length)) [] [] List.Pairwise.nil (Nat.zero_le _)
      (fun _ => rfl) (fun d hd => absurd hd (List.not_mem_nil d))
    simp only [List.nil_append] at hp
    rw [List.length_nil, Nat.zero_add, hvl, min_eq_right h2] at hl
    obtain ⟨s1, s2, s3⟩ := selection_mask_spec image _ _ hzo L1 d1 hp
    refine ⟨_, ?_, s1, s2.trans hl, fun i j a b hia hjb hi hj => ?_⟩
    · unfold threshold_top_bottom
      rw [if_neg (by omega)]
      simp only [ne_eq, not_true_eq_false, if_false, ht, Bool.false_eq_true]
    · obtain ⟨m1, m2⟩ := s3 i j a b hia hjb hi hj
      exact ho _ m2 _ m1

theorem threshold_selects_extreme_voxels_witness :
    threshold_top_bottom 2 0 false false [(5 : Int), 1, 5, 3, 5] =
      Except.ok [mask_value.zero, mask_value.zero, mask_value.one, mask_value.zero,
        mask_value.one] ∧
    threshold_top_bottom 0 2 false false [(5 : Int), 1, 5, 3, 5] =
      Except.ok [mask_value.zero, mask_value.one, mask_value.zero, mask_value.one,
        mask_value.zero] ∧
    ((∃ out, threshold_top_bottom 2 0 false false [(5 : Int), 1, 5, 3, 5] = Except.ok out ∧
      out.length = 5 ∧ out.count mask_value.one = 2 ∧
      ∀ (i j : Nat) (a b : Int), [(5 : Int), 1, 5, 3, 5][i]? = some a →
        [(5 : Int), 1, 5, 3, 5][j]? = some b →
        out[i]? = some mask_value.one → out[j]? ≠ some mask_value.one → b ≤ a) ∧
    (∃ out, threshold_top_bottom 0 2 false false [(5 : Int), 1, 5, 3, 5] = Except.ok out ∧
      out.length = 5 ∧ out.count mask_value.one = 2 ∧
      ∀ (i j : Nat) (a b : Int), [(5 : Int), 1, 5, 3, 5][i]? = some a →
        [(5 : Int), 1, 5, 3, 5][j]? = some b →
        out[i]? = some mask_value.one → out[j]? ≠ some mask_value.one → a ≤ b)) :=
  ⟨rfl, rfl,
   threshold_selects_extreme_voxels [(5 : Int), 1, 5, 3, 5] 2 false (by decide) (by decide)⟩

/-! ### Resumption after a backtracking truncation -/

/-- Counterexample to C21 as stated: a rejection at position 3 in
anatomically-constrained mode with backtracking. The track [0, 1, 2] is
truncated to [0, 1], which holds exactly one point beyond the seed, and growth
is resumed with the rejection flag cleared. -/
theorem resumed_with_one_point_beyond_seed :
    (gen_track_unidir_backtrack_body
        (line_scenario true true true 2 100 (reject_at 3 term_t.BAD_SIGNAL))
        { pts := [0, 1, 2], seed_index := 0 } 0
        { scenario_seeded with method := { pos := 2, dir := 1, sgm_depth := 0, ext := (0, 1) } }
      ).toOption.map
      (fun x => (x.1, x.2.1.pts, points_beyond_seed x.2.1, x.2.2.1, x.2.2.2.track_excluded,
        x.2.2.2.method.pos, x.2.2.2.method.dir))
      = some (term_t.CONTINUE, [0, 1], 1, 1, false, 1, 1) := by
  rfl

/-- C21 (amended). In anatomically-constrained mode, in a pass of the
backtracking loop entered with the rejection flag unset in which `iterate`
terminates and `apply_priors` rejects for a reason other than ENTER_EXCLUDE:
the track is truncated with `revert_step + 1`; if the truncated track holds at
least one point beyond the seed, the pass ends with CONTINUE and the rejection
flag cleared (growth is resumed); if it holds no point beyond the seed, the
pass ends with the rejecting termination and the rejection flag set, and the
loop is left. -/
theorem truncation_resumes_iff_point_beyond_seed (S : Shared P W) (tck : GeneratedTrack P)
    (r : Nat) (e : Exec P W) (a1 : term_t) (a2 : Exec P W) (hact : S.is_act = true)
    (hex : e.track_excluded = false) (hne : (iterate S e).1 ≠ term_t.CONTINUE)
    (hpri : apply_priors S (iterate S e).1 (iterate S e).2 = Except.ok (a1, a2))
    (hx : a2.track_excluded = true) (hnx : a1 ≠ term_t.ENTER_EXCLUDE) :
    (1 ≤ points_beyond_seed (S.truncate_track (track_after_iterate S tck e) (r + 1) a2.method).1 →
      ∃ l, gen_track_unidir_backtrack_body S tck r e = Except.ok (term_t.CONTINUE,
          (S.truncate_track (track_after_iterate S tck e) (r + 1) a2.method).1, r + 1, l) ∧
        l.track_excluded = false) ∧
    (points_beyond_seed (S.truncate_track (track_after_iterate S tck e) (r + 1) a2.method).1 = 0 →
      ∃ l, gen_track_unidir_backtrack_body S tck r e = Except.ok (a1,
          (S.truncate_track (track_after_iterate S tck e) (r + 1) a2.method).1, r + 1, l) ∧
        l.track_excluded = true ∧ a1 ≠ term_t.CONTINUE) := by
  have hie : (iterate S e).2.track_excluded = false := by rw [(iterate_frame S e).1, hex]
  obtain ⟨ha1, -, -⟩ := apply_priors_act_fresh S _ _ _ _ hact hie hpri
  have htk : (if S.term_add_to_tck (iterate S e).1 = true
    then tck.push_back (iterate S e).2.method.pos else tck) = track_after_iterate S tck e := rfl
  unfold gen_track_unidir_backtrack_body
  simp only [htk, ne_eq, hne, not_false_eq_true, if_true, hpri, hx, Bool.true_and,
    decide_eq_true_eq, hnx]
  generalize S.truncate_track (track_after_iterate S tck e) (r + 1) a2.method = tr
  unfold points_beyond_seed
  simp only [GeneratedTrack.size, GeneratedTrack.get_seed_index]
  constructor
  · intro hb
    have hsz : tr.1.pts.length > tr.1.seed_index + 1 := by omega
    rw [if_pos hsz]
    have hlen : 2 ≤ tr.1.pts.reverse.length := by
      rw [List.length_reverse]
      omega
    cases hrev : tr.1.pts.reverse with
    | nil =>
      rw [hrev] at hlen
      simp at hlen
    | cons last rest =>
      cases rest with
      | nil =>
        rw [hrev] at hlen
        simp at hlen
      | cons prev rest1 => exact ⟨_, rfl, rfl⟩
  · intro hb
    have hsz : ¬ tr.1.pts.length > tr.1.seed_index + 1 := by omega
    rw [if_neg hsz]
    exact ⟨_, rfl, rfl, ha1⟩

theorem truncation_resumes_iff_point_beyond_seed_witness :
    (∃ l, gen_track_unidir_backtrack_body
        (line_scenario true true true 2 100 (reject_at 3 term_t.BAD_SIGNAL))
        { pts := [0, 1, 2], seed_index := 0 } 0
        { scenario_seeded with method := { pos := 2, dir := 1, sgm_depth := 0, ext := (0, 1) } }
        = Except.ok (term_t.CONTINUE, { pts := [0, 1], seed_index := 0 }, 1, l) ∧
      l.track_excluded = false) ∧
    (∃ l, gen_track_unidir_backtrack_body
        (line_scenario true true true 2 100 (reject_at 1 term_t.BAD_SIGNAL))
        { pts := [0], seed_index := 0 } 0 scenario_seeded
        = Except.ok (term_t.BAD_SIGNAL, { pts := [], seed_index := 0 }, 1, l) ∧
      l.track_excluded = true ∧ term_t.BAD_SIGNAL ≠ term_t.CONTINUE) :=
  ⟨(truncation_resumes_iff_point_beyond_seed
      (line_scenario true true true 2 100 (reject_at 3 term_t.BAD_SIGNAL))
      { pts := [0, 1, 2], seed_index := 0 } 0
      { scenario_seeded with method := { pos := 2, dir := 1, sgm_depth := 0, ext := (0, 1) } }
      term_t.BAD_SIGNAL
      { scenario_seeded with method := { pos := 3, dir := 1, sgm_depth := 0, ext := (0, 1) }
                             track_excluded := true }
      rfl rfl (by decide) rfl rfl (by decide)).1 (by decide),
   (truncation_resumes_iff_point_beyond_seed
      (line_scenario true true true 2 100 (reject_at 1 term_t.BAD_SIGNAL))
      { pts := [0], seed_index := 0 } 0 scenario_seeded term_t.BAD_SIGNAL
      { scenario_seeded with method := { pos := 1, dir := 1, sgm_depth := 0, ext := (0, 1) }
                             track_excluded := true }
      rfl rfl (by decide) rfl rfl (by decide)).2 (by decide)⟩

/-! ### The truncation counter of the backtracking loop -/

theorem gen_track_unidir_backtrack_calls_erase (S : Shared P W) :
    ∀ (fuel : Nat) (tck : GeneratedTrack P) (r : Nat) (calls : List Nat) (e : Exec P W),
      (gen_track_unidir_backtrack_calls S fuel tck r calls e).map Prod.fst
        = gen_track_unidir_backtrack S fuel tck r e := by
  intro fuel
  induction fuel with
  | zero =>
    intro tck r calls e
    rfl
  | succ f ih =>
    intro tck r calls e
    unfold gen_track_unidir_backtrack_calls gen_track_unidir_backtrack
    cases hb : gen_track_unidir_backtrack_body S tck r e with
    | error x => rfl
    | ok b =>
      simp only
      by_cases hc : b.1 = term_t.CONTINUE
      · rw [if_pos hc, if_pos hc]
        exact ih _ _ _ _
      · rw [if_neg hc, if_neg hc]
        rfl

/-- A pass of the backtracking loop either leaves the counter and makes no
call of `truncate_track`, or raises the counter by one and calls
`truncate_track` once, with the raised counter, on the track as it stands
after `iterate`; if the pass then ends with CONTINUE, the rejection flag is
cleared, the track holds at least two points, the position is its last point
and the direction is computed from its last two points. -/
theorem gen_track_unidir_backtrack_body_calls (S : Shared P W) (tck : GeneratedTrack P)
    (r : Nat) (e : Exec P W) (t : term_t) (tk : GeneratedTrack P) (r1 : Nat) (l : Exec P W)
    (h : gen_track_unidir_backtrack_body S tck r e = Except.ok (t, tk, r1, l)) :
    (r1 = r ∧ truncate_calls S r e = []) ∨
    (r1 = r + 1 ∧ truncate_calls S r e = [r + 1] ∧
      ∃ a1 a2, apply_priors S (iterate S e).1 (iterate S e).2 = Except.ok (a1, a2) ∧
        a2.track_excluded = true ∧ a1 ≠ term_t.ENTER_EXCLUDE ∧
        tk = (S.truncate_track (track_after_iterate S tck e) (r + 1) a2.method).1 ∧
        (t = term_t.CONTINUE → l.track_excluded = false ∧ 2 ≤ tk.size ∧
          ∃ last prev rest, tk.pts.reverse = last :: prev :: rest ∧
            l.method.pos = last ∧ l.method.dir = S.dir_from last prev)) := by
  have htk : (if S.term_add_to_tck (iterate S e).1 = true
    then tck.push_back (iterate S e).2.method.pos else tck) = track_after_iterate S tck e := rfl
  unfold gen_track_unidir_backtrack_body at h
  unfold truncate_calls
  simp only [htk] at h ⊢
  by_cases hc : (iterate S e).1 = term_t.CONTINUE
  · simp only [hc, ne_eq, not_true_eq_false, if_false] at h ⊢
    split_ifs at h <;>
    · simp only [Except.ok.injEq, Prod.mk.injEq] at h
      exact Or.inl ⟨h.2.2.1.symm, trivial⟩
  · simp only [ne_eq, hc, not_false_eq_true, if_true] at h ⊢
    cases ha : apply_priors S (iterate S e).1 (iterate S e).2 with
    | error y => simp [ha] at h
    | ok a =>
      obtain ⟨a1, a2⟩ := a
      simp only [ha] at h ⊢
      by_cases hcond : (a2.track_excluded && decide (a1 ≠ term_t.ENTER_EXCLUDE)) = true
      · rw [if_pos hcond] at h ⊢
        have hcond1 := hcond
        simp only [Bool.and_eq_true, decide_eq_true_eq] at hcond1
        refine Or.inr ?_
        have ha1 : a1 ≠ term_t.CONTINUE := by
          rcases (apply_priors_result S _ _ _ _ ha).1 with h1 | ⟨h1, -⟩
          · rw [h1]
            exact hc
          · rw [h1]
            decide
        generalize htr : S.truncate_track (track_after_iterate S tck e) (r + 1) a2.method = tr at h
        split_ifs at h with hsize
        · split at h
          · rename_i last prev rest hrev
            simp only [Except.ok.injEq, Prod.mk.injEq] at h
            obtain ⟨rfl, rfl, rfl, rfl⟩ := h
            refine ⟨rfl, rfl, a1, a2, rfl, hcond1.1, hcond1.2, by rw [htr], fun _ => ⟨rfl, ?_,
              last, prev, rest, hrev, rfl, rfl⟩⟩
            have hl := congrArg List.length hrev
            simp only [List.length_reverse, List.length_cons] at hl
            show 2 ≤ tr.1.pts.length
            omega
          · simp at h
        · simp only [Except.ok.injEq, Prod.mk.injEq] at h
          obtain ⟨rfl, rfl, rfl, rfl⟩ := h
          exact ⟨rfl, rfl, _, a2, rfl, hcond1.1, hcond1.2, by rw [htr],
            fun hcont => absurd hcont ha1⟩
      · rw [if_neg hcond] at h ⊢
        simp only [Except.ok.injEq, Prod.mk.injEq] at h
        exact Or.inl ⟨h.2.2.1.symm, rfl⟩

theorem gen_track_unidir_backtrack_calls_spec (S : Shared P W) :
    ∀ (fuel : Nat) (tck : GeneratedTrack P) (r : Nat) (calls : List Nat) (e : Exec P W)
      (res : term_t × GeneratedTrack P × Nat × Exec P W) (out : List Nat),
      gen_track_unidir_backtrack_calls S fuel tck r calls e = Except.ok (res, out) →
      r ≤ res.2.2.1 ∧ out = calls ++ List.range' (r + 1) (res.2.2.1 - r) := by
  intro fuel
  induction fuel with
  | zero =>
    intro tck r calls e res out h
    simp [gen_track_unidir_backtrack_calls] at h
  | succ f ih =>
    intro tck r calls e res out h
    unfold gen_track_unidir_backtrack_calls at h
    cases hb : gen_track_unidir_backtrack_body S tck r e with
    | error y => simp [hb] at h
    | ok b =>
      obtain ⟨bt, btk, br, bl⟩ := b
      simp only [hb] at h
      have hstep : r ≤ br ∧
          calls ++ truncate_calls S r e = calls ++ List.range' (r + 1) (br - r) := by
        rcases gen_track_unidir_backtrack_body_calls S tck r e bt btk br bl hb with
          ⟨h1, h2⟩ | ⟨h1, h2, -⟩
        · subst h1
          rw [h2, Nat.sub_self]
          exact ⟨Nat.le_refl _, rfl⟩
        · subst h1
          rw [h2, Nat.add_sub_cancel_left]
          exact ⟨Nat.le_succ _, rfl⟩
      by_cases hc : bt = term_t.CONTINUE
      · simp only [hc, if_true] at h
        obtain ⟨h3, h4⟩ := ih _ _ _ _ _ _ h
        refine ⟨le_trans hstep.1 h3, ?_⟩
        rw [h4, hstep.2, List.append_assoc]
        congr 1
        have hsplit : res.2.2.1 - r = (res.2.2.1 - br) + (br - r) := by omega
        have hs : br + 1 = r + 1 + (br - r) := by omega
        rw [hsplit, hs, List.range'_append_1]
      · simp only [hc, if_false, Except.ok.injEq, Prod.mk.injEq] at h
        obtain ⟨rfl, rfl⟩ := h
        exact hstep

/-- C22. The backtracking loop of one growth direction, which `gen_track_unidir`
enters with the counter `revert_step` at zero: the values passed to
`truncate_track`, in the order of the calls, are 1, 2, ..., k, where k is the
final counter, so the k-th rejection for a reason other than ENTER_EXCLUDE
truncates with `revert_step = k`. In every pass `truncate_track` is called
exactly when `apply_priors` leaves the track rejected for a reason other than
ENTER_EXCLUDE, and when the pass then resumes growth (ends with CONTINUE) the
rejection flag is cleared, the track holds at least two points, the position
is the last retained point and the direction is computed by `dir_from` (the
normalised difference) from the last two retained points. -/
theorem revert_step_counts_rejections (S : Shared P W) (fuel : Nat) (tck0 : GeneratedTrack P)
    (e0 : Exec P W) (res : term_t × GeneratedTrack P × Nat × Exec P W) (calls : List Nat)
    (hrun : gen_track_unidir_backtrack_calls S fuel tck0 0 [] e0 = Except.ok (res, calls)) :
    (gen_track_unidir_backtrack S fuel tck0 0 e0 = Except.ok res ∧
      calls = List.range' 1 res.2.2.1) ∧
    ∀ (tck : GeneratedTrack P) (r : Nat) (e : Exec P W) (t : term_t) (tk : GeneratedTrack P)
      (r1 : Nat) (l : Exec P W),
      gen_track_unidir_backtrack_body S tck r e = Except.ok (t, tk, r1, l) →
      (r1 = r ∧ truncate_calls S r e = []) ∨
      (r1 = r + 1 ∧ truncate_calls S r e = [r + 1] ∧
        ∃ a1 a2, apply_priors S (iterate S e).1 (iterate S e).2 = Except.ok (a1, a2) ∧
          a2.track_excluded = true ∧ a1 ≠ term_t.ENTER_EXCLUDE ∧
          tk = (S.truncate_track (track_after_iterate S tck e) (r + 1) a2.method).1 ∧
          (t = term_t.CONTINUE → l.track_excluded = false ∧ 2 ≤ tk.size ∧
            ∃ last prev rest, tk.pts.reverse = last :: prev :: rest ∧
              l.method.pos = last ∧ l.method.dir = S.dir_from last prev)) := by
  refine ⟨⟨?_, ?_⟩, fun tck r e t tk r1 l h =>
    gen_track_unidir_backtrack_body_calls S tck r e t tk r1 l h⟩
  · rw [← gen_track_unidir_backtrack_calls_erase S fuel tck0 0 [] e0, hrun]
    rfl
  · have h := (gen_track_unidir_backtrack_calls_spec S fuel tck0 0 [] e0 res calls hrun).2
    rw [h]
    simp

theorem revert_step_counts_rejections_witness :
    gen_track_unidir_backtrack (line_scenario true true true 2 100 (reject_at 6 term_t.BAD_SIGNAL))
        30 { pts := [0], seed_index := 0 } 0 scenario_seeded =
      Except.ok (term_t.BAD_SIGNAL, { pts := [0], seed_index := 0 }, 5,
        { scenario_seeded with method := { pos := 6, dir := 1, sgm_depth := 0, ext := (0, 1) }
                               track_excluded := true }) ∧
    [1, 2, 3, 4, 5] = List.range' 1 5 :=
  (revert_step_counts_rejections (line_scenario true true true 2 100 (reject_at 6 term_t.BAD_SIGNAL))
    30 { pts := [0], seed_index := 0 } scenario_seeded
    (term_t.BAD_SIGNAL, { pts := [0], seed_index := 0 }, 5,
      { scenario_seeded with method := { pos := 6, dir := 1, sgm_depth := 0, ext := (0, 1) }
                             track_excluded := true })
    [1, 2, 3, 4, 5] rfl).1

/-! ### The inclusion bitmap -/

theorem ROISet_contains_record_length (rois : List (P → Bool)) (p : P) :
    ∀ (bits : List Bool), (ROISet_contains_record rois p bits).length = bits.length := by
  induction rois with
  | nil =>
    intro bits
    cases bits <;> rfl
  | cons r rs ih =>
    intro bits
    cases bits with
    | nil => rfl
    | cons b bs =>
      simp only [ROISet_contains_record, List.length_cons, ih bs]

theorem include_all_points_append (S : Shared P W) :
    ∀ (ps qs : List P) (bits : List Bool),
      include_all_points S (ps ++ qs) bits = include_all_points S qs (include_all_points S ps bits) := by
  intro ps
  induction ps with
  | nil =>
    intro qs bits
    rfl
  | cons p ps ih =>
    intro qs bits
    exact ih qs _

theorem include_all_points_length (S : Shared P W) :
    ∀ (ps : List P) (bits : List Bool), (include_all_points S ps bits).length = bits.length := by
  intro ps
  induction ps with
  | nil =>
    intro bits
    rfl
  | cons p ps ih =>
    intro bits
    simp only [include_all_points, ih, ROISet_contains_record_length]

/-- What `iterate` does to the inclusion bitmap: it records at most one
position, and none when backtracking is enabled. -/
theorem iterate_included (S : Shared P W) (e : Exec P W) :
    ∃ ps, (iterate S e).2.track_included = include_all_points S ps e.track_included ∧
      ((S.is_act && S.act_backtrack) = true → ps = []) := by
  unfold iterate
  generalize (if S.rk4 = true then next_rk4 S e.method else S.next e.method) = r
  generalize hs : (if S.is_act = true then S.check_structural
    { e with method := r.2 }.method else (term_t.CONTINUE, { e with method := r.2 }.method)) = s
  simp only
  by_cases hbt : (S.is_act && S.act_backtrack) = true
  · simp only [hbt, Bool.not_true, Bool.false_eq_true, if_false]
    split_ifs <;> exact ⟨[], rfl, fun _ => rfl⟩
  · have hbf : (S.is_act && S.act_backtrack) = false := by simpa using hbt
    simp only [hbf, Bool.not_false, if_true]
    split_ifs <;>
      first
      | exact ⟨[], rfl, fun h => absurd h (by simp)⟩
      | exact ⟨[_], rfl, fun h => absurd h (by simp)⟩

theorem records_points_refl (S : Shared P W) (a : List Bool) : records_points S a a :=
  ⟨[], rfl, fun _ => rfl⟩

theorem records_points_trans (S : Shared P W) (a b c : List Bool)
    (h1 : records_points S a b) (h2 : records_points S b c) : records_points S a c := by
  obtain ⟨ps, rfl, hp⟩ := h1
  obtain ⟨qs, rfl, hq⟩ := h2
  refine ⟨ps ++ qs, (include_all_points_append S ps qs a).symm, fun h => ?_⟩
  rw [hp h, hq h]
  rfl

theorem records_points_length (S : Shared P W) (a b : List Bool)
    (h : records_points S a b) : b.length = a.length := by
  obtain ⟨ps, rfl, -⟩ := h
  exact include_all_points_length S ps a

theorem records_points_backtrack (S : Shared P W) (a b : List Bool)
    (h : records_points S a b) (hbt : (S.is_act && S.act_backtrack) = true) : b = a := by
  obtain ⟨ps, rfl, hp⟩ := h
  rw [hp hbt]
  rfl

theorem gen_track_unidir_loop_included (S : Shared P W) :
    ∀ (fuel : Nat) (tck : GeneratedTrack P) (e : Exec P W) (t : term_t)
      (tck1 : GeneratedTrack P) (e1 : Exec P W),
      gen_track_unidir_loop S fuel tck e = Except.ok (t, tck1, e1) →
      records_points S e.track_included e1.track_included := by
  intro fuel
  induction fuel with
  | zero =>
    intro tck e t tck1 e1 h
    simp [gen_track_unidir_loop] at h
  | succ f ih =>
    intro tck e t tck1 e1 h
    have hi : records_points S e.track_included (iterate S e).2.track_included :=
      iterate_included S e
    unfold gen_track_unidir_loop at h
    simp only at h
    split_ifs at h with hc
    · exact records_points_trans S _ _ _ hi (ih _ _ _ _ _ h)
    · simp only [Except.ok.injEq] at h
      have h2 : (gen_track_unidir_body S tck e).2.2 = e1 := by rw [h]
      subst h2
      exact hi

theorem gen_track_unidir_backtrack_body_included (S : Shared P W) (tck : GeneratedTrack P)
    (r : Nat) (e : Exec P W) (t : term_t) (tck1 : GeneratedTrack P) (r1 : Nat) (e1 : Exec P W)
    (h : gen_track_unidir_backtrack_body S tck r e = Except.ok (t, tck1, r1, e1)) :
    records_points S e.track_included e1.track_included := by
  have hi : records_points S e.track_included (iterate S e).2.track_included :=
    iterate_included S e
  unfold gen_track_unidir_backtrack_body at h
  simp only at h
  generalize (if S.term_add_to_tck (iterate S e).1 = true
    then tck.push_back (iterate S e).2.method.pos else tck) = tk at h
  by_cases hc : (iterate S e).1 = term_t.CONTINUE
  · simp only [hc, ne_eq, not_true_eq_false, if_false] at h
    split_ifs at h <;>
      (simp only [Except.ok.injEq, Prod.mk.injEq] at h
       obtain ⟨-, -, -, rfl⟩ := h
       exact hi)
  · simp only [ne_eq, hc, not_false_eq_true, if_true] at h
    cases ha : apply_priors S (iterate S e).1 (iterate S e).2 with
    | error x => simp [ha] at h
    | ok a =>
      obtain ⟨a1, a2⟩ := a
      have hf := (apply_priors_frame S _ _ _ _ ha).2.1
      simp only [ha] at h
      generalize S.truncate_track tk (r + 1) a2.method = tr at h
      split_ifs at h
      · split at h
        · simp only [Except.ok.injEq, Prod.mk.injEq] at h
          obtain ⟨-, -, -, rfl⟩ := h
          show records_points S e.track_included a2.track_included
          rw [hf]
          exact hi
        · simp at h
      · simp only [Except.ok.injEq, Prod.mk.injEq] at h
        obtain ⟨-, -, -, rfl⟩ := h
        show records_points S e.track_included a2.track_included
        rw [hf]
        exact hi
      · simp only [Except.ok.injEq, Prod.mk.injEq] at h
        obtain ⟨-, -, -, rfl⟩ := h
        rw [hf]
        exact hi

theorem gen_track_unidir_backtrack_included (S : Shared P W) :
    ∀ (fuel : Nat) (tck : GeneratedTrack P) (r : Nat) (e : Exec P W) (t : term_t)
      (tck1 : GeneratedTrack P) (r1 : Nat) (e1 : Exec P W),
      gen_track_unidir_backtrack S fuel tck r e = Except.ok (t, tck1, r1, e1) →
      records_points S e.track_included e1.track_included := by
  intro fuel
  induction fuel with
  | zero =>
    intro tck r e t tck1 r1 e1 h
    simp [gen_track_unidir_backtrack] at h
  | succ f ih =>
    intro tck r e t tck1 r1 e1 h
    unfold gen_track_unidir_backtrack at h
    cases hb : gen_track_unidir_backtrack_body S tck r e with
    | error x => simp [hb] at h
    | ok b =>
      obtain ⟨b1, b2, b3, b4⟩ := b
      have hf := gen_track_unidir_backtrack_body_included S _ _ _ _ _ _ _ hb
      simp only [hb] at h
      split_ifs at h with hc
      · exact records_points_trans S _ _ _ hf (ih _ _ _ _ _ _ _ h)
      · simp only [Except.ok.injEq, Prod.mk.injEq] at h
        obtain ⟨-, -, -, rfl⟩ := h
        exact hf

/-- A growth direction changes the inclusion bitmap only by recording
positions, and not at all when backtracking is enabled. -/
theorem gen_track_unidir_included (S : Shared P W) (fuel : Nat)
    (tck tck1 : GeneratedTrack P) (e e1 : Exec P W)
    (h : gen_track_unidir S fuel tck e = Except.ok (tck1, e1)) :
    records_points S e.track_included e1.track_included := by
  unfold gen_track_unidir at h
  simp only at h
  have he0 : (if S.is_act = true then
      ({ e with method := { e.method with sgm_depth := 0 } } : Exec P W) else e).track_included
        = e.track_included := by
    split_ifs <;> rfl
  generalize (if S.is_act = true then
    ({ e with method := { e.method with sgm_depth := 0 } } : Exec P W) else e) = e0 at h he0
  rw [← he0]
  split_ifs at h
  · cases hl : gen_track_unidir_backtrack S fuel tck 0 e0 with
    | error y => simp [hl] at h
    | ok b =>
      obtain ⟨t, tk, r1, l⟩ := b
      simp only [hl] at h
      obtain ⟨_, _, _, _, _, hinc, _⟩ := gen_track_unidir_finish_spec S _ _ _ _ _ h
      rw [hinc]
      exact gen_track_unidir_backtrack_included S _ _ _ _ _ _ _ _ hl
  · cases hl : gen_track_unidir_loop S fuel tck e0 with
    | error y => simp [hl] at h
    | ok b =>
      obtain ⟨t, tk, l⟩ := b
      simp only [hl] at h
      obtain ⟨_, _, _, _, _, hinc, _⟩ := gen_track_unidir_finish_spec S _ _ _ _ _ h
      rw [hinc]
      exact gen_track_unidir_loop_included S _ _ _ _ _ _ hl

theorem gen_track_from_seed_included_length (S : Shared P W) (fuel : Nat)
    (tck0 tck : GeneratedTrack P) (e0 g : Exec P W) (b : Bool)
    (h : gen_track_from_seed S fuel tck0 e0 = Except.ok (b, tck, g)) :
    g.track_included.length = e0.track_included.length := by
  have hfs : (forward_start S e0).2.track_included.length = e0.track_included.length :=
    ROISet_contains_record_length _ _ _
  cases hf : gen_track_unidir S fuel (tck0.push_back (forward_start S e0).2.method.pos)
      (forward_start S e0).2 with
  | error y =>
    unfold gen_track_from_seed at h
    simp [hf] at h
  | ok f =>
    obtain ⟨tckf, ef⟩ := f
    have h1 := records_points_length S _ _ (gen_track_unidir_included S _ _ _ _ _ hf)
    rw [gen_track_from_seed_unfold S fuel tck0 e0 tckf ef hf] at h
    split_ifs at h
    · split at h
      · simp at h
      · rename_i p hp
        cases hb : gen_track_unidir S fuel tckf.reverse
            (backward_start S (forward_start S e0).2.method.dir ef p) with
        | error y => simp [hb] at h
        | ok bk =>
          simp only [hb, Except.ok.injEq, Prod.mk.injEq] at h
          obtain ⟨-, -, rfl⟩ := h
          have h2 := records_points_length S _ _ (gen_track_unidir_included S _ _ _ _ _ hb)
          rw [h2]
          exact h1.trans hfs
    · simp only [Except.ok.injEq, Prod.mk.injEq] at h
      obtain ⟨-, -, rfl⟩ := h
      exact h1.trans hfs

theorem gen_track_included_length (S : Shared P W) (fuel : Nat) (tck tk : GeneratedTrack P)
    (e e1 : Exec P W) (b : Bool) (h : gen_track S fuel tck e = Except.ok (b, tk, e1)) :
    e1.track_included.length = e.track_included.length := by
  unfold gen_track at h
  simp only at h
  split_ifs at h
  · simp only [Except.ok.injEq, Prod.mk.injEq] at h
    obtain ⟨-, -, rfl⟩ := h
    simp
  · simp only [Except.ok.injEq, Prod.mk.injEq] at h
    obtain ⟨-, -, rfl⟩ := h
    simp
  · simp only [Except.ok.injEq, Prod.mk.injEq] at h
    obtain ⟨-, -, rfl⟩ := h
    simp
  · rw [gen_track_from_seed_included_length S _ _ _ _ _ _ h]
    simp
  · simp only [Except.ok.injEq, Prod.mk.injEq] at h
    obtain ⟨-, -, rfl⟩ := h
    simp
  · rw [gen_track_from_seed_included_length S _ _ _ _ _ _ h]
    simp

/-- Counterexample to C23 as stated: a bidirectional path whose forward
growth enters the inclusion region (positions from 2 onwards) and whose seed
and backward points (0, -1, -2, -3) lie outside it. After `gen_track` the
bitmap entry is still set and the path is accepted, whereas recording the seed and the backward points in an
all-false bitmap leaves the entry unset. The bitmap is thus not reset before
the backward growth. -/
theorem bitmap_kept_for_backward_growth :
    (gen_track inclusion_scenario 10 { pts := [], seed_index := 0 }
        { scenario_start with track_included := [false] }).toOption.map
      (fun r => (r.1, r.2.1.pts, r.2.2.track_included,
        (track_rejected inclusion_scenario r.2.1.pts r.2.2).1))
      = some (true, [3, 2, 1, 0, -1, -2, -3], [true], false) ∧
    include_all_points inclusion_scenario [0, -1, -2, -3] [false] = [false] := by
  constructor <;> rfl

/-- C23 (amended). The inclusion bitmap is constructed with one all-false
entry per inclusion region, and `gen_track` keeps its length. It is reset to
all-false once per path, at the start of `gen_track`: the result of `gen_track`
does not depend on the previous content of the bitmap. Forward growth starts
from the bitmap in which the seed position has been recorded. The bitmap is
not reset before the backward growth: the second growth starts from the bitmap
as the forward growth left it. -/
theorem inclusion_bitmap_reset_once_per_path (S : Shared P W) (fuel : Nat)
    (tck : GeneratedTrack P) (e : Exec P W) :
    (∀ m rej term, (Exec.mk_from S m rej term).track_included =
      List.replicate S.properties_include.length false) ∧
    gen_track S fuel tck e =
      gen_track S fuel tck
        { e with track_included := List.replicate e.track_included.length false } ∧
    (∀ b tk e1, gen_track S fuel tck e = Except.ok (b, tk, e1) →
      e1.track_included.length = e.track_included.length) ∧
    (∀ e0 : Exec P W, (forward_start S e0).2.track_included =
      ROISet_contains_record S.properties_include (forward_start S e0).2.method.pos
        e0.track_included) ∧
    (∀ (e0 : Exec P W) (tckf : GeneratedTrack P) (ef : Exec P W) (p : P),
      gen_track_unidir S fuel (tck.clear.push_back (forward_start S e0).2.method.pos)
        (forward_start S e0).2 = Except.ok (tckf, ef) →
      ef.track_excluded = false → (forward_start S e0).1 = false → tckf.reverse.back = some p →
      gen_track_from_seed S fuel tck.clear e0 =
        (match gen_track_unidir S fuel tckf.reverse
            (backward_start S (forward_start S e0).2.method.dir ef p) with
          | Except.error x => Except.error x
          | Except.ok b => Except.ok (true, b.1, b.2)) ∧
      (backward_start S (forward_start S e0).2.method.dir ef p).track_included
        = ef.track_included) := by
  refine ⟨fun _ _ _ => rfl, ?_, fun b tk e1 h => gen_track_included_length S _ _ _ _ _ _ h,
    fun _ => rfl, fun e0 tckf ef p hfwd hacc huni hp => ⟨?_, rfl⟩⟩
  · unfold gen_track
    simp only [List.length_replicate]
  · rw [gen_track_from_seed_unfold S fuel tck.clear e0 tckf ef hfwd,
      if_pos (by simp [hacc, huni]), hp]

theorem inclusion_bitmap_reset_once_per_path_witness :
    gen_track_unidir inclusion_scenario 10 { pts := [0], seed_index := 0 }
        { scenario_seeded with track_included := [false] } =
      Except.ok ({ pts := [0, 1, 2, 3], seed_index := 0 },
        { scenario_outcome 3 1 3 false none term_t.EXIT_IMAGE with track_included := [true] }) ∧
    (backward_start inclusion_scenario 1
        { scenario_outcome 3 1 3 false none term_t.EXIT_IMAGE with track_included := [true] }
        0).track_included = [true] :=
  ⟨rfl,
   ((inclusion_bitmap_reset_once_per_path inclusion_scenario 10 { pts := [], seed_index := 0 }
      scenario_start).2.2.2.2 { scenario_seeded with track_included := [false] }
      { pts := [0, 1, 2, 3], seed_index := 0 }
      { scenario_outcome 3 1 3 false none term_t.EXIT_IMAGE with track_included := [true] }
      0 rfl rfl rfl rfl).2⟩

/-! ### The precedence of the checks of `iterate` -/

/-- C24. The checks of `iterate` in their order, with m the method after the
step source and n the method after the structural check. A step-source
termination is returned first (as TERM_IN_SGM in anatomically-constrained mode
inside sub-cortical grey matter); then a structural termination; then
EXIT_MASK when a mask is set and the new position lies outside it, also when
the position lies in an exclusion region; then ENTER_EXCLUDE; only then is the
position recorded in the inclusion bitmap (unless backtracking is enabled) and
TRAVERSE_ALL_INCLUDE or CONTINUE returned. In the first four cases the bitmap
is left as it was. Hence a resulting position inside an exclusion region never
updates the bitmap, and does not yield TRAVERSE_ALL_INCLUDE unless the step
source or the structural check itself returned that value. -/
theorem iterate_precedence (S : Shared P W) (e : Exec P W) (m n : Method P W)
    (hm : m = (method_term S e.method).2) (hn : n = (structural_term S m).2) :
    ((method_term S e.method).1 ≠ term_t.CONTINUE →
      (iterate S e).1 = (if S.is_act && decide (m.sgm_depth ≠ 0) then term_t.TERM_IN_SGM
        else (method_term S e.method).1) ∧
      (iterate S e).2.track_included = e.track_included) ∧
    ((method_term S e.method).1 = term_t.CONTINUE →
      ((structural_term S m).1 ≠ term_t.CONTINUE →
        (iterate S e).1 = (structural_term S m).1 ∧
        (iterate S e).2.track_included = e.track_included) ∧
      ((structural_term S m).1 = term_t.CONTINUE →
        (iterate S e).2.method = n ∧
        (S.properties_mask.length ≠ 0 → ROISet_contains S.properties_mask n.pos = false →
          (iterate S e).1 = term_t.EXIT_MASK ∧
          (iterate S e).2.track_included = e.track_included) ∧
        ((S.properties_mask.length = 0 ∨ ROISet_contains S.properties_mask n.pos = true) →
          (ROISet_contains S.properties_exclude n.pos = true →
            (iterate S e).1 = term_t.ENTER_EXCLUDE ∧
            (iterate S e).2.track_included = e.track_included) ∧
          (ROISet_contains S.properties_exclude n.pos = false →
            (iterate S e).2.track_included =
              (if S.is_act && S.act_backtrack then e.track_included
               else ROISet_contains_record S.properties_include n.pos e.track_included) ∧
            (iterate S e).1 =
              (if S.stop_on_all_include && traversed_all_include_regions (iterate S e).2
               then term_t.TRAVERSE_ALL_INCLUDE else term_t.CONTINUE))))) ∧
    (ROISet_contains S.properties_exclude (iterate S e).2.method.pos = true →
      (iterate S e).2.track_included = e.track_included ∧
      ((method_term S e.method).1 ≠ term_t.TRAVERSE_ALL_INCLUDE →
        (structural_term S m).1 ≠ term_t.TRAVERSE_ALL_INCLUDE →
        (iterate S e).1 ≠ term_t.TRAVERSE_ALL_INCLUDE)) := by
  subst hn hm
  unfold iterate method_term structural_term
  generalize (if S.rk4 = true then next_rk4 S e.method else S.next e.method) = r
  simp only
  generalize (if S.is_act = true then S.check_structural r.2 else (term_t.CONTINUE, r.2)) = s
  by_cases h1 : r.1 = term_t.CONTINUE
  · by_cases h2 : s.1 = term_t.CONTINUE
    · by_cases h3 : S.properties_mask.length ≠ 0 ∧ ROISet_contains S.properties_mask s.2.pos = false
      · simp [h1, h2, h3.1, h3.2]
      · by_cases h4 : ROISet_contains S.properties_exclude s.2.pos = true
        · have h3a : S.properties_mask.length = 0 ∨
              ROISet_contains S.properties_mask s.2.pos = true := by
            by_cases h5 : S.properties_mask.length = 0
            · exact Or.inl h5
            · right
              cases h6 : ROISet_contains S.properties_mask s.2.pos
              · exact absurd ⟨h5, h6⟩ h3
              · rfl
          rcases h3a with h3a | h3a <;> simp [h1, h2, h3a, h4]
        · have h4a : ROISet_contains S.properties_exclude s.2.pos = false := by
            simpa using h4
          have h3a : (decide (S.properties_mask.length ≠ 0) &&
              !ROISet_contains S.properties_mask s.2.pos) = false := by
            by_cases h5 : S.properties_mask.length = 0
            · simp [h5]
            · cases h6 : ROISet_contains S.properties_mask s.2.pos
              · exact absurd ⟨h5, h6⟩ h3
              · simp
          simp only [h1, h2, ne_eq, not_true_eq_false, if_false, h3a, h4a, Bool.false_eq_true]
          by_cases hbt : (S.is_act && S.act_backtrack) = true
          · simp only [hbt, Bool.not_true, Bool.false_eq_true, if_false, if_true]
            split_ifs <;> simp_all
          · have hbf : (S.is_act && S.act_backtrack) = false := by simpa using hbt
            simp only [hbf, Bool.not_false, if_true, Bool.false_eq_true, if_false]
            split_ifs <;> simp_all
    · simp [h1, h2]
  · simp only [h1, ne_eq, not_false_eq_true, if_true, true_and, false_implies, and_true,
      implies_true, true_implies, Bool.and_eq_true, decide_eq_true_eq, decide_not]
    intro _ hr _
    split_ifs
    · decide
    · exact hr

theorem iterate_precedence_witness :
    ROISet_contains masked_exclusion_scenario.properties_mask 3 = false ∧
    ROISet_contains masked_exclusion_scenario.properties_exclude 3 = true ∧
    (iterate masked_exclusion_scenario
      { scenario_seeded with method := { pos := 2, dir := 1, sgm_depth := 0, ext := (2, 1) }
                             track_included := [false] }).1 = term_t.EXIT_MASK ∧
    (iterate masked_exclusion_scenario
      { scenario_seeded with method := { pos := 2, dir := 1, sgm_depth := 0, ext := (2, 1) }
                             track_included := [false] }).2.track_included = [false] :=
  ⟨rfl, rfl,
   ((iterate_precedence masked_exclusion_scenario
      { scenario_seeded with method := { pos := 2, dir := 1, sgm_depth := 0, ext := (2, 1) }
                             track_included := [false] }
      { pos := 3, dir := 1, sgm_depth := 0, ext := (3, 1) }
      { pos := 3, dir := 1, sgm_depth := 0, ext := (3, 1) } rfl rfl).2.1 rfl).2 rfl |>.2.1
      (by decide) rfl⟩

/-! ### Cropping at the best exit point -/

/-- The scan of `truncate_exit_sgm` over indices within the track: it returns
either the incoming best index, when no value is below the incoming minimum,
or the earliest index whose value is minimal among the values scanned, that
value being below the incoming minimum. -/
theorem truncate_exit_sgm_scan_spec (S : Shared P W) (pts : List P) :
    ∀ (n i : Nat) (mv : Option Int) (best : Nat) (m : Method P W),
      1 ≤ i → i + n ≤ pts.length →
      (sgm_metrics S pts n i m).length = n ∧
      ∃ b m1, truncate_exit_sgm_scan S pts n i mv best m = Except.ok (b, m1) ∧
        ((b = best ∧ ∀ j x, (sgm_metrics S pts n i m).get? j = some x →
            metric_below x mv = false) ∨
         (∃ k v, b = i + k ∧ k < n ∧ (sgm_metrics S pts n i m).get? k = some (some v) ∧
            metric_below (some v) mv = true ∧
            ∀ j w, (sgm_metrics S pts n i m).get? j = some (some w) →
              v ≤ w ∧ (j < k → v < w))) := by
  intro n
  induction n with
  | zero =>
    intro i mv best m _ _
    exact ⟨rfl, best, m, rfl, Or.inl ⟨rfl, fun j x h => by simp [sgm_metrics] at h⟩⟩
  | succ n ih =>
    intro i mv best m hi hlen
    have hi0 : i ≠ 0 := by omega
    obtain ⟨p, hp⟩ : ∃ p, pts.get? i = some p :=
      ⟨pts.get ⟨i, by omega⟩, List.get?_eq_get (by omega)⟩
    obtain ⟨q, hq⟩ : ∃ q, pts.get? (i - 1) = some q :=
      ⟨pts.get ⟨i - 1, by omega⟩, List.get?_eq_get (by omega)⟩
    unfold truncate_exit_sgm_scan sgm_metrics
    simp only [hp, hi0, if_false, hq]
    generalize hm2 : ({ S.get_data { m with pos := p } with dir := S.dir_from p q } : Method P W)
      = m2
    generalize hx : S.get_metric m2 = x
    by_cases hb : metric_below x mv = true
    · obtain ⟨hl, b, m1, hrun, hres⟩ := ih (i + 1) x i m2 (by omega) (by omega)
      rw [if_pos hb]
      refine ⟨by rw [List.length_cons, hl], b, m1, hrun, Or.inr ?_⟩
      cases x with
      | none => simp [metric_below] at hb
      | some a =>
        rcases hres with ⟨rfl, hno⟩ | ⟨k, v, rfl, hk, hkv, hva, hmin⟩
        · refine ⟨0, a, rfl, by omega, rfl, hb, fun j w hj => ?_⟩
          cases j with
          | zero =>
            simp only [List.get?_cons_zero, Option.some.injEq] at hj
            subst hj
            exact ⟨Int.le_refl _, fun h => absurd h (Nat.lt_irrefl 0)⟩
          | succ j1 =>
            have := hno j1 (some w) hj
            simp only [metric_below, decide_eq_false_iff_not, Int.not_lt] at this
            exact ⟨this, fun h => absurd h (Nat.not_lt_zero _)⟩
        · have hva1 : v < a := by simpa [metric_below] using hva
          refine ⟨k + 1, v, by omega, by omega, hkv, ?_, fun j w hj => ?_⟩
          · cases mv with
            | none => rfl
            | some u =>
              have hau : a < u := by simpa [metric_below] using hb
              simp only [metric_below, decide_eq_true_eq]
              omega
          · cases j with
            | zero =>
              simp only [List.get?_cons_zero, Option.some.injEq] at hj
              subst hj
              exact ⟨Int.le_of_lt hva1, fun _ => hva1⟩
            | succ j1 =>
              obtain ⟨h1, h2⟩ := hmin j1 w hj
              exact ⟨h1, fun h => h2 (by omega)⟩
    · have hbf : metric_below x mv = false := by simpa using hb
      obtain ⟨hl, b, m1, hrun, hres⟩ := ih (i + 1) mv best m2 (by omega) (by omega)
      rw [if_neg hb]
      refine ⟨by rw [List.length_cons, hl], b, m1, hrun, ?_⟩
      rcases hres with ⟨rfl, hno⟩ | ⟨k, v, rfl, hk, hkv, hva, hmin⟩
      · refine Or.inl ⟨rfl, fun j y hj => ?_⟩
        cases j with
        | zero =>
          simp only [List.get?_cons_zero, Option.some.injEq] at hj
          subst hj
          exact hbf
        | succ j1 => exact hno j1 y hj
      · refine Or.inr ⟨k + 1, v, by omega, by omega, hkv, hva, fun j w hj => ?_⟩
        cases j with
        | zero =>
          simp only [List.get?_cons_zero, Option.some.injEq] at hj
          subst hj
          cases mv with
          | none => simp [metric_below] at hbf
          | some u =>
            have h1 : v < u := by simpa [metric_below] using hva
            have h2 : u ≤ w := by simpa [metric_below] using hbf
            exact ⟨by omega, fun _ => by omega⟩
        | succ j1 =>
          obtain ⟨h1, h2⟩ := hmin j1 w hj
          exact ⟨h1, fun h => h2 (by omega)⟩

/-- C25. For a track of n points and a grey matter depth d with 1 <= d < n,
`truncate_exit_sgm` returns, and crops the track to its first b + 1 points for
an index b with n - d <= b <= n - 1: the result is not empty and keeps the
first n - d points. Either no scanned metric is below +infinity and b = n - 1,
or the metric at b is minimal among the metrics scanned (at the indices n - d
to n - 1) and strictly smaller than the metric at every earlier scanned
index. -/
theorem truncate_exit_sgm_crops_at_best_exit (S : Shared P W) (tck : GeneratedTrack P)
    (e : Exec P W) (h1 : 1 ≤ e.method.sgm_depth) (h2 : e.method.sgm_depth < tck.size) :
    (sgm_metrics S tck.pts e.method.sgm_depth (tck.size - e.method.sgm_depth) e.method).length
      = e.method.sgm_depth ∧
    ∃ b tck1 e1, truncate_exit_sgm S tck e = Except.ok (tck1, e1) ∧
      tck1.pts = tck.pts.take (b + 1) ∧ tck1.seed_index = tck.seed_index ∧
      tck.size - e.method.sgm_depth ≤ b ∧ b ≤ tck.size - 1 ∧ tck1.size = b + 1 ∧
      tck1.pts.take (tck.size - e.method.sgm_depth)
        = tck.pts.take (tck.size - e.method.sgm_depth) ∧
      ((b = tck.size - 1 ∧
          ∀ j x, (sgm_metrics S tck.pts e.method.sgm_depth (tck.size - e.method.sgm_depth)
            e.method).get? j = some x → x = none) ∨
       (∃ v, (sgm_metrics S tck.pts e.method.sgm_depth (tck.size - e.method.sgm_depth)
            e.method).get? (b - (tck.size - e.method.sgm_depth)) = some (some v) ∧
          ∀ j w, (sgm_metrics S tck.pts e.method.sgm_depth (tck.size - e.method.sgm_depth)
            e.method).get? j = some (some w) →
            v ≤ w ∧ (j < b - (tck.size - e.method.sgm_depth) → v < w))) := by
  simp only [GeneratedTrack.size] at h2 ⊢
  obtain ⟨hl, b, m1, hrun, hres⟩ := truncate_exit_sgm_scan_spec S tck.pts e.method.sgm_depth
    (tck.pts.length - e.method.sgm_depth) none (tck.pts.length - 1) e.method (by omega) (by omega)
  refine ⟨hl, b, { tck with pts := tck.pts.take (b + 1) }, { e with method := m1 }, ?_, rfl, rfl,
    ?_⟩
  · unfold truncate_exit_sgm
    rw [if_neg (by simp only [GeneratedTrack.size]; omega)]
    simp only [GeneratedTrack.size, hrun]
  · have hb : tck.pts.length - e.method.sgm_depth ≤ b ∧ b ≤ tck.pts.length - 1 := by
      rcases hres with ⟨rfl, -⟩ | ⟨k, v, rfl, hk, -⟩
      · omega
      · omega
    refine ⟨hb.1, hb.2, ?_, ?_, ?_⟩
    · simp only [List.length_take]
      omega
    · rw [List.take_take, min_eq_left (by omega)]
    · rcases hres with ⟨rfl, hno⟩ | ⟨k, v, rfl, hk, hkv, -, hmin⟩
      · refine Or.inl ⟨rfl, fun j x hj => ?_⟩
        have := hno j x hj
        cases x with
        | none => rfl
        | some a => simp [metric_below] at this
      · refine Or.inr ⟨v, ?_, ?_⟩
        · rw [Nat.add_sub_cancel_left]
          exact hkv
        · rw [Nat.add_sub_cancel_left]
          exact hmin

theorem truncate_exit_sgm_crops_at_best_exit_witness :
    (truncate_exit_sgm metric_scenario { pts := [0, 1, 2, 3, 4, 5], seed_index := 0 }
        { scenario_seeded with method := { pos := 5, dir := 1, sgm_depth := 4, ext := (5, 1) } }
      ).toOption.map (fun r => r.1.pts) = some [0, 1, 2, 3] ∧
    sgm_metrics metric_scenario [0, 1, 2, 3, 4, 5] 4 2
        { pos := 5, dir := 1, sgm_depth := 4, ext := (5, 1) } = [some 1, some 0, some 1, none] ∧
    (sgm_metrics metric_scenario [0, 1, 2, 3, 4, 5] 4 2
        { pos := 5, dir := 1, sgm_depth := 4, ext := (5, 1) }).length = 4 :=
  ⟨rfl, rfl,
   (truncate_exit_sgm_crops_at_best_exit metric_scenario
      { pts := [0, 1, 2, 3, 4, 5], seed_index := 0 }
      { scenario_seeded with method := { pos := 5, dir := 1, sgm_depth := 4, ext := (5, 1) } }
      (by decide) (by decide)).1⟩

/-! ### The white matter requirement -/

theorem rejection_of_termination_not_wm (t : term_t) (reason : reject_t)
    (h : rejection_of_termination t = some reason) :
    reason ≠ reject_t.ACT_FAILED_WM_REQUIREMENT := by
  cases t <;> simp [rejection_of_termination] at h <;> subst h <;> decide

theorem gen_track_unidir_wm_counter (S : Shared P W) (fuel : Nat)
    (tck tck1 : GeneratedTrack P) (e e1 : Exec P W)
    (h : gen_track_unidir S fuel tck e = Except.ok (tck1, e1)) :
    e1.rejections reject_t.ACT_FAILED_WM_REQUIREMENT
      = e.rejections reject_t.ACT_FAILED_WM_REQUIREMENT := by
  obtain ⟨t0, t1, l, e2, -, -, -, -, -, hr⟩ := gen_track_unidir_spec S fuel tck tck1 e e1 h
  rcases hr with ⟨-, h2⟩ | ⟨-, reason, h3, h4⟩
  · rw [h2]
  · rw [h4]
    have hne := rejection_of_termination_not_wm t1 reason h3
    simp only [add_rejection]
    rw [if_neg (fun hc => hne hc.symm)]

theorem gen_track_wm_counter (S : Shared P W) (fuel : Nat) (tck tk : GeneratedTrack P)
    (e e1 : Exec P W) (b : Bool) (h : gen_track S fuel tck e = Except.ok (b, tk, e1)) :
    e1.rejections reject_t.ACT_FAILED_WM_REQUIREMENT
      = e.rejections reject_t.ACT_FAILED_WM_REQUIREMENT := by
  have hfrom : ∀ (tck0 : GeneratedTrack P) (e0 : Exec P W),
      gen_track_from_seed S fuel tck0 e0 = Except.ok (b, tk, e1) →
      e1.rejections reject_t.ACT_FAILED_WM_REQUIREMENT
        = e0.rejections reject_t.ACT_FAILED_WM_REQUIREMENT := by
    intro tck0 e0 h0
    cases hf : gen_track_unidir S fuel (tck0.push_back (forward_start S e0).2.method.pos)
        (forward_start S e0).2 with
    | error y =>
      unfold gen_track_from_seed at h0
      simp [hf] at h0
    | ok f =>
      obtain ⟨tckf, ef⟩ := f
      have h1 : ef.rejections reject_t.ACT_FAILED_WM_REQUIREMENT
          = e0.rejections reject_t.ACT_FAILED_WM_REQUIREMENT :=
        gen_track_unidir_wm_counter S fuel _ tckf (forward_start S e0).2 ef hf
      rw [gen_track_from_seed_unfold S fuel tck0 e0 tckf ef hf] at h0
      split_ifs at h0
      · split at h0
        · simp at h0
        · rename_i p hp
          cases hb : gen_track_unidir S fuel tckf.reverse
              (backward_start S (forward_start S e0).2.method.dir ef p) with
          | error y => simp [hb] at h0
          | ok bk =>
            simp only [hb, Except.ok.injEq, Prod.mk.injEq] at h0
            obtain ⟨-, -, rfl⟩ := h0
            rw [gen_track_unidir_wm_counter S _ _ _ _ _ hb]
            exact h1
      · simp only [Except.ok.injEq, Prod.mk.injEq] at h0
        obtain ⟨-, -, rfl⟩ := h0
        exact h1
  unfold gen_track at h
  simp only at h
  split_ifs at h
  · simp only [Except.ok.injEq, Prod.mk.injEq] at h
    obtain ⟨-, -, rfl⟩ := h
    rfl
  · simp only [Except.ok.injEq, Prod.mk.injEq] at h
    obtain ⟨-, -, rfl⟩ := h
    rfl
  · simp only [Except.ok.injEq, Prod.mk.injEq] at h
    obtain ⟨-, -, rfl⟩ := h
    rfl
  · exact (hfrom _ _ h).trans rfl
  · simp only [Except.ok.injEq, Prod.mk.injEq] at h
    obtain ⟨-, -, rfl⟩ := h
    rfl
  · exact (hfrom _ _ h).trans rfl

theorem track_rejected_wm_counter (S : Shared P W) (hmax : S.max_num_points = 2)
    (tck : List P) (e : Exec P W) :
    (track_rejected S tck e).2.rejections reject_t.ACT_FAILED_WM_REQUIREMENT
      = e.rejections reject_t.ACT_FAILED_WM_REQUIREMENT := by
  unfold track_rejected satisfy_wm_requirement
  simp only [hmax, if_true]
  split_ifs <;> simp_all [add_rejection]

/-- C26. With a maximum point count of exactly 2, `satisfy_wm_requirement`
returns true for every track and leaves the tracker as it was, whatever the
tissue-based requirement (the collaborator `act_wm_requirement`) would answer;
`track_rejected` never increments ACT_FAILED_WM_REQUIREMENT, and neither does
a whole call of the functor `operator()`. -/
theorem wm_requirement_skipped_at_two_points (S : Shared P W) (hmax : S.max_num_points = 2) :
    (∀ (f : List P → Method P W → Bool × Method P W) (tck : List P) (e : Exec P W),
      satisfy_wm_requirement { S with act_wm_requirement := f } tck e = (true, e)) ∧
    (∀ (tck : List P) (e : Exec P W),
      (track_rejected S tck e).2.rejections reject_t.ACT_FAILED_WM_REQUIREMENT
        = e.rejections reject_t.ACT_FAILED_WM_REQUIREMENT) ∧
    (∀ (fuel : Nat) (item : GeneratedTrack P) (e : Exec P W)
      (r : Bool × GeneratedTrack P × Exec P W), operator_call S fuel item e = Except.ok r →
      r.2.2.rejections reject_t.ACT_FAILED_WM_REQUIREMENT
        = e.rejections reject_t.ACT_FAILED_WM_REQUIREMENT) := by
  refine ⟨fun f tck e => ?_, track_rejected_wm_counter S hmax, fun fuel item e r h => ?_⟩
  · unfold satisfy_wm_requirement
    rw [if_pos hmax]
  · unfold operator_call at h
    cases hg : gen_track S fuel item e with
    | error y => simp [hg] at h
    | ok g =>
      obtain ⟨b, tk, e1⟩ := g
      have h1 := gen_track_wm_counter S fuel item tk e e1 b hg
      simp only [hg] at h
      split_ifs at h <;>
        (simp only [Except.ok.injEq] at h
         subst h
         first
         | exact h1
         | exact (track_rejected_wm_counter S hmax tk.pts e1).trans h1)

theorem wm_requirement_skipped_at_two_points_witness :
    (track_rejected (failing_wm_scenario 2) [0] scenario_seeded).1 = false ∧
    (track_rejected (failing_wm_scenario 3) [0] scenario_seeded).1 = true ∧
    (track_rejected (failing_wm_scenario 3) [0] scenario_seeded).2.rejections
      reject_t.ACT_FAILED_WM_REQUIREMENT = 1 ∧
    (track_rejected (failing_wm_scenario 2) [0] scenario_seeded).2.rejections
      reject_t.ACT_FAILED_WM_REQUIREMENT
        = scenario_seeded.rejections reject_t.ACT_FAILED_WM_REQUIREMENT :=
  ⟨rfl, rfl, rfl,
   (wm_requirement_skipped_at_two_points (failing_wm_scenario 2) rfl).2.1 [0] scenario_seeded⟩

/-! ### Deferred inclusion tracking -/

theorem ROISet_contains_record_get (p : P) :
    ∀ (rois : List (P → Bool)) (bits : List Bool) (n : Nat) (r : P → Bool) (b : Bool),
      rois.get? n = some r → bits.get? n = some b →
      (ROISet_contains_record rois p bits).get? n = some (b || r p) := by
  intro rois
  induction rois with
  | nil =>
    intro bits n r b hr
    simp at hr
  | cons r0 rs ih =>
    intro bits n r b hr hb
    cases bits with
    | nil => simp at hb
    | cons b0 bs =>
      cases n with
      | zero =>
        simp only [List.get?_cons_zero, Option.some.injEq] at hr hb
        subst hr hb
        rfl
      | succ k =>
        simp only [List.get?_cons_succ] at hr hb
        simp only [ROISet_contains_record, List.get?_cons_succ]
        exact ih bs k r b hr hb

theorem include_all_points_get (S : Shared P W) (n : Nat) (r : P → Bool)
    (hr : S.properties_include.get? n = some r) :
    ∀ (ps : List P) (bits : List Bool) (b : Bool), bits.get? n = some b →
      (include_all_points S ps bits).get? n = some (b || ps.any r) := by
  intro ps
  induction ps with
  | nil =>
    intro bits b hb
    simpa [include_all_points] using hb
  | cons p ps ih =>
    intro bits b hb
    have h1 := ROISet_contains_record_get p S.properties_include bits n r b hr hb
    rw [include_all_points, ih _ _ h1]
    simp [Bool.or_assoc]

/-- An accepted track, with backtracking enabled: every inclusion region whose
bitmap entry was not yet set contains a point of the track. -/
theorem track_rejected_backtrack_regions (S : Shared P W)
    (hbt : (S.is_act && S.act_backtrack) = true) (tck : List P) (e : Exec P W)
    (hacc : (track_rejected S tck e).1 = false) (n : Nat) (r : P → Bool) (b : Bool)
    (hr : S.properties_include.get? n = some r) (hb : e.track_included.get? n = some b) :
    b = true ∨ ∃ p ∈ tck, r p = true := by
  have hact : S.is_act = true := by
    simp only [Bool.and_eq_true] at hbt
    exact hbt.1
  have hall : traversed_all_include_regions
      { e with track_included := include_all_points S tck e.track_included } = true := by
    by_contra hc
    have hcf : traversed_all_include_regions
      { e with track_included := include_all_points S tck e.track_included } = false := by
      simpa using hc
    have hwi : (satisfy_wm_requirement S tck e).2.track_included = e.track_included := by
      rw [satisfy_wm_requirement_frame S tck e]
    simp only [traversed_all_include_regions] at hcf
    unfold track_rejected at hacc
    simp only [hact, hbt, if_true, hwi, traversed_all_include_regions, hcf, Bool.not_false] at hacc
    split_ifs at hacc
    all_goals
      first
      | (rename_i h4 h5
         exact h4 (by simpa [hact] using hbt))
      | (rename_i h4 h5
         have h6 : ((include_all_points S tck e.track_included).all fun b => b) = true := by
           simpa using h5
         rw [hcf] at h6
         exact absurd h6 (by decide))
  have hget := include_all_points_get S n r hr tck e.track_included b hb
  simp only [traversed_all_include_regions, List.all_eq_true] at hall
  have hmem := hall _ (List.get?_mem hget)
  simp only [id_eq, Bool.or_eq_true, List.any_eq_true] at hmem
  exact hmem

/-- With backtracking enabled, a track that `gen_track` leaves unrejected
contains its seed, and the inclusion bitmap holds what recording the seed
alone gives. -/
theorem gen_track_from_seed_backtrack_path (S : Shared P W)
    (hbt : (S.is_act && S.act_backtrack) = true) (hcol : act_collaborators_local S)
    (fuel : Nat) (tck tk : GeneratedTrack P) (e0 g : Exec P W) (b : Bool)
    (hex : e0.track_excluded = false)
    (h : gen_track_from_seed S fuel tck.clear e0 = Except.ok (b, tk, g))
    (hacc : g.track_excluded = false) :
    (forward_start S e0).2.method.pos ∈ tk.pts ∧
    g.track_included = ROISet_contains_record S.properties_include
      (forward_start S e0).2.method.pos e0.track_included := by
  have hfs : (forward_start S e0).2.track_included = ROISet_contains_record
      S.properties_include (forward_start S e0).2.method.pos e0.track_included := rfl
  cases hf : gen_track_unidir S fuel (tck.clear.push_back (forward_start S e0).2.method.pos)
      (forward_start S e0).2 with
  | error y =>
    unfold gen_track_from_seed at h
    simp [hf] at h
  | ok f =>
    obtain ⟨tckf, ef⟩ := f
    have hinc1 := records_points_backtrack S _ _ (gen_track_unidir_included S _ _ _ _ _ hf) hbt
    have happ : ef.track_excluded = false →
        ∃ ex, tckf.pts = [(forward_start S e0).2.method.pos] ++ ex := fun hx =>
      (gen_track_unidir_appends S (fun _ => hcol) fuel _ _ _ _ hf hex rfl hx).2
    rw [gen_track_from_seed_unfold S fuel tck.clear e0 tckf ef hf] at h
    split_ifs at h with hcond
    · simp only [Bool.and_eq_true, Bool.not_eq_true'] at hcond
      obtain ⟨ex, hpts⟩ := happ hcond.1
      obtain ⟨hlast, hlen, -⟩ := seed_is_last_of_reverse _ _ _ hpts
      have hback : tckf.reverse.back = some (forward_start S e0).2.method.pos := hlast
      rw [hback] at h
      simp only at h
      cases hb : gen_track_unidir S fuel tckf.reverse
          (backward_start S (forward_start S e0).2.method.dir ef
            (forward_start S e0).2.method.pos) with
      | error y => simp [hb] at h
      | ok bk =>
        simp only [hb, Except.ok.injEq, Prod.mk.injEq] at h
        obtain ⟨-, rfl, rfl⟩ := h
        have hinc2 := records_points_backtrack S _ _
          (gen_track_unidir_included S _ _ _ _ _ hb) hbt
        obtain ⟨-, extra, h2⟩ := gen_track_unidir_appends S (fun _ => hcol) fuel _ _ _ _ hb
          hcond.1 (by show tckf.pts.reverse.length = tckf.pts.length - 1 + 1
                      rw [List.length_reverse, hlen]) hacc
        refine ⟨?_, ?_⟩
        · rw [h2]
          apply List.mem_append_left
          show (forward_start S e0).2.method.pos ∈ tckf.pts.reverse
          rw [List.mem_reverse, hpts]
          exact List.mem_append_left _ (List.mem_singleton_self _)
        · rw [hinc2]
          exact hinc1.trans hfs
    · simp only [Except.ok.injEq, Prod.mk.injEq] at h
      obtain ⟨-, rfl, rfl⟩ := h
      obtain ⟨ex, hpts⟩ := happ hacc
      refine ⟨?_, hinc1.trans hfs⟩
      rw [hpts]
      exact List.mem_append_left _ (List.mem_singleton_self _)

theorem gen_track_backtrack_path (S : Shared P W)
    (hbt : (S.is_act && S.act_backtrack) = true) (hcol : act_collaborators_local S)
    (fuel : Nat) (tck tk : GeneratedTrack P) (e g : Exec P W)
    (h : gen_track S fuel tck e = Except.ok (true, tk, g)) (hacc : g.track_excluded = false) :
    ∃ seed ∈ tk.pts, g.track_included = ROISet_contains_record S.properties_include seed
      (List.replicate e.track_included.length false) := by
  unfold gen_track at h
  simp only at h
  split_ifs at h
  · simp at h
  · simp only [Except.ok.injEq, Prod.mk.injEq, true_and] at h
    obtain ⟨-, rfl⟩ := h
    exact absurd hacc (by simp)
  · simp only [Except.ok.injEq, Prod.mk.injEq, true_and] at h
    obtain ⟨-, rfl⟩ := h
    exact absurd hacc (by simp)
  · obtain ⟨h1, h2⟩ := gen_track_from_seed_backtrack_path S hbt hcol fuel tck tk _ g true rfl h hacc
    exact ⟨_, h1, h2⟩
  · simp at h
  · obtain ⟨h1, h2⟩ := gen_track_from_seed_backtrack_path S hbt hcol fuel tck tk _ g true rfl h hacc
    exact ⟨_, h1, h2⟩

theorem track_rejected_backtrack_bits (S : Shared P W)
    (hbt : (S.is_act && S.act_backtrack) = true) (tck : List P) (e : Exec P W)
    (hacc : (track_rejected S tck e).1 = false) :
    (track_rejected S tck e).2.track_included = include_all_points S tck e.track_included := by
  have hact : S.is_act = true := by
    simp only [Bool.and_eq_true] at hbt
    exact hbt.1
  have hwi : (satisfy_wm_requirement S tck e).2.track_included = e.track_included := by
    rw [satisfy_wm_requirement_frame S tck e]
  unfold track_rejected at hacc ⊢
  simp only [hact, hbt, if_true] at hacc ⊢
  split_ifs at hacc ⊢
  all_goals
    first
    | exact absurd hacc (by decide)
    | (rename_i h4 h5
       exact absurd (by simpa [hact] using hbt) h4)
    | (show include_all_points S tck (satisfy_wm_requirement S tck e).2.track_included = _
       rw [hwi])

theorem deferred_inclusion_scenario_collaborators :
    act_collaborators_local deferred_inclusion_scenario := by
  refine ⟨rfl, fun m => ?_, fun m => ⟨fun _ => Nat.le_succ _, fun _ => Nat.le_refl _⟩,
    fun tk n m => ⟨rfl, Nat.le_refl _⟩, fun tk => ⟨rfl, tk.pts.drop (tk.seed_index + 1), ?_⟩⟩
  · show (count_then 3 term_t.EXIT_IMAGE m).2.sgm_depth = m.sgm_depth
    unfold count_then
    split_ifs <;> rfl
  · exact (List.take_append_drop _ _).symm

/-- C27. With backtracking enabled (in anatomically-constrained mode),
`iterate` never modifies the inclusion bitmap. For a bitmap with one entry per
inclusion region and collaborators as in `act_collaborators_local`: when
`gen_track` produces a track that `track_rejected` accepts, the bitmap of the
acceptance test is the one obtained by recording every point of the finished
track in the bitmap `gen_track` left, and every inclusion region contains a
point of the finished track. -/
theorem deferred_inclusion_with_backtracking (S : Shared P W)
    (hbt : (S.is_act && S.act_backtrack) = true) (hcol : act_collaborators_local S) :
    (∀ e : Exec P W, (iterate S e).2.track_included = e.track_included) ∧
    (∀ (fuel : Nat) (tck tk : GeneratedTrack P) (e g : Exec P W),
      e.track_included.length = S.properties_include.length →
      gen_track S fuel tck e = Except.ok (true, tk, g) →
      (track_rejected S tk.pts g).1 = false →
      (track_rejected S tk.pts g).2.track_included
        = include_all_points S tk.pts g.track_included ∧
      ∀ r ∈ S.properties_include, ∃ p ∈ tk.pts, r p = true) := by
  refine ⟨fun e => records_points_backtrack S _ _ (iterate_included S e) hbt,
    fun fuel tck tk e g hlen hg hacc =>
      ⟨track_rejected_backtrack_bits S hbt tk.pts g hacc, fun r hr => ?_⟩⟩
  have hx : g.track_excluded = false := by
    cases hgx : g.track_excluded with
    | false => rfl
    | true =>
      rw [track_rejected_excluded S tk.pts g hgx] at hacc
      exact absurd hacc (Bool.noConfusion)
  obtain ⟨seed, hseed, hbits⟩ := gen_track_backtrack_path S hbt hcol fuel tck tk e g hg hx
  obtain ⟨n, hn⟩ := List.mem_iff_get?.mp hr
  have hnlt : n < S.properties_include.length := by
    rcases Nat.lt_or_ge n S.properties_include.length with h | h
    · exact h
    · rw [List.get?_eq_none.mpr h] at hn
      exact absurd hn (by simp)
  have hb0 : (List.replicate e.track_included.length false).get? n = some false := by
    rw [List.get?_eq_getElem?, List.getElem?_replicate, if_pos (by omega)]
  have hb1 := ROISet_contains_record_get seed S.properties_include _ n r false hn hb0
  rw [← hbits] at hb1
  rcases track_rejected_backtrack_regions S hbt tk.pts g hacc n r _ hn hb1 with h | h
  · simp only [Bool.false_or] at h
    exact ⟨seed, hseed, h⟩
  · exact h

theorem deferred_inclusion_with_backtracking_witness :
    (gen_track deferred_inclusion_scenario 10 { pts := [], seed_index := 0 }
        { scenario_start with track_included := [false] }).toOption.map
      (fun r => (r.1, r.2.1.pts, r.2.2.track_included,
        (track_rejected deferred_inclusion_scenario r.2.1.pts r.2.2).1,
        (track_rejected deferred_inclusion_scenario r.2.1.pts r.2.2).2.track_included))
      = some (true, [0, 1, 2, 3], [false], false, [true]) ∧
    (iterate deferred_inclusion_scenario
      { scenario_seeded with method := { pos := 1, dir := 1, sgm_depth := 0, ext := (1, 1) }
                             track_included := [false] }).2.track_included = [false] :=
  ⟨rfl,
   (deferred_inclusion_with_backtracking deferred_inclusion_scenario rfl
      deferred_inclusion_scenario_collaborators).1
      { scenario_seeded with method := { pos := 1, dir := 1, sgm_depth := 0, ext := (1, 1) }
                             track_included := [false] }⟩

/-! ### Count validation -/

/-- C28, evaluated at a failing input. A run of `check_counts` in which the
first property set has no count entry and `abort_on_fail` is false: after the warning the function goes on to
read `count_a->second`, the entry of the end iterator. With both entries
present the same call returns, without a warning on equal counts and with one
on different counts. -/
theorem check_counts_reads_missing_entry :
    check_counts read_count [("timestamp", "1")] [("count", "5")] "track" false
      = Except.error count_error.end_iterator_dereferenced ∧
    check_counts read_count [("count", "5")] [("count", "5")] "track" false
      = Except.ok [] ∧
    check_counts read_count [("count", "4")] [("count", "5")] "track" false
      = Except.ok ["track files do not contain same number of elements"] ∧
    check_counts read_count [("count", "4")] [("count", "5")] "track" true
      = Except.error count_error.count_mismatch ∧
    check_counts read_count [("timestamp", "1")] [("count", "5")] "track" true
      = Except.error count_error.missing_count := by
  refine ⟨rfl, rfl, rfl, rfl, rfl⟩

/-! ### The grid of seeds per voxel -/

theorem Grid_per_voxel.run_add (Pt : Type) (fuel : Nat) :
    ∀ (m n : Nat) (s s1 s2 : Grid_per_voxel Pt) (p p1 p2 : Pt) (o1 o2 : List (Option Pt)),
      Grid_per_voxel.run Pt fuel m s p = some (o1, s1, p1) →
      Grid_per_voxel.run Pt fuel n s1 p1 = some (o2, s2, p2) →
      Grid_per_voxel.run Pt fuel (m + n) s p = some (o1 ++ o2, s2, p2) := by
  intro m
  induction m with
  | zero =>
    intro n s s1 s2 p p1 p2 o1 o2 h1 h2
    simp only [Grid_per_voxel.run, Option.some.injEq, Prod.mk.injEq] at h1
    obtain ⟨rfl, rfl, rfl⟩ := h1
    rw [Nat.zero_add, List.nil_append]
    exact h2
  | succ m ih =>
    intro n s s1 s2 p p1 p2 o1 o2 h1 h2
    rw [Nat.add_right_comm]
    unfold Grid_per_voxel.run at h1 ⊢
    cases hg : Grid_per_voxel.get_seed Pt fuel s p with
    | none => simp [hg] at h1
    | some r =>
      simp only [hg] at h1 ⊢
      cases hr : Grid_per_voxel.run Pt fuel m r.2.1 r.2.2 with
      | none => simp [hr] at h1
      | some t =>
        simp only [hr, Option.some.injEq, Prod.mk.injEq] at h1
        obtain ⟨rfl, h1b⟩ := h1
        have hr1 : Grid_per_voxel.run Pt fuel m r.2.1 r.2.2 = some (t.1, s1, p1) := by
          rw [hr, ← h1b]
        rw [ih n _ _ _ _ _ _ _ _ hr1 h2]
        rfl

/-- A call that returns true with the object q1 and sets the point x, followed
by n calls. -/
theorem Grid_per_voxel.run_cons (Pt : Type) (fuel n : Nat) (s s1 s2 : Grid_per_voxel Pt)
    (p x p2 : Pt) (o : List (Option Pt))
    (h1 : Grid_per_voxel.get_seed Pt fuel s p = some (true, s1, x))
    (h2 : Grid_per_voxel.run Pt fuel n s1 x = some (o, s2, p2)) :
    Grid_per_voxel.run Pt fuel (n + 1) s p = some (some x :: o, s2, p2) := by
  unfold Grid_per_voxel.run
  simp only [h1, h2, if_true]

theorem Grid_per_voxel.get_seed_step (Pt : Type) (fuel : Nat) (s : Grid_per_voxel Pt)
    (hs : s.expired = false) (v : Int × Int × Int) (a b c : Int) (p : Pt) :
    (c + 1 < s.os → Grid_per_voxel.get_seed Pt fuel (Grid_per_voxel.place Pt s v (a, b, c)) p =
      some (true, Grid_per_voxel.place Pt s v (a, b, c + 1),
        Grid_per_voxel.seed_point Pt s v (a, b, c + 1))) ∧
    (s.os ≤ c + 1 → b + 1 < s.os →
      Grid_per_voxel.get_seed Pt fuel (Grid_per_voxel.place Pt s v (a, b, c)) p =
      some (true, Grid_per_voxel.place Pt s v (a, b + 1, 0),
        Grid_per_voxel.seed_point Pt s v (a, b + 1, 0))) ∧
    (s.os ≤ c + 1 → s.os ≤ b + 1 → a + 1 < s.os →
      Grid_per_voxel.get_seed Pt fuel (Grid_per_voxel.place Pt s v (a, b, c)) p =
      some (true, Grid_per_voxel.place Pt s v (a + 1, 0, 0),
        Grid_per_voxel.seed_point Pt s v (a + 1, 0, 0))) ∧
    (s.os ≤ c + 1 → s.os ≤ b + 1 → s.os ≤ a + 1 →
      ∀ w, scan_mask Pt s.mask fuel v = some w →
      (w.1 ≠ s.mask.dim0 →
        Grid_per_voxel.get_seed Pt fuel (Grid_per_voxel.place Pt s v (a, b, c)) p =
        some (true, Grid_per_voxel.place Pt s w (0, 0, 0),
          Grid_per_voxel.seed_point Pt s w (0, 0, 0))) ∧
      (w.1 = s.mask.dim0 →
        Grid_per_voxel.get_seed Pt fuel (Grid_per_voxel.place Pt s v (a, b, c)) p =
        some (false, { Grid_per_voxel.place Pt s v (0, 0, 0) with expired := true }, p))) := by
  unfold Grid_per_voxel.get_seed Grid_per_voxel.place Grid_per_voxel.emit
    Grid_per_voxel.seed_point
  simp only [hs, Bool.false_eq_true, if_false, ge_iff_le]
  refine ⟨fun h => ?_, fun h1 h2 => ?_, fun h1 h2 h3 => ?_, fun h1 h2 h3 w hw => ⟨fun h4 => ?_,
    fun h4 => ?_⟩⟩
  · rw [if_neg (by omega)]
  · rw [if_pos h1, if_neg (by omega)]
  · rw [if_pos h1, if_pos h2, if_neg (by omega)]
  · rw [if_pos h1, if_pos h2, if_pos h3]
    simp only [hw, h4, if_false]
  · rw [if_pos h1, if_pos h2, if_pos h3]
    simp only [hw, h4, if_true]

/-- The calls that complete a row of the grid: from the counter (a, b, c0),
n calls visit (a, b, c0 + 1), ..., (a, b, c0 + n). -/
theorem Grid_per_voxel.run_row_rest (Pt : Type) (fuel : Nat) (s : Grid_per_voxel Pt)
    (hs : s.expired = false) (k : Nat) (hos : s.os = (k : Int)) (v : Int × Int × Int)
    (a b : Int) :
    ∀ (n c0 : Nat) (p : Pt), c0 + n < k →
      ∃ p1, Grid_per_voxel.run Pt fuel n (Grid_per_voxel.place Pt s v (a, b, (c0 : Int))) p =
        some ((List.range' (c0 + 1) n).map
            (fun (c : Nat) => some (Grid_per_voxel.seed_point Pt s v (a, b, (c : Int)))),
          Grid_per_voxel.place Pt s v (a, b, ((c0 + n : Nat) : Int)), p1) := by
  intro n
  induction n with
  | zero =>
    intro c0 p _
    exact ⟨p, rfl⟩
  | succ n ih =>
    intro c0 p hlt
    have hcall := (Grid_per_voxel.get_seed_step Pt fuel s hs v a b (c0 : Int) p).1
      (by rw [hos]; omega)
    have hc : ((c0 : Int) + 1) = ((c0 + 1 : Nat) : Int) := by push_cast; rfl
    rw [hc] at hcall
    obtain ⟨p1, hrun⟩ := ih (c0 + 1) (Grid_per_voxel.seed_point Pt s v (a, b, ((c0 + 1 : Nat) : Int)))
      (by omega)
    refine ⟨p1, ?_⟩
    rw [Grid_per_voxel.run_cons Pt fuel n _ _ _ p _ p1 _ hcall hrun, List.range'_succ,
      List.map_cons]
    have e : c0 + 1 + n = c0 + (n + 1) := by omega
    rw [e]

/-- The calls that visit a whole row: from the end of row b, k calls visit
(a, b + 1, 0), ..., (a, b + 1, k - 1). -/
theorem Grid_per_voxel.run_row (Pt : Type) (fuel : Nat) (s : Grid_per_voxel Pt)
    (hs : s.expired = false) (k : Nat) (hos : s.os = (k : Int)) (v : Int × Int × Int)
    (a : Int) (b0 : Nat) (c : Int) (hc : s.os ≤ c + 1) (hb : b0 + 1 < k) (p : Pt) :
    ∃ p1, Grid_per_voxel.run Pt fuel k (Grid_per_voxel.place Pt s v (a, (b0 : Int), c)) p =
      some ((List.range k).map
          (fun (c : Nat) =>
            some (Grid_per_voxel.seed_point Pt s v (a, ((b0 + 1 : Nat) : Int), (c : Int)))),
        Grid_per_voxel.place Pt s v (a, ((b0 + 1 : Nat) : Int), ((k - 1 : Nat) : Int)), p1) := by
  have hcall := (Grid_per_voxel.get_seed_step Pt fuel s hs v a (b0 : Int) c p).2.1 hc
    (by rw [hos]; omega)
  have hb1 : ((b0 : Int) + 1) = ((b0 + 1 : Nat) : Int) := by push_cast; rfl
  rw [hb1] at hcall
  obtain ⟨p1, hrun⟩ := Grid_per_voxel.run_row_rest Pt fuel s hs k hos v a ((b0 + 1 : Nat) : Int)
    (k - 1) 0 (Grid_per_voxel.seed_point Pt s v (a, ((b0 + 1 : Nat) : Int), 0)) (by omega)
  refine ⟨p1, ?_⟩
  have hk : k = (k - 1) + 1 := by omega
  have h0 : ((0 : Nat) : Int) = 0 := rfl
  rw [h0] at hrun
  have := Grid_per_voxel.run_cons Pt fuel (k - 1) _ _ _ p _ p1 _ hcall hrun
  rw [← hk] at this
  rw [this, List.range_eq_range']
  conv_rhs => rw [hk, List.range'_succ]
  simp only [List.map_cons, Nat.zero_add, Nat.cast_zero, Nat.add_sub_cancel]

theorem Grid_per_voxel.voxel_seeds_eq (Pt : Type) (s : Grid_per_voxel Pt) (k : Nat)
    (v : Int × Int × Int) :
    Grid_per_voxel.voxel_seeds Pt s k v =
      (grid_offsets k).map (fun q => some (Grid_per_voxel.seed_point Pt s v q)) := by
  unfold Grid_per_voxel.voxel_seeds Grid_per_voxel.plane_seeds Grid_per_voxel.row_seeds
    grid_offsets
  simp only [List.map_flatMap, List.map_map]
  rfl

/-- The calls that visit n whole rows after row b0. -/
theorem Grid_per_voxel.run_rows (Pt : Type) (fuel : Nat) (s : Grid_per_voxel Pt)
    (hs : s.expired = false) (k : Nat) (hos : s.os = (k : Int)) (v : Int × Int × Int)
    (a : Int) :
    ∀ (n b0 : Nat) (c : Int) (p : Pt), s.os ≤ c + 1 → b0 + n < k →
      ∃ c1 p1, s.os ≤ c1 + 1 ∧
        Grid_per_voxel.run Pt fuel (n * k) (Grid_per_voxel.place Pt s v (a, (b0 : Int), c)) p =
        some ((List.range' (b0 + 1) n).flatMap
            (fun (b : Nat) => Grid_per_voxel.row_seeds Pt s v k a (b : Int)),
          Grid_per_voxel.place Pt s v (a, ((b0 + n : Nat) : Int), c1), p1) := by
  intro n
  induction n with
  | zero =>
    intro b0 c p hc _
    refine ⟨c, p, hc, ?_⟩
    rw [Nat.zero_mul]
    rfl
  | succ n ih =>
    intro b0 c p hc hlt
    obtain ⟨p1, h1⟩ := Grid_per_voxel.run_row Pt fuel s hs k hos v a b0 c hc (by omega) p
    obtain ⟨c2, p2, hc2, h2⟩ := ih (b0 + 1) ((k - 1 : Nat) : Int) p1
      (by rw [hos]; omega) (by omega)
    refine ⟨c2, p2, hc2, ?_⟩
    have hcount : (n + 1) * k = k + n * k := by ring
    rw [hcount, Grid_per_voxel.run_add Pt fuel k (n * k) _ _ _ _ _ _ _ _ h1 h2,
      List.range'_succ, List.flatMap_cons]
    have e : b0 + 1 + n = b0 + (n + 1) := by omega
    rw [e]
    rfl

/-- The calls that complete a plane of the grid once its first offset
(a, 0, 0) has been visited. -/
theorem Grid_per_voxel.run_plane_rest (Pt : Type) (fuel : Nat) (s : Grid_per_voxel Pt)
    (hs : s.expired = false) (m : Nat) (hos : s.os = ((m + 1 : Nat) : Int))
    (v : Int × Int × Int) (a : Int) (p : Pt) :
    ∃ b1 c1 p1 outs, s.os ≤ b1 + 1 ∧ s.os ≤ c1 + 1 ∧
      Grid_per_voxel.run Pt fuel (m + m * (m + 1)) (Grid_per_voxel.place Pt s v (a, 0, 0)) p =
        some (outs, Grid_per_voxel.place Pt s v (a, b1, c1), p1) ∧
      some (Grid_per_voxel.seed_point Pt s v (a, 0, 0)) :: outs =
        Grid_per_voxel.plane_seeds Pt s v (m + 1) a := by
  obtain ⟨p1, h1⟩ := Grid_per_voxel.run_row_rest Pt fuel s hs (m + 1) hos v a 0 m 0 p (by omega)
  obtain ⟨c2, p2, hc2, h2⟩ := Grid_per_voxel.run_rows Pt fuel s hs (m + 1) hos v a m 0
    ((0 + m : Nat) : Int) p1 (by rw [hos]; push_cast; omega) (by omega)
  refine ⟨((0 + m : Nat) : Int), c2, p2, _, by rw [hos]; push_cast; omega, hc2,
    Grid_per_voxel.run_add Pt fuel m (m * (m + 1)) _ _ _ _ _ _ _ _ h1 h2, ?_⟩
  unfold Grid_per_voxel.plane_seeds
  rw [List.range_eq_range', List.range'_succ, List.flatMap_cons]
  unfold Grid_per_voxel.row_seeds
  rw [List.range_eq_range', List.range'_succ, List.map_cons]
  rfl

/-- The calls that visit n whole planes after plane a0. -/
theorem Grid_per_voxel.run_planes (Pt : Type) (fuel : Nat) (s : Grid_per_voxel Pt)
    (hs : s.expired = false) (m : Nat) (hos : s.os = ((m + 1 : Nat) : Int))
    (v : Int × Int × Int) :
    ∀ (n a0 : Nat) (b c : Int) (p : Pt), s.os ≤ b + 1 → s.os ≤ c + 1 → a0 + n < m + 1 →
      ∃ b1 c1 p1, s.os ≤ b1 + 1 ∧ s.os ≤ c1 + 1 ∧
        Grid_per_voxel.run Pt fuel (n * ((m + 1) * (m + 1)))
          (Grid_per_voxel.place Pt s v ((a0 : Int), b, c)) p =
        some ((List.range' (a0 + 1) n).flatMap
            (fun (a : Nat) => Grid_per_voxel.plane_seeds Pt s v (m + 1) (a : Int)),
          Grid_per_voxel.place Pt s v (((a0 + n : Nat) : Int), b1, c1), p1) := by
  intro n
  induction n with
  | zero =>
    intro a0 b c p hb hc _
    refine ⟨b, c, p, hb, hc, ?_⟩
    rw [Nat.zero_mul]
    rfl
  | succ n ih =>
    intro a0 b c p hb hc hlt
    have hcall := (Grid_per_voxel.get_seed_step Pt fuel s hs v (a0 : Int) b c p).2.2.1 hc hb
      (by rw [hos]; push_cast; omega)
    have ha : ((a0 : Int) + 1) = ((a0 + 1 : Nat) : Int) := by push_cast; rfl
    rw [ha] at hcall
    obtain ⟨b1, c1, p1, outs, hb1, hc1, h1, hpl⟩ := Grid_per_voxel.run_plane_rest Pt fuel s hs m
      hos v ((a0 + 1 : Nat) : Int)
      (Grid_per_voxel.seed_point Pt s v (((a0 + 1 : Nat) : Int), 0, 0))
    have hfirst := Grid_per_voxel.run_cons Pt fuel _ _ _ _ p _ p1 _ hcall h1
    rw [hpl] at hfirst
    obtain ⟨b2, c2, p2, hb2, hc2, h2⟩ := ih (a0 + 1) b1 c1 p1 hb1 hc1 (by omega)
    refine ⟨b2, c2, p2, hb2, hc2, ?_⟩
    have hcount : (n + 1) * ((m + 1) * (m + 1))
        = (m + m * (m + 1) + 1) + n * ((m + 1) * (m + 1)) := by ring
    rw [hcount, Grid_per_voxel.run_add Pt fuel _ _ _ _ _ _ _ _ _ _ hfirst h2,
      List.range'_succ, List.flatMap_cons]
    have e : a0 + 1 + n = a0 + (n + 1) := by omega
    rw [e]

/-- The calls that visit the grid of the next voxel: from a counter about to
wrap in all three components, with the voxel loop finding the voxel w, as many
calls as the grid has offsets visit the grid of w and leave the counter about
to wrap again. -/
theorem Grid_per_voxel.run_voxel (Pt : Type) (fuel : Nat) (s : Grid_per_voxel Pt)
    (hs : s.expired = false) (m : Nat) (hos : s.os = ((m + 1 : Nat) : Int))
    (u w : Int × Int × Int) (a b c : Int) (p : Pt)
    (ha : s.os ≤ a + 1) (hb : s.os ≤ b + 1) (hc : s.os ≤ c + 1)
    (hscan : scan_mask Pt s.mask fuel u = some w) (hw : w.1 ≠ s.mask.dim0) :
    ∃ a1 b1 c1 p1, s.os ≤ a1 + 1 ∧ s.os ≤ b1 + 1 ∧ s.os ≤ c1 + 1 ∧
      Grid_per_voxel.run Pt fuel ((m + 1) * (m + 1) * (m + 1))
        (Grid_per_voxel.place Pt s u (a, b, c)) p =
      some (Grid_per_voxel.voxel_seeds Pt s (m + 1) w,
        Grid_per_voxel.place Pt s w (a1, b1, c1), p1) := by
  have hcall := ((Grid_per_voxel.get_seed_step Pt fuel s hs u a b c p).2.2.2 hc hb ha w
    hscan).1 hw
  obtain ⟨b1, c1, p1, outs, hb1, hc1, h1, hpl⟩ := Grid_per_voxel.run_plane_rest Pt fuel s hs m
    hos w 0 (Grid_per_voxel.seed_point Pt s w (0, 0, 0))
  have hfirst := Grid_per_voxel.run_cons Pt fuel _ _ _ _ p _ p1 _ hcall h1
  rw [hpl] at hfirst
  obtain ⟨b2, c2, p2, hb2, hc2, h2⟩ := Grid_per_voxel.run_planes Pt fuel s hs m hos w m 0 b1 c1
    p1 hb1 hc1 (by omega)
  refine ⟨((0 + m : Nat) : Int), b2, c2, p2, by rw [hos]; push_cast; omega, hb2, hc2, ?_⟩
  have hcount : (m + 1) * (m + 1) * (m + 1)
      = (m + m * (m + 1) + 1) + m * ((m + 1) * (m + 1)) := by ring
  rw [hcount, Grid_per_voxel.run_add Pt fuel _ _ _ _ _ _ _ _ _ _ hfirst h2]
  unfold Grid_per_voxel.voxel_seeds
  rw [List.range_eq_range', List.range'_succ, List.flatMap_cons]
  rfl

/-- The calls from a counter about to wrap, with n voxels of the image still
ahead of the voxel loop: the grids of the voxels ahead that are set in the mask
are visited in turn, and the call after the last of them returns false. -/
theorem Grid_per_voxel.run_voxels (Pt : Type) (fuel : Nat) (s : Grid_per_voxel Pt)
    (hs : s.expired = false) (m : Nat) (hos : s.os = ((m + 1 : Nat) : Int)) :
    ∀ (n : Nat) (u : Int × Int × Int),
      (∀ w ∈ voxels_after Pt s.mask n u, w.1 ≠ s.mask.dim0) →
      ((next_voxel Pt s.mask)^[n + 1] u).1 = s.mask.dim0 →
      ∀ (f : Nat) (u1 : Int × Int × Int) (a b c : Int) (p : Pt),
        s.os ≤ a + 1 → s.os ≤ b + 1 → s.os ≤ c + 1 → n < f → n < fuel →
        scan_mask Pt s.mask fuel u1 = scan_mask Pt s.mask f u →
        ∃ s1 p1, Grid_per_voxel.run Pt fuel
            (((voxels_after Pt s.mask n u).filter s.mask.value).length
              * ((m + 1) * (m + 1) * (m + 1)) + 1)
            (Grid_per_voxel.place Pt s u1 (a, b, c)) p =
          some (((voxels_after Pt s.mask n u).filter s.mask.value).flatMap
              (Grid_per_voxel.voxel_seeds Pt s (m + 1)) ++ [none], s1, p1) := by
  intro n
  induction n with
  | zero =>
    intro u _ hend f u1 a b c p ha hb hc hf _ hscan
    obtain ⟨f1, rfl⟩ : ∃ f1, f = f1 + 1 := ⟨f - 1, by omega⟩
    have hend1 : (next_voxel Pt s.mask u).1 = s.mask.dim0 := hend
    have hsc : scan_mask Pt s.mask (f1 + 1) u = some (next_voxel Pt s.mask u) := by
      unfold scan_mask
      simp only [hend1, ne_eq, not_true_eq_false, false_and, if_false]
    rw [hsc] at hscan
    have hcall := ((Grid_per_voxel.get_seed_step Pt fuel s hs u1 a b c p).2.2.2 hc hb ha _
      hscan).2 hend1
    refine ⟨{ Grid_per_voxel.place Pt s u1 (0, 0, 0) with expired := true }, p, ?_⟩
    simp only [voxels_after, List.filter_nil, List.length_nil, Nat.zero_mul, Nat.zero_add,
      List.flatMap_nil, List.nil_append]
    unfold Grid_per_voxel.run
    simp only [hcall]
    rfl
  | succ n ih =>
    intro u hall hend f u1 a b c p ha hb hc hf hfuel hscan
    obtain ⟨f1, rfl⟩ : ∃ f1, f = f1 + 1 := ⟨f - 1, by omega⟩
    have hw : (next_voxel Pt s.mask u).1 ≠ s.mask.dim0 :=
      hall _ (List.mem_cons_self _ _)
    have hall1 : ∀ w ∈ voxels_after Pt s.mask n (next_voxel Pt s.mask u), w.1 ≠ s.mask.dim0 :=
      fun w hwm => hall w (List.mem_cons_of_mem _ hwm)
    have hend1 : ((next_voxel Pt s.mask)^[n + 1] (next_voxel Pt s.mask u)).1 = s.mask.dim0 := hend
    cases hval : s.mask.value (next_voxel Pt s.mask u) with
    | false =>
      have hsc : scan_mask Pt s.mask (f1 + 1) u = scan_mask Pt s.mask f1 (next_voxel Pt s.mask u) := by
        conv_lhs => unfold scan_mask
        simp only [hw, ne_eq, not_false_eq_true, hval, and_self, if_true]
      rw [hsc] at hscan
      obtain ⟨s1, p1, hrun⟩ := ih _ hall1 hend1 f1 u1 a b c p ha hb hc (by omega) (by omega) hscan
      refine ⟨s1, p1, ?_⟩
      simp only [voxels_after, List.filter_cons, hval, Bool.false_eq_true, if_false]
      exact hrun
    | true =>
      have hsc : scan_mask Pt s.mask (f1 + 1) u = some (next_voxel Pt s.mask u) := by
        conv_lhs => unfold scan_mask
        simp only [hval, Bool.true_eq_false, and_false, if_false]
      rw [hsc] at hscan
      obtain ⟨a1, b1, c1, p1, ha1, hb1, hc1, h1⟩ := Grid_per_voxel.run_voxel Pt fuel s hs m hos
        u1 _ a b c p ha hb hc hscan hw
      obtain ⟨s2, p2, h2⟩ := ih _ hall1 hend1 fuel (next_voxel Pt s.mask u) a1 b1 c1 p1 ha1 hb1
        hc1 (by omega) (by omega) rfl
      refine ⟨s2, p2, ?_⟩
      simp only [voxels_after, List.filter_cons, hval, if_true, List.length_cons,
        List.flatMap_cons, List.append_assoc]
      have hcount : ∀ L K : Nat, (L + 1) * K + 1 = K + (L * K + 1) := fun L K => by ring
      rw [hcount]
      exact Grid_per_voxel.run_add Pt fuel _ _ _ _ _ _ _ _ _ _ h1 h2

/-- One pass of the voxel loop body moves to the voxel next in raster order. -/
theorem next_voxel_index (Pt : Type) (mask : Mask Pt) (v : Int × Int × Int)
    (hd2 : 0 < mask.dim2) (h0 : 0 ≤ v.1) (h1 : 0 ≤ v.2.1) (h2 : v.2.1 < mask.dim1) (h3 : -1 ≤ v.2.2)
    (h4 : v.2.2 < mask.dim2) :
    0 ≤ (next_voxel Pt mask v).1 ∧ 0 ≤ (next_voxel Pt mask v).2.1 ∧
    (next_voxel Pt mask v).2.1 < mask.dim1 ∧ 0 ≤ (next_voxel Pt mask v).2.2 ∧
    (next_voxel Pt mask v).2.2 < mask.dim2 ∧
    raster_index Pt mask (next_voxel Pt mask v) = raster_index Pt mask v + 1 := by
  obtain ⟨i, j, k⟩ := v
  simp only at h0 h1 h2 h3 h4
  unfold next_voxel raster_index
  simp only
  split_ifs with hk hj
  · have hj1 : j = mask.dim1 - 1 := by omega
    have hk1 : k = mask.dim2 - 1 := by omega
    dsimp only
    refine ⟨by omega, le_refl _, by omega, le_refl _, by omega, ?_⟩
    rw [hj1, hk1]
    ring
  · have hk1 : k = mask.dim2 - 1 := by omega
    dsimp only
    refine ⟨h0, by omega, by omega, le_refl _, by omega, ?_⟩
    rw [hk1]
    ring
  · dsimp only
    refine ⟨h0, h1, h2, by omega, by omega, ?_⟩
    ring

/-- The raster index of a voxel lies in the block of its first coordinate. -/
theorem raster_index_bounds (Pt : Type) (mask : Mask Pt) (v : Int × Int × Int)
    (h1 : 0 ≤ v.2.1) (h2 : v.2.1 < mask.dim1) (h3 : 0 ≤ v.2.2) (h4 : v.2.2 < mask.dim2) :
    v.1 * (mask.dim1 * mask.dim2) ≤ raster_index Pt mask v ∧
    raster_index Pt mask v < (v.1 + 1) * (mask.dim1 * mask.dim2) := by
  obtain ⟨i, j, k⟩ := v
  simp only at h1 h2 h3 h4
  unfold raster_index
  simp only
  have hd2 : 0 < mask.dim2 := by omega
  have e1 : (i * mask.dim1 + j) * mask.dim2 + k
      = i * (mask.dim1 * mask.dim2) + (j * mask.dim2 + k) := by ring
  have e2 : (i + 1) * (mask.dim1 * mask.dim2)
      = i * (mask.dim1 * mask.dim2) + mask.dim1 * mask.dim2 := by ring
  have hjd : 0 ≤ j * mask.dim2 := mul_nonneg h1 (le_of_lt hd2)
  have hjd2 : (j + 1) * mask.dim2 ≤ mask.dim1 * mask.dim2 :=
    mul_le_mul_of_nonneg_right (by omega) (le_of_lt hd2)
  have e3 : (j + 1) * mask.dim2 = j * mask.dim2 + mask.dim2 := by ring
  rw [e1, e2]
  constructor
  · omega
  · omega

theorem voxels_after_index (Pt : Type) (mask : Mask Pt) (hd2 : 0 < mask.dim2) :
    ∀ (n : Nat) (v : Int × Int × Int), 0 ≤ v.1 → 0 ≤ v.2.1 → v.2.1 < mask.dim1 →
      -1 ≤ v.2.2 → v.2.2 < mask.dim2 →
      (voxels_after Pt mask n v).length = n ∧
      (∀ (t : Nat) (w : Int × Int × Int), (voxels_after Pt mask n v).get? t = some w →
        0 ≤ w.1 ∧ 0 ≤ w.2.1 ∧ w.2.1 < mask.dim1 ∧ 0 ≤ w.2.2 ∧ w.2.2 < mask.dim2 ∧
        raster_index Pt mask w = raster_index Pt mask v + t + 1) ∧
      (0 ≤ ((next_voxel Pt mask)^[n + 1] v).1 ∧ 0 ≤ ((next_voxel Pt mask)^[n + 1] v).2.1 ∧
        ((next_voxel Pt mask)^[n + 1] v).2.1 < mask.dim1 ∧
        0 ≤ ((next_voxel Pt mask)^[n + 1] v).2.2 ∧
        ((next_voxel Pt mask)^[n + 1] v).2.2 < mask.dim2 ∧
        raster_index Pt mask ((next_voxel Pt mask)^[n + 1] v)
          = raster_index Pt mask v + n + 1) := by
  intro n
  induction n with
  | zero =>
    intro v h0 h1 h2 h3 h4
    obtain ⟨g0, g1, g2, g3, g4, g5⟩ := next_voxel_index Pt mask v hd2 h0 h1 h2 h3 h4
    refine ⟨rfl, fun t w h => by simp [voxels_after] at h, ?_⟩
    simp only [Function.iterate_succ, Function.iterate_zero, Function.comp_apply, id_eq]
    exact ⟨g0, g1, g2, g3, g4, by rw [g5]; push_cast; ring⟩
  | succ n ih =>
    intro v h0 h1 h2 h3 h4
    obtain ⟨g0, g1, g2, g3, g4, g5⟩ := next_voxel_index Pt mask v hd2 h0 h1 h2 h3 h4
    obtain ⟨i1, i2, i3⟩ := ih (next_voxel Pt mask v) g0 g1 g2 (by omega) g4
    refine ⟨by simp only [voxels_after, List.length_cons, i1], fun t w h => ?_, ?_⟩
    · cases t with
      | zero =>
        simp only [voxels_after, List.get?_cons_zero, Option.some.injEq] at h
        subst h
        exact ⟨g0, g1, g2, g3, g4, by rw [g5]; push_cast; ring⟩
      | succ t1 =>
        simp only [voxels_after, List.get?_cons_succ] at h
        obtain ⟨k0, k1, k2, k3, k4, k5⟩ := i2 t1 w h
        exact ⟨k0, k1, k2, k3, k4, by rw [k5, g5]; push_cast; ring⟩
    · rw [Function.iterate_succ, Function.comp_apply]
      obtain ⟨k0, k1, k2, k3, k4, k5⟩ := i3
      exact ⟨k0, k1, k2, k3, k4, by rw [k5, g5]; push_cast; ring⟩

theorem raster_index_injective (Pt : Type) (mask : Mask Pt) (v w : Int × Int × Int)
    (v1 : 0 ≤ v.2.1) (v2 : v.2.1 < mask.dim1) (v3 : 0 ≤ v.2.2) (v4 : v.2.2 < mask.dim2)
    (w1 : 0 ≤ w.2.1) (w2 : w.2.1 < mask.dim1) (w3 : 0 ≤ w.2.2) (w4 : w.2.2 < mask.dim2)
    (h : raster_index Pt mask v = raster_index Pt mask w) : v = w := by
  have hd1 : 0 < mask.dim1 := by omega
  have hd2 : 0 < mask.dim2 := by omega
  have hD : 0 < mask.dim1 * mask.dim2 := mul_pos hd1 hd2
  obtain ⟨a1, a2⟩ := raster_index_bounds Pt mask v v1 v2 v3 v4
  obtain ⟨b1, b2⟩ := raster_index_bounds Pt mask w w1 w2 w3 w4
  rw [h] at a1 a2
  have hi : v.1 = w.1 := by
    rcases lt_trichotomy v.1 w.1 with hlt | heq | hgt
    · have := mul_le_mul_of_nonneg_right (show v.1 + 1 ≤ w.1 by omega) (le_of_lt hD)
      omega
    · exact heq
    · have := mul_le_mul_of_nonneg_right (show w.1 + 1 ≤ v.1 by omega) (le_of_lt hD)
      omega
  obtain ⟨i, j, k⟩ := v
  obtain ⟨i1, j1, k1⟩ := w
  simp only at v1 v2 v3 v4 w1 w2 w3 w4 hi
  subst hi
  unfold raster_index at h
  simp only at h
  have e1 : (i * mask.dim1 + j) * mask.dim2 = i * mask.dim1 * mask.dim2 + j * mask.dim2 := by
    ring
  have e2 : (i * mask.dim1 + j1) * mask.dim2 = i * mask.dim1 * mask.dim2 + j1 * mask.dim2 := by
    ring
  rw [e1, e2] at h
  have hj : j = j1 := by
    rcases lt_trichotomy j j1 with hlt | heq | hgt
    · have := mul_le_mul_of_nonneg_right (show j + 1 ≤ j1 by omega) (le_of_lt hd2)
      have e3 : (j + 1) * mask.dim2 = j * mask.dim2 + mask.dim2 := by ring
      omega
    · exact heq
    · have := mul_le_mul_of_nonneg_right (show j1 + 1 ≤ j by omega) (le_of_lt hd2)
      have e3 : (j1 + 1) * mask.dim2 = j1 * mask.dim2 + mask.dim2 := by ring
      omega
  subst hj
  have hk : k = k1 := by omega
  rw [hk]

/-- The voxel sequence is the raster enumeration of the mask image: it holds
one voxel per raster index, each within the image, every voxel of the image
occurs in it, and the voxel that the loop reaches after the last one has the
first coordinate equal to the first dimension. -/
theorem voxel_sequence_raster (Pt : Type) (mask : Mask Pt) (hd0 : 0 < mask.dim0)
    (hd1 : 0 < mask.dim1) (hd2 : 0 < mask.dim2) :
    ((voxel_sequence Pt mask).length : Int) = mask.dim0 * mask.dim1 * mask.dim2 ∧
    (∀ (t : Nat) (w : Int × Int × Int), (voxel_sequence Pt mask).get? t = some w →
      in_image Pt mask w ∧ raster_index Pt mask w = t) ∧
    (∀ v, in_image Pt mask v → v ∈ voxel_sequence Pt mask) ∧
    ((next_voxel Pt mask)^[(mask.dim0 * mask.dim1 * mask.dim2).toNat + 1] (0, 0, -1)).1
      = mask.dim0 := by
  have hD : 0 < mask.dim1 * mask.dim2 := mul_pos hd1 hd2
  have htot : 0 ≤ mask.dim0 * mask.dim1 * mask.dim2 := by
    rw [mul_assoc]
    exact le_of_lt (mul_pos hd0 hD)
  have hcast : (((mask.dim0 * mask.dim1 * mask.dim2).toNat : Nat) : Int)
      = mask.dim0 * mask.dim1 * mask.dim2 := Int.toNat_of_nonneg htot
  obtain ⟨i1, i2, i3⟩ := voxels_after_index Pt mask hd2
    (mask.dim0 * mask.dim1 * mask.dim2).toNat (0, 0, -1) (le_refl _) (le_refl _) hd1
    (le_refl _) (by show (-1 : Int) < mask.dim2; omega)
  have hidx0 : raster_index Pt mask (0, 0, -1) = -1 := by
    unfold raster_index
    simp
  have hfirst : ∀ (w : Int × Int × Int) (x : Int), 0 ≤ w.1 → 0 ≤ w.2.1 → w.2.1 < mask.dim1 →
      0 ≤ w.2.2 → w.2.2 < mask.dim2 → raster_index Pt mask w = x →
      (x < mask.dim0 * mask.dim1 * mask.dim2 → w.1 < mask.dim0) ∧
      (x = mask.dim0 * mask.dim1 * mask.dim2 → w.1 = mask.dim0) := by
    intro w x k0 k1 k2 k3 k4 k5
    obtain ⟨b1, b2⟩ := raster_index_bounds Pt mask w k1 k2 k3 k4
    rw [k5] at b1 b2
    constructor
    · intro hx
      by_contra hc
      have h1 : mask.dim0 * (mask.dim1 * mask.dim2) ≤ w.1 * (mask.dim1 * mask.dim2) :=
        mul_le_mul_of_nonneg_right (by omega) (le_of_lt hD)
      rw [mul_assoc] at hx
      omega
    · intro hx
      rw [mul_assoc] at hx
      have hle : w.1 ≤ mask.dim0 := by
        by_contra hc
        have h1 : (mask.dim0 + 1) * (mask.dim1 * mask.dim2) ≤ w.1 * (mask.dim1 * mask.dim2) :=
          mul_le_mul_of_nonneg_right (by omega) (le_of_lt hD)
        have e : (mask.dim0 + 1) * (mask.dim1 * mask.dim2)
            = mask.dim0 * (mask.dim1 * mask.dim2) + mask.dim1 * mask.dim2 := by ring
        omega
      have hge : mask.dim0 ≤ w.1 := by
        by_contra hc
        have h1 : (w.1 + 1) * (mask.dim1 * mask.dim2) ≤ mask.dim0 * (mask.dim1 * mask.dim2) :=
          mul_le_mul_of_nonneg_right (by omega) (le_of_lt hD)
        omega
      omega
  have hget : ∀ (t : Nat) (w : Int × Int × Int), (voxel_sequence Pt mask).get? t = some w →
      in_image Pt mask w ∧ raster_index Pt mask w = t := by
    intro t w h
    obtain ⟨k0, k1, k2, k3, k4, k5⟩ := i2 t w h
    rw [hidx0] at k5
    have k6 : raster_index Pt mask w = (t : Int) := by rw [k5]; ring
    have htl : t < (mask.dim0 * mask.dim1 * mask.dim2).toNat := by
      rw [← i1]
      exact List.get?_eq_some.mp h |>.1
    have := (hfirst w t k0 k1 k2 k3 k4 k6).1 (by omega)
    exact ⟨⟨k0, this, k1, k2, k3, k4⟩, k6⟩
  refine ⟨by rw [← hcast]; exact congrArg Nat.cast i1, hget, fun v hv => ?_, ?_⟩
  · obtain ⟨v0, v1, v2, v3, v4, v5⟩ := hv
    obtain ⟨b1, b2⟩ := raster_index_bounds Pt mask v v2 v3 v4 v5
    have hnn : 0 ≤ raster_index Pt mask v :=
      le_trans (mul_nonneg v0 (le_of_lt hD)) b1
    have hlt : raster_index Pt mask v < mask.dim0 * mask.dim1 * mask.dim2 := by
      have h1 : (v.1 + 1) * (mask.dim1 * mask.dim2) ≤ mask.dim0 * (mask.dim1 * mask.dim2) :=
        mul_le_mul_of_nonneg_right (by omega) (le_of_lt hD)
      rw [mul_assoc]
      omega
    have htl : (raster_index Pt mask v).toNat < (voxel_sequence Pt mask).length := by
      have : (((voxel_sequence Pt mask).length : Nat) : Int)
          = mask.dim0 * mask.dim1 * mask.dim2 := by rw [← hcast]; exact congrArg Nat.cast i1
      omega
    have hw := List.get?_eq_get htl
    obtain ⟨⟨w0, w1, w2, w3, w4, w5⟩, hwi⟩ := hget _ _ hw
    have hidx : raster_index Pt mask ((voxel_sequence Pt mask).get ⟨_, htl⟩)
        = raster_index Pt mask v := by
      rw [hwi]
      exact Int.toNat_of_nonneg hnn
    have heq := raster_index_injective Pt mask _ v w2 w3 w4 w5 v2 v3 v4 v5 hidx
    rw [← heq]
    exact List.get_mem _ _ _
  · obtain ⟨k0, k1, k2, k3, k4, k5⟩ := i3
    rw [hidx0] at k5
    exact (hfirst _ _ k0 k1 k2 k3 k4 k5).2 (by rw [hcast]; ring)

/-- The grid offsets are the triples below os, each once. -/
theorem grid_offsets_spec (k : Nat) :
    (grid_offsets k).length = k * k * k ∧ (grid_offsets k).Nodup ∧
    ∀ q : Int × Int × Int, q ∈ grid_offsets k ↔
      0 ≤ q.1 ∧ q.1 < k ∧ 0 ≤ q.2.1 ∧ q.2.1 < k ∧ 0 ≤ q.2.2 ∧ q.2.2 < k := by
  have hmem : ∀ q : Int × Int × Int, q ∈ grid_offsets k ↔
      ∃ a < k, ∃ b < k, ∃ c < k, ((a : Int), (b : Int), (c : Int)) = q := by
    intro q
    simp only [grid_offsets, List.mem_flatMap, List.mem_map, List.mem_range]
  refine ⟨?_, ?_, fun q => ?_⟩
  · simp only [grid_offsets, List.length_flatMap, List.length_map, List.length_range,
      Function.comp_def, List.map_const', List.sum_replicate, smul_eq_mul]
    ring
  · unfold grid_offsets
    rw [List.nodup_flatMap]
    refine ⟨fun a _ => ?_, ?_⟩
    · rw [List.nodup_flatMap]
      refine ⟨fun b _ => ?_, ?_⟩
      · refine List.Nodup.map (fun c1 c2 h => ?_) (List.nodup_range k)
        simp only [Prod.mk.injEq, Nat.cast_inj, true_and] at h
        exact h
      · refine (List.pairwise_lt_range k).imp ?_
        intro b1 b2 hlt
        simp only [Function.onFun, List.disjoint_left, List.mem_map, List.mem_range]
        rintro x ⟨c1, -, rfl⟩ ⟨c2, -, h⟩
        simp only [Prod.mk.injEq, Nat.cast_inj, true_and] at h
        omega
    · refine (List.pairwise_lt_range k).imp ?_
      intro a1 a2 hlt
      simp only [Function.onFun, List.disjoint_left, List.mem_flatMap, List.mem_map,
        List.mem_range]
      rintro x ⟨b1, -, c1, -, rfl⟩ ⟨b2, -, c2, -, h⟩
      simp only [Prod.mk.injEq, Nat.cast_inj] at h
      omega
  · rw [hmem]
    constructor
    · rintro ⟨a, ha, b, hb, c, hc, rfl⟩
      simp only
      omega
    · rintro ⟨h1, h2, h3, h4, h5, h6⟩
      refine ⟨q.1.toNat, by omega, q.2.1.toNat, by omega, q.2.2.toNat, by omega, ?_⟩
      obtain ⟨a, b, c⟩ := q
      simp only at h1 h3 h5
      simp only [Int.toNat_of_nonneg h1, Int.toNat_of_nonneg h3, Int.toNat_of_nonneg h5]

/-- C29. `Grid_per_voxel` on a mask image with positive dimensions and an
oversampling factor os >= 1, started in its initial state: the calls of
`get_seed` return, for each voxel set in the mask, taken in raster order, one
seed for every grid offset, taken in the order of `grid_offsets` (os^3 offsets,
none repeated), and the call after the last of these returns false. The voxel
sequence is the raster enumeration of the image: its t-th voxel lies in the
image and has raster index t, and every voxel of the image occurs in it. -/
theorem grid_per_voxel_enumerates (Pt : Type) (mask : Mask Pt) (k : Nat)
    (grid_point : Int × Int × Int → Int × Int × Int → Pt) (fuel : Nat) (p0 : Pt)
    (hd0 : 0 < mask.dim0) (hd1 : 0 < mask.dim1) (hd2 : 0 < mask.dim2) (hk : 1 ≤ k)
    (hfuel : (mask.dim0 * mask.dim1 * mask.dim2).toNat < fuel) :
    (∃ s1 p1, Grid_per_voxel.run Pt fuel
        (((voxel_sequence Pt mask).filter mask.value).length * (k * k * k) + 1)
        (Grid_per_voxel.initial Pt mask (k : Int) grid_point) p0 =
      some (((voxel_sequence Pt mask).filter mask.value).flatMap
          (fun v => (grid_offsets k).map
            (fun q => some (mask.voxel2scanner (grid_point v q)))) ++ [none], s1, p1)) ∧
    (((voxel_sequence Pt mask).length : Int) = mask.dim0 * mask.dim1 * mask.dim2 ∧
      (∀ (t : Nat) (w : Int × Int × Int), (voxel_sequence Pt mask).get? t = some w →
        in_image Pt mask w ∧ raster_index Pt mask w = t) ∧
      ∀ v, in_image Pt mask v → v ∈ voxel_sequence Pt mask) ∧
    ((grid_offsets k).length = k * k * k ∧ (grid_offsets k).Nodup ∧
      ∀ q : Int × Int × Int, q ∈ grid_offsets k ↔
        0 ≤ q.1 ∧ q.1 < k ∧ 0 ≤ q.2.1 ∧ q.2.1 < k ∧ 0 ≤ q.2.2 ∧ q.2.2 < k) := by
  obtain ⟨r1, r2, r3, r4⟩ := voxel_sequence_raster Pt mask hd0 hd1 hd2
  refine ⟨?_, ⟨r1, r2, r3⟩, grid_offsets_spec k⟩
  obtain ⟨m, rfl⟩ : ∃ m, k = m + 1 := ⟨k - 1, by omega⟩
  have hall : ∀ w ∈ voxels_after Pt mask (mask.dim0 * mask.dim1 * mask.dim2).toNat (0, 0, -1),
      w.1 ≠ mask.dim0 := by
    intro w hw
    obtain ⟨t, ht⟩ := List.mem_iff_get?.mp hw
    have := (r2 t w ht).1.2.1
    omega
  obtain ⟨s1, p1, hrun⟩ := Grid_per_voxel.run_voxels Pt fuel
    (Grid_per_voxel.initial Pt mask ((m + 1 : Nat) : Int) grid_point) rfl m rfl
    (mask.dim0 * mask.dim1 * mask.dim2).toNat (0, 0, -1) hall r4 fuel (0, 0, -1)
    ((m + 1 : Nat) : Int) ((m + 1 : Nat) : Int) ((m + 1 : Nat) : Int) p0
    (by show ((m + 1 : Nat) : Int) ≤ _; omega) (by show ((m + 1 : Nat) : Int) ≤ _; omega)
    (by show ((m + 1 : Nat) : Int) ≤ _; omega) hfuel hfuel rfl
  refine ⟨s1, p1, ?_⟩
  have hfun : (fun v => (grid_offsets (m + 1)).map
      (fun q => some (mask.voxel2scanner (grid_point v q))))
      = Grid_per_voxel.voxel_seeds Pt
          (Grid_per_voxel.initial Pt mask ((m + 1 : Nat) : Int) grid_point) (m + 1) := by
    funext v
    rw [Grid_per_voxel.voxel_seeds_eq]
    rfl
  rw [hfun]
  exact hrun

theorem grid_per_voxel_enumerates_witness :
    (∃ s1 p1, Grid_per_voxel.run (Int × Int × Int) 5
        (((voxel_sequence (Int × Int × Int) gap_mask).filter gap_mask.value).length
          * (2 * 2 * 2) + 1)
        (Grid_per_voxel.initial (Int × Int × Int) gap_mask ((2 : Nat) : Int)
          last_voxel_grid.grid_point) (7, 7, 7) =
      some (((voxel_sequence (Int × Int × Int) gap_mask).filter gap_mask.value).flatMap
          (fun v => (grid_offsets 2).map
            (fun q => some (gap_mask.voxel2scanner (last_voxel_grid.grid_point v q))))
          ++ [none], s1, p1)) ∧
    (voxel_sequence (Int × Int × Int) gap_mask).filter gap_mask.value = [(0, 0, 0), (0, 0, 2)] ∧
    (Grid_per_voxel.run (Int × Int × Int) 5 17
        (Grid_per_voxel.initial (Int × Int × Int) gap_mask 2 last_voxel_grid.grid_point)
        (7, 7, 7)).map (fun r => r.1) =
      some [some (0, 0, 0), some (0, 0, 1), some (0, 1, 0), some (0, 1, 1), some (1, 0, 0),
        some (1, 0, 1), some (1, 1, 0), some (1, 1, 1), some (0, 0, 4), some (0, 0, 5),
        some (0, 1, 4), some (0, 1, 5), some (1, 0, 4), some (1, 0, 5), some (1, 1, 4),
        some (1, 1, 5), none] :=
  ⟨(grid_per_voxel_enumerates (Int × Int × Int) gap_mask 2 last_voxel_grid.grid_point 5
      (7, 7, 7) (by decide) (by decide) (by decide) (by decide) (by decide)).1,
   rfl, rfl⟩

/-! ### The bounding box of the rejection sampler -/

theorem axis_bounds_step (old new : Nat × Nat) (x : Nat) (xs : List Nat)
    (h : axis_bounds (axis_update old x) new xs) : axis_bounds old new (x :: xs) := by
  obtain ⟨h1, h2, h3, h4, h5⟩ := h
  unfold axis_update at h1 h2 h4 h5
  simp only at h1 h2 h4 h5
  refine ⟨?_, ?_, ?_, ?_, ?_⟩
  · split_ifs at h1 <;> omega
  · split_ifs at h2 <;> omega
  · intro y hy
    rcases List.mem_cons.mp hy with rfl | hy
    · constructor
      · split_ifs at h1 <;> omega
      · split_ifs at h2 <;> omega
    · exact h3 y hy
  · rcases h4 with h4 | h4
    · split_ifs at h4 with hc
      · exact Or.inr (by rw [h4]; exact List.mem_cons_self _ _)
      · exact Or.inl h4
    · exact Or.inr (List.mem_cons_of_mem _ h4)
  · rcases h5 with h5 | h5
    · split_ifs at h5 with hc
      · exact Or.inr (by rw [h5]; exact List.mem_cons_self _ _)
      · exact Or.inl h5
    · exact Or.inr (List.mem_cons_of_mem _ h5)

/-- The loop of the constructor over an image without negative values
returns; the maximum does not decrease and bounds every non-zero value, and on
each axis the pair (bottom, top) is updated with the coordinates of the
voxels of non-zero value. -/
theorem Rejection_scan_spec :
    ∀ (voxels : List ((Nat × Nat × Nat) × Int))
      (st : Int × (Nat × Nat) × (Nat × Nat) × (Nat × Nat)),
      (∀ v ∈ voxels, 0 ≤ v.2) →
      ∃ st1, Rejection_scan voxels st = Except.ok st1 ∧ st.1 ≤ st1.1 ∧
        (∀ v ∈ voxels, v.2 ≠ 0 → v.2 ≤ st1.1) ∧
        axis_bounds st.2.1 st1.2.1
          ((voxels.filter (fun v => decide (v.2 ≠ 0))).map (fun v => v.1.1)) ∧
        axis_bounds st.2.2.1 st1.2.2.1
          ((voxels.filter (fun v => decide (v.2 ≠ 0))).map (fun v => v.1.2.1)) ∧
        axis_bounds st.2.2.2 st1.2.2.2
          ((voxels.filter (fun v => decide (v.2 ≠ 0))).map (fun v => v.1.2.2)) := by
  intro voxels
  induction voxels with
  | nil =>
    intro st _
    refine ⟨st, rfl, le_refl _, fun v hv => absurd hv (List.not_mem_nil v), ?_, ?_, ?_⟩ <;>
      exact ⟨le_refl _, le_refl _, fun x hx => absurd hx (List.not_mem_nil x), Or.inl rfl,
        Or.inl rfl⟩
  | cons v rest ih =>
    intro st hnn
    obtain ⟨p, value⟩ := v
    have hv0 : 0 ≤ value := hnn (p, value) (List.mem_cons_self _ _)
    have hrest : ∀ w ∈ rest, 0 ≤ w.2 := fun w hw => hnn w (List.mem_cons_of_mem _ hw)
    by_cases hz : value = 0
    · obtain ⟨st1, h1, h2, h3, h4, h5, h6⟩ := ih st hrest
      refine ⟨st1, ?_, h2, ?_, ?_, ?_, ?_⟩
      · simp only [Rejection_scan, hz, ne_eq, not_true_eq_false, if_false]
        exact h1
      · intro w hw hne
        rcases List.mem_cons.mp hw with rfl | hw
        · exact absurd hz hne
        · exact h3 w hw hne
      · simpa [List.filter_cons, hz] using h4
      · simpa [List.filter_cons, hz] using h5
      · simpa [List.filter_cons, hz] using h6
    · obtain ⟨st1, h1, h2, h3, h4, h5, h6⟩ := ih
        (max st.1 value, axis_update st.2.1 p.1, axis_update st.2.2.1 p.2.1,
          axis_update st.2.2.2 p.2.2) hrest
      refine ⟨st1, ?_, le_trans (le_max_left _ _) h2, ?_, ?_, ?_, ?_⟩
      · simp only [Rejection_scan, ne_eq, hz, not_false_eq_true, if_true,
          not_lt.mpr hv0, if_false]
        exact h1
      · intro w hw hne
        rcases List.mem_cons.mp hw with rfl | hw
        · exact le_trans (le_max_right _ _) h2
        · exact h3 w hw hne
      · simp only [List.filter_cons, ne_eq, hz, not_false_eq_true, decide_True, if_true,
          List.map_cons]
        exact axis_bounds_step _ _ _ _ h4
      · simp only [List.filter_cons, ne_eq, hz, not_false_eq_true, decide_True, if_true,
          List.map_cons]
        exact axis_bounds_step _ _ _ _ h5
      · simp only [List.filter_cons, ne_eq, hz, not_false_eq_true, decide_True, if_true,
          List.map_cons]
        exact axis_bounds_step _ _ _ _ h6

/-- The margin adjustment of one axis: no subtraction wraps around, the box
lies within the image and holds every coordinate of a voxel of non-zero
value. -/
theorem margin_spec (dim : Nat) (bt : Nat × Nat) (xs : List Nat)
    (hb : axis_bounds (SIZE_MAX, 0) bt xs) (hne : xs ≠ []) (hdim : dim < 2 ^ 63)
    (hxs : ∀ x ∈ xs, x < dim) :
    (margin dim bt).1 = bt.1 - 1 ∧ (margin dim bt).1 ≤ dim ∧ (margin dim bt).1 ≤ bt.2 + 2 ∧
    bt.2 + 2 < 2 ^ 64 ∧
    (margin dim bt).2 = min (dim - (margin dim bt).1) (bt.2 + 2 - (margin dim bt).1) ∧
    (margin dim bt).1 + (margin dim bt).2 ≤ dim ∧
    ∀ x ∈ xs, (margin dim bt).1 ≤ x ∧ x < (margin dim bt).1 + (margin dim bt).2 := by
  obtain ⟨b, t⟩ := bt
  obtain ⟨h1, h2, h3, h4, h5⟩ := hb
  simp only at h1 h2 h3 h4 h5
  obtain ⟨x0, hx0⟩ := List.exists_mem_of_ne_nil xs hne
  have hx0d := hxs x0 hx0
  have hx0b := h3 x0 hx0
  have h63 : (2 : Nat) ^ 63 = 9223372036854775808 := by norm_num
  have h64 : (2 : Nat) ^ 64 = 18446744073709551616 := by norm_num
  rw [h63] at hdim
  have htd : t < dim := by
    rcases h5 with h5 | h5
    · omega
    · exact hxs t h5
  have hbt : b ≤ t := le_trans hx0b.1 hx0b.2
  have hm1 : (margin dim (b, t)).1 = b - 1 := by
    unfold margin sub_size_t
    simp only [h64]
    split_ifs <;> omega
  have hm2 : (margin dim (b, t)).2 = min (dim - (b - 1)) (t + 2 - (b - 1)) := by
    unfold margin sub_size_t add_size_t
    simp only [h64]
    split_ifs <;> omega
  rw [hm1, hm2, h64]
  refine ⟨rfl, by omega, by omega, by omega, rfl, by omega, fun x hx => ?_⟩
  have := h3 x hx
  have := hxs x hx
  omega

/-- C30. The bounding box of the constructor of `Rejection`, for an image with
dimensions below 2^63, no negative value and at least one non-zero value: the
constructor computes a box, obtained by the margin adjustment from the pairs
(bottom, top) that the voxel loop leaves. On every axis no `size_t`
subtraction wraps around (the adjusted bottom is at most the dimension and at
most top + 2, and top + 2 does not overflow), the adjusted bottom plus the
adjusted top is at most the dimension, and the coordinate i of every voxel of
non-zero value satisfies bottom <= i < bottom + top. -/
theorem rejection_bounding_box_sound (dim : Nat × Nat × Nat)
    (voxels : List ((Nat × Nat × Nat) × Int))
    (hdim : dim.1 < 2 ^ 63 ∧ dim.2.1 < 2 ^ 63 ∧ dim.2.2 < 2 ^ 63)
    (hpos : ∀ v ∈ voxels, v.1.1 < dim.1 ∧ v.1.2.1 < dim.2.1 ∧ v.1.2.2 < dim.2.2)
    (hnn : ∀ v ∈ voxels, 0 ≤ v.2) (hex : ∃ v ∈ voxels, v.2 ≠ 0) :
    ∃ st r, Rejection_scan voxels (0, (SIZE_MAX, 0), (SIZE_MAX, 0), (SIZE_MAX, 0))
        = Except.ok st ∧
      Rejection_bounds dim voxels = Except.ok r ∧
      r = (margin dim.1 st.2.1, margin dim.2.1 st.2.2.1, margin dim.2.2 st.2.2.2) ∧
      (r.1.1 ≤ dim.1 ∧ r.1.1 ≤ st.2.1.2 + 2 ∧ st.2.1.2 + 2 < 2 ^ 64 ∧
        r.1.1 + r.1.2 ≤ dim.1) ∧
      (r.2.1.1 ≤ dim.2.1 ∧ r.2.1.1 ≤ st.2.2.1.2 + 2 ∧ st.2.2.1.2 + 2 < 2 ^ 64 ∧
        r.2.1.1 + r.2.1.2 ≤ dim.2.1) ∧
      (r.2.2.1 ≤ dim.2.2 ∧ r.2.2.1 ≤ st.2.2.2.2 + 2 ∧ st.2.2.2.2 + 2 < 2 ^ 64 ∧
        r.2.2.1 + r.2.2.2 ≤ dim.2.2) ∧
      ∀ v ∈ voxels, v.2 ≠ 0 →
        (r.1.1 ≤ v.1.1 ∧ v.1.1 < r.1.1 + r.1.2) ∧
        (r.2.1.1 ≤ v.1.2.1 ∧ v.1.2.1 < r.2.1.1 + r.2.1.2) ∧
        (r.2.2.1 ≤ v.1.2.2 ∧ v.1.2.2 < r.2.2.1 + r.2.2.2) := by
  obtain ⟨st, hscan, -, hmax, ha0, ha1, ha2⟩ := Rejection_scan_spec voxels
    (0, (SIZE_MAX, 0), (SIZE_MAX, 0), (SIZE_MAX, 0)) hnn
  obtain ⟨v0, hv0, hv0n⟩ := hex
  have hmax0 : st.1 ≠ 0 := by
    have h1 := hmax v0 hv0 hv0n
    have h2 := hnn v0 hv0
    omega
  have hmemf : ∀ v ∈ voxels, v.2 ≠ 0 → v ∈ voxels.filter (fun v => decide (v.2 ≠ 0)) := by
    intro v hv hne
    rw [List.mem_filter]
    exact ⟨hv, by simpa using hne⟩
  have hne : ∀ (f : (Nat × Nat × Nat) × Int → Nat),
      (voxels.filter (fun v => decide (v.2 ≠ 0))).map f ≠ [] := by
    intro f hc
    have := List.mem_map_of_mem f (hmemf v0 hv0 hv0n)
    rw [hc] at this
    exact absurd this (List.not_mem_nil _)
  have hlt : ∀ (f : (Nat × Nat × Nat) × Int → Nat) (d : Nat), (∀ v ∈ voxels, f v < d) →
      ∀ x ∈ (voxels.filter (fun v => decide (v.2 ≠ 0))).map f, x < d := by
    intro f d hf x hx
    obtain ⟨v, hv, rfl⟩ := List.mem_map.mp hx
    exact hf v (List.mem_filter.mp hv).1
  obtain ⟨-, m01, m02, m03, -, m05, m06⟩ := margin_spec dim.1 st.2.1 _ ha0 (hne _) hdim.1
    (hlt _ _ (fun v hv => (hpos v hv).1))
  obtain ⟨-, m11, m12, m13, -, m15, m16⟩ := margin_spec dim.2.1 st.2.2.1 _ ha1 (hne _) hdim.2.1
    (hlt _ _ (fun v hv => (hpos v hv).2.1))
  obtain ⟨-, m21, m22, m23, -, m25, m26⟩ := margin_spec dim.2.2 st.2.2.2 _ ha2 (hne _) hdim.2.2
    (hlt _ _ (fun v hv => (hpos v hv).2.2))
  refine ⟨st, _, hscan, ?_, rfl, ⟨m01, m02, m03, m05⟩, ⟨m11, m12, m13, m15⟩,
    ⟨m21, m22, m23, m25⟩, fun v hv hvn => ⟨?_, ?_, ?_⟩⟩
  · unfold Rejection_bounds
    simp only [hscan, hmax0, if_false]
  · exact m06 _ (List.mem_map_of_mem (fun v => v.1.1) (hmemf v hv hvn))
  · exact m16 _ (List.mem_map_of_mem (fun v => v.1.2.1) (hmemf v hv hvn))
  · exact m26 _ (List.mem_map_of_mem (fun v => v.1.2.2) (hmemf v hv hvn))

theorem rejection_bounding_box_sound_witness :
    Rejection_bounds (4, 3, 1)
        [((0, 0, 0), 0), ((1, 0, 0), 0), ((2, 1, 0), 5), ((3, 2, 0), 7)]
      = Except.ok ((1, 3), (0, 3), (0, 1)) ∧
    ∃ st r, Rejection_scan [((0, 0, 0), 0), ((1, 0, 0), 0), ((2, 1, 0), 5), ((3, 2, 0), 7)]
        (0, (SIZE_MAX, 0), (SIZE_MAX, 0), (SIZE_MAX, 0)) = Except.ok st ∧
      Rejection_bounds (4, 3, 1)
        [((0, 0, 0), 0), ((1, 0, 0), 0), ((2, 1, 0), 5), ((3, 2, 0), 7)] = Except.ok r ∧
      r.1.1 + r.1.2 ≤ 4 ∧ r.2.1.1 + r.2.1.2 ≤ 3 ∧ r.2.2.1 + r.2.2.2 ≤ 1 :=
  ⟨rfl,
   let ⟨st, r, h1, h2, _, h3, h4, h5, _⟩ := rejection_bounding_box_sound (4, 3, 1)
     [((0, 0, 0), 0), ((1, 0, 0), 0), ((2, 1, 0), 5), ((3, 2, 0), 7)]
     (by decide) (by decide) (by decide) (by decide)
   ⟨st, r, h1, h2, h3.2.2.2, h4.2.2.2, h5.2.2.2⟩⟩

end Tracking
